import Mathlib

/-!
Scroller column management (`src/layout/column.h`): a shallow embedding of the
column engine of the scroller layout, and the properties of it that the
specification states.

Representation.

The C code links records through intrusive `wl_list` nodes and raw pointers.
Here every record lives in a store indexed by a handle (a natural number):

* a pointer is a handle, a nullable pointer an `Option` of a handle;
* an intrusive list is the sequence of handles met when walking it from the
  head sentinel (`wl_list_for_each`);
* `wl_list_remove(&x->link)` takes the node `x` out of whatever list it is
  in, so it filters `x` out of every sequence that link can be a member of;
* `wl_list_insert(pos, &x->link)` puts the handle `x` right after the
  position it is given: at the end for `head.prev`, before the node `n` for
  `n->link.prev`, at the front for the head sentinel itself;
* `ecalloc` hands out the handle `brk` and advances it, `free` clears the slot;
* a function argument is a handle, never NULL, so the `if (!m) return;`
  guards on arguments have no counterpart; NULL fields are `none`;
* `int32_t` is `Int` and `/` is `Int.tdiv`, C's truncating division.  The
  counters and indices move by one and stay far from the 32-bit limits.  The
  geometry of `scroller_render_column` is computed from arbitrary boxes and
  gaps, so there every `int32_t` operation stores `wrap32` of its exact
  result, the two's-complement value in `[-2^31, 2^31)`;
* `float` is `Rat`.

`VISIBLEON`, `ISSCROLLTILED` and `scroller_default_proportion` are declared
outside this file; they are the fields of `Env`.  The functions of this file
never assign to the client or monitor fields those macros read.
-/

namespace Scroller

/-! ## Data model -/

/-- Fields of `Client` that this file reads or writes. -/
structure Client where
  /-- Field `Monitor *mon` -/
  mon : Option Nat
  /-- Field `ScrollerColumn *column` -/
  column : Option Nat
  /-- Field `int32_t tile_index` -/
  tile_index : Int
  /-- Field `float scroller_proportion` -/
  scroller_proportion : Rat

/-- The C `struct ScrollerColumn`; `tiles` is the walk of the `tiles` list, `link`
is represented by membership in a monitor's `scroller_columns`. -/
structure ScrollerColumn where
  tiles : List Nat
  active_tile_idx : Int
  tile_count : Int
  proportion : Rat
  mon : Option Nat

/-- Fields of `Monitor` that this file reads or writes. -/
structure Monitor where
  /-- walk of `struct wl_list scroller_columns` -/
  scroller_columns : List Nat
  active_column_idx : Int
  column_count : Int
  /-- Field `Client *sel` -/
  sel : Option Nat

/-- What the file takes from the rest of the compositor: the macros
`VISIBLEON(c, m)` and `ISSCROLLTILED(c)` and the global
`scroller_default_proportion`. -/
structure Env where
  visibleOn : Nat → Nat → Bool
  isScrollTiled : Nat → Bool
  scroller_default_proportion : Rat

/-- The memory the functions work on: the global `clients` list, the three
record stores and the allocation mark. -/
structure World where
  /-- walk of the global `struct wl_list clients` -/
  clients : List Nat
  client : Nat → Client
  column : Nat → ScrollerColumn
  monitor : Nat → Monitor
  brk : Nat

/-- The C `struct wlr_box` -/
structure Box where
  x : Int
  y : Int
  width : Int
  height : Int
deriving DecidableEq, Repr

/-! ## Store and list primitives -/

/-- Assignment to the record of client `c`. -/
def World.setClient (w : World) (c : Nat) (v : Client) : World :=
  { w with client := fun x => if x = c then v else w.client x }

/-- Assignment to the record of column `k`. -/
def World.setColumn (w : World) (k : Nat) (v : ScrollerColumn) : World :=
  { w with column := fun x => if x = k then v else w.column x }

/-- Assignment to the record of monitor `m`. -/
def World.setMonitor (w : World) (m : Nat) (v : Monitor) : World :=
  { w with monitor := fun x => if x = m then v else w.monitor x }

/-- The zeroed column record (`ecalloc`, and a slot after `free`). -/
def blankColumn : ScrollerColumn :=
  { tiles := [], active_tile_idx := 0, tile_count := 0, proportion := 0, mon := none }

/-- The call `wl_list_remove(&c->column_link)`: the node leaves the tile list it is in. -/
def unlinkTile (w : World) (c : Nat) : World :=
  { w with column := fun k =>
      { w.column k with tiles := (w.column k).tiles.filter (fun x => x != c) } }

/-- The call `wl_list_remove(&col->link)`: the node leaves the column list it is in. -/
def unlinkColumn (w : World) (col : Nat) : World :=
  { w with monitor := fun m =>
      { w.monitor m with
        scroller_columns := (w.monitor m).scroller_columns.filter (fun x => x != col) } }

/-- The call `wl_list_insert(col->tiles.prev, &c->column_link)`: append to the tiles. -/
def linkTileLast (w : World) (col c : Nat) : World :=
  w.setColumn col { w.column col with tiles := (w.column col).tiles ++ [c] }

/-- The call `wl_list_insert(target->column_link.prev, &c->column_link)` where `target`
is the node at index `n` of the tiles of `col`: `c` goes right before it. -/
def linkTileAt (w : World) (col : Nat) (n : Nat) (c : Nat) : World :=
  w.setColumn col
    { w.column col with
      tiles := (w.column col).tiles.take n ++ c :: (w.column col).tiles.drop n }

/-! ## Column lifecycle -/

/-- The C function `column_create`: the new record gets the handle `brk`; its
`tiles` list is empty and its `link` is in no list. -/
def column_create (w : World) (m : Option Nat) (proportion : Rat) : World × Nat :=
  (({ w with brk := w.brk + 1 } : World).setColumn w.brk
      { tiles := [], active_tile_idx := 0, tile_count := 0,
        proportion := proportion, mon := m },
   w.brk)

/-- The C function `column_destroy`: unlink from the monitor list, then `free`. -/
def column_destroy (w : World) (col : Nat) : World :=
  (unlinkColumn w col).setColumn col blankColumn

/-! ## Tiles of a column -/

/-- The C function `column_tile_at` -/
def column_tile_at (w : World) (col : Nat) (idx : Int) : Option Nat :=
  if idx < 0 ∨ idx ≥ (w.column col).tile_count then none
  else (w.column col).tiles[idx.toNat]?

/-- The loop of `column_reindex_tiles`: `c->tile_index = i; i++` along the walk. -/
def reindexLoop (cl : Nat → Client) : List Nat → Int → (Nat → Client)
  | [], _ => cl
  | c :: rest, i =>
    reindexLoop (fun x => if x = c then { cl c with tile_index := i } else cl x) rest (i + 1)

/-- The C function `column_reindex_tiles` -/
def column_reindex_tiles (w : World) (col : Nat) : World :=
  { w with client := reindexLoop w.client (w.column col).tiles 0 }

/-- The block "Remove from previous column if any" of `column_add_tile`. -/
def leaveColumn (w : World) (c : Nat) : World :=
  match (w.client c).column with
  | none => w
  | some old =>
    let a := unlinkTile w c
    let b := a.setColumn old { a.column old with tile_count := (a.column old).tile_count - 1 }
    let d := column_reindex_tiles b old
    -- Adjust active index if needed
    if (d.column old).active_tile_idx ≥ (d.column old).tile_count
        ∧ (d.column old).tile_count > 0 then
      d.setColumn old { d.column old with active_tile_idx := (d.column old).tile_count - 1 }
    else d

/-- The rest of `column_add_tile`, from `c->column = col` on. -/
def enterColumn (w : World) (col c : Nat) (position : Int) : World :=
  let w2 := w.setClient c { w.client c with column := some col }
  let w3 :=
    if position < 0 ∨ position ≥ (w2.column col).tile_count then
      -- Append at end
      let a := linkTileLast w2 col c
      a.setClient c { a.client c with tile_index := (w2.column col).tile_count }
    else
      -- Insert at specific position
      match column_tile_at w2 col position with
      | some _ => linkTileAt w2 col position.toNat c
      | none => linkTileLast w2 col c
  let w4 := w3.setColumn col { w3.column col with tile_count := (w3.column col).tile_count + 1 }
  column_reindex_tiles w4 col

/-- The C function `column_add_tile` -/
def column_add_tile (w : World) (col c : Nat) (position : Int) : World :=
  enterColumn (leaveColumn w c) col c position

/-- The body shared by `column_remove_tile` and `column_remove_client` once
the client `c` of column `col` is known: unlink, clear the back-reference,
decrement, clamp the active index, reindex. -/
def detachFrom (w : World) (col c : Nat) : World :=
  let a := unlinkTile w c
  let b := a.setClient c { a.client c with column := none, tile_index := -1 }
  let d := b.setColumn col { b.column col with tile_count := (b.column col).tile_count - 1 }
  let e :=
    if (d.column col).active_tile_idx ≥ (d.column col).tile_count
        ∧ (d.column col).tile_count > 0 then
      d.setColumn col { d.column col with active_tile_idx := (d.column col).tile_count - 1 }
    else d
  column_reindex_tiles e col

/-- The C function `column_remove_tile`: the new memory and the removed client (or NULL). -/
def column_remove_tile (w : World) (col : Nat) (idx : Int) : World × Option Nat :=
  if idx < 0 ∨ idx ≥ (w.column col).tile_count then (w, none)
  else
    match column_tile_at w col idx with
    | none => (w, none)
    | some c => (detachFrom w col c, some c)

/-- The C function `column_remove_client` -/
def column_remove_client (w : World) (c : Nat) : World :=
  match (w.client c).column with
  | none => w
  | some col => detachFrom w col c

/-! ## Columns of a monitor -/

/-- The C function `column_at_index` -/
def column_at_index (w : World) (m : Nat) (idx : Int) : Option Nat :=
  if idx < 0 ∨ idx ≥ (w.monitor m).column_count then none
  else (w.monitor m).scroller_columns[idx.toNat]?

/-- The loop of `column_index_of`. -/
def indexLoop (col : Nat) : List Nat → Int → Int
  | [], _ => -1
  | c :: rest, i => if c = col then i else indexLoop col rest (i + 1)

/-- The C function `column_index_of` -/
def column_index_of (w : World) (m col : Nat) : Int :=
  indexLoop col (w.monitor m).scroller_columns 0

/-- The C function `column_insert_at` -/
def column_insert_at (w : World) (m col : Nat) (idx : Int) : World :=
  let cols := (w.monitor m).scroller_columns
  let cols1 :=
    if idx ≤ 0 ∨ cols = [] then
      -- Insert at beginning
      col :: cols
    else if idx ≥ (w.monitor m).column_count then
      -- Insert at end
      cols ++ [col]
    else
      -- Insert before the column at idx
      match column_at_index w m idx with
      | some _ => cols.take idx.toNat ++ col :: cols.drop idx.toNat
      | none => cols ++ [col]
  w.setMonitor m
    { w.monitor m with
      scroller_columns := cols1, column_count := (w.monitor m).column_count + 1 }

/-- The C function `column_remove` -/
def column_remove (w : World) (m col : Nat) : World :=
  let a := unlinkColumn w col
  let b := a.setMonitor m { a.monitor m with column_count := (a.monitor m).column_count - 1 }
  if (b.monitor m).active_column_idx ≥ (b.monitor m).column_count
      ∧ (b.monitor m).column_count > 0 then
    b.setMonitor m { b.monitor m with active_column_idx := (b.monitor m).column_count - 1 }
  else b

/-- The C function `column_get_active_tile` -/
def column_get_active_tile (w : World) (col : Nat) : Option Nat :=
  if (w.column col).tile_count = 0 then none
  else column_tile_at w col (w.column col).active_tile_idx

/-- The C function `column_set_active_tile` -/
def column_set_active_tile (w : World) (col : Nat) (idx : Int) : World :=
  if idx < 0 ∨ idx ≥ (w.column col).tile_count then w
  else w.setColumn col { w.column col with active_tile_idx := idx }

/-- The C function `column_is_single_tile` -/
def column_is_single_tile (w : World) (col : Nat) : Bool :=
  decide ((w.column col).tile_count = 1)

/-- The C function `column_for_client` -/
def column_for_client (w : World) (c : Nat) : Option Nat :=
  (w.client c).column

/-- The C function `column_init_for_monitor` -/
def column_init_for_monitor (w : World) (m : Nat) : World :=
  w.setMonitor m
    { w.monitor m with scroller_columns := [], active_column_idx := 0, column_count := 0 }

/-- What the inner loop of `column_cleanup_for_monitor` does to a client
record: `c->column = NULL; c->tile_index = -1`. -/
def cleared (x : Client) : Client :=
  { x with column := none, tile_index := -1 }

/-- Body of the outer loop of `column_cleanup_for_monitor` for one column:
clear the back-reference of each of its tiles, then destroy it. -/
def cleanupColumn (w : World) (col : Nat) : World :=
  column_destroy
    ((w.column col).tiles.foldl (fun a c => a.setClient c (cleared (a.client c))) w)
    col

/-- The C function `column_cleanup_for_monitor` -/
def column_cleanup_for_monitor (w : World) (m : Nat) : World :=
  column_init_for_monitor ((w.monitor m).scroller_columns.foldl cleanupColumn w) m

/-! ## Rendering -/

/-- Value stored by an `int32_t` operation whose exact result is `x`: the
number in `[-2^31, 2^31)` that is congruent to `x` modulo `2^32`.  C leaves
signed overflow undefined; this is the two's-complement value that the machine
computes. -/
def wrap32 (x : Int) : Int := (x + 2147483648) % 4294967296 - 2147483648

/-- The loop of `scroller_render_column`; the result is the sequence of
`resize(c, tile_geom, 0)` calls. -/
def renderLoop (geom : Box) (tile_count tile_height gap : Int) :
    List Nat → Int → Int → List (Nat × Box)
  | [], _, _ => []
  | c :: rest, y, i =>
    (c, { x := geom.x, y := y, width := geom.width,
          height := if i = wrap32 (tile_count - 1) then
                      wrap32 (wrap32 (geom.y + geom.height) - y)
                    else tile_height })
      :: renderLoop geom tile_count tile_height gap rest
          (wrap32 (y + wrap32 (tile_height + gap))) (wrap32 (i + 1))

/-- The C function `scroller_render_column` -/
def scroller_render_column (w : World) (col : Nat) (geom : Box) (gap : Int) :
    List (Nat × Box) :=
  if (w.column col).tile_count = 0 then []
  else
    let tile_count := (w.column col).tile_count
    let total_gap := wrap32 (wrap32 (tile_count - 1) * gap)
    let tile_height := wrap32 ((wrap32 (geom.height - total_gap)).tdiv tile_count)
    renderLoop geom tile_count tile_height gap (w.column col).tiles geom.y 0

/-- The loop of `scroller_render_column` read in exact integer arithmetic: the
same steps as `renderLoop`, no operation wraps. -/
def renderLoopExact (geom : Box) (tile_count tile_height gap : Int) :
    List Nat → Int → Int → List (Nat × Box)
  | [], _, _ => []
  | c :: rest, y, i =>
    (c, { x := geom.x, y := y, width := geom.width,
          height := if i = tile_count - 1 then geom.y + geom.height - y else tile_height })
      :: renderLoopExact geom tile_count tile_height gap rest (y + tile_height + gap) (i + 1)

/-- The computation of `scroller_render_column` read in exact integer
arithmetic, the reading the specification takes for its formulas: the same
steps as `scroller_render_column`, no operation wraps. -/
def scroller_render_column_exact (w : World) (col : Nat) (geom : Box) (gap : Int) :
    List (Nat × Box) :=
  if (w.column col).tile_count = 0 then []
  else
    let tile_count := (w.column col).tile_count
    let total_gap := (tile_count - 1) * gap
    let tile_height := (geom.height - total_gap).tdiv tile_count
    renderLoopExact geom tile_count tile_height gap (w.column col).tiles geom.y 0

/-- An exact value that an `int32_t` holds: it lies in `[-2^31, 2^31)`. -/
def fits32 (x : Int) : Prop := -2147483648 ≤ x ∧ x < 2147483648

instance (x : Int) : Decidable (fits32 x) := by
  unfold fits32
  infer_instance

/-- Exact value of the local `tile_height` of `scroller_render_column`: the
quotient `(geom->height - (tile_count - 1) * gap) / tile_count`, rounded
toward zero. -/
def tileHeight (w : World) (col : Nat) (geom : Box) (gap : Int) : Int :=
  (geom.height - ((w.column col).tile_count - 1) * gap).tdiv (w.column col).tile_count

/-- No `int32_t` operation of `scroller_render_column` overflows: the exact
values of `tile_count - 1`, `(tile_count - 1) * gap`,
`geom->height - total_gap`, `tile_height + gap`, `y` at every tile and after
the last `y += tile_height + gap`, the final `i`, `geom->y + geom->height` and
the height of the last tile all fit in 32 bits. -/
def RenderFits (w : World) (col : Nat) (geom : Box) (gap : Int) : Prop :=
  fits32 ((w.column col).tile_count - 1)
  ∧ fits32 (((w.column col).tile_count - 1) * gap)
  ∧ fits32 (geom.height - ((w.column col).tile_count - 1) * gap)
  ∧ fits32 (tileHeight w col geom gap + gap)
  ∧ (∀ i : Nat, i ≤ (w.column col).tiles.length →
      fits32 (geom.y + i * (tileHeight w col geom gap + gap)))
  ∧ fits32 (w.column col).tiles.length
  ∧ fits32 (geom.y + geom.height)
  ∧ fits32 (geom.y + geom.height
      - (geom.y + ((w.column col).tile_count - 1) * (tileHeight w col geom gap + gap)))

instance (w : World) (col : Nat) (geom : Box) (gap : Int) :
    Decidable (RenderFits w col geom gap) := by
  unfold RenderFits
  infer_instance

/-! ## Migration and rebuild -/

/-- The test the loops apply to a client of the global list: on monitor `m`,
visible there and scroll-tiled. -/
def eligibleOn (E : Env) (w : World) (m c : Nat) : Bool :=
  (w.client c).mon == some m && (E.visibleOn c m && E.isScrollTiled c)

/-- Body of the loop of `scroller_migrate_to_columns`. -/
def migrateStep (E : Env) (m : Nat) (w : World) (c : Nat) : World :=
  if (w.client c).mon ≠ some m then w
  else if (!E.visibleOn c m || !E.isScrollTiled c) = true then w
  else
    -- Each existing window becomes its own column
    let p := column_create w (some m) (w.client c).scroller_proportion
    let a := column_add_tile p.1 p.2 c 0
    let b := a.setMonitor m
      { a.monitor m with
        scroller_columns := (a.monitor m).scroller_columns ++ [p.2],
        column_count := (a.monitor m).column_count + 1 }
    if (b.monitor m).sel = some c then
      b.setMonitor m { b.monitor m with active_column_idx := (b.monitor m).column_count - 1 }
    else b

/-- The C function `scroller_migrate_to_columns` -/
def scroller_migrate_to_columns (E : Env) (w : World) (m : Nat) : World :=
  -- Only migrate if columns don't exist yet
  if (w.monitor m).scroller_columns ≠ [] then w
  else w.clients.foldl (migrateStep E m) (column_init_for_monitor w m)

/-- Modelled from the spec: the monitor field `visible_scroll_tiling_clients`,
which is declared and maintained outside this file; the specification reads it
as the number of eligible visible clients of the monitor. -/
def visible_scroll_tiling_clients (E : Env) (w : World) (m : Nat) : Int :=
  ((w.clients.filter (eligibleOn E w m)).length : Int)

/-- The C function `scroller_columns_need_rebuild` -/
def scroller_columns_need_rebuild (E : Env) (w : World) (m : Nat) : Bool :=
  if (w.monitor m).scroller_columns = [] ∧ visible_scroll_tiling_clients E w m > 0 then true
  else
    w.clients.any (fun c =>
      (w.client c).mon == some m
        && (E.visibleOn c m && E.isScrollTiled c && (w.client c).column.isNone))

/-- The C function `scroller_rebuild_columns` -/
def scroller_rebuild_columns (E : Env) (w : World) (m : Nat) : World :=
  scroller_migrate_to_columns E (column_cleanup_for_monitor w m) m

/-! ## Single client insertion and removal -/

/-- The backward scan of `scroller_add_client_to_columns`: starting at
`c->link.prev`, the first client on `m`, visible, scroll-tiled and in a column.
The clients before `c` are those the walk of the global list meets before it
reaches `c`, which is a node of that list. -/
def findPrevClient (E : Env) (w : World) (m c : Nat) : Option Nat :=
  ((w.clients.takeWhile (fun x => x != c)).reverse).find?
    (fun pc => eligibleOn E w m pc && (w.client pc).column.isSome)

/-- The block "Find where to insert the column" of
`scroller_add_client_to_columns`: the value of `insert_idx`. -/
def insert_idx (E : Env) (w : World) (m c : Nat) : Int :=
  match (findPrevClient E w m c).bind (fun pc => (w.client pc).column) with
  | some pcol => column_index_of w m pcol + 1
  | none => (w.monitor m).active_column_idx + 1

/-- The C function `scroller_add_client_to_columns` -/
def scroller_add_client_to_columns (E : Env) (w : World) (c : Nat) : World :=
  match (w.client c).mon with
  | none => w
  | some m =>
    -- Skip if not in scroller layout or client not tiled
    if (!E.visibleOn c m || !E.isScrollTiled c) = true then w
    -- Skip if already in a column
    else if (w.client c).column.isSome then w
    else
      let proportion :=
        if (w.client c).scroller_proportion > 0 then (w.client c).scroller_proportion
        else E.scroller_default_proportion
      let p := column_create w (some m) proportion
      let a := column_add_tile p.1 p.2 c 0
      let b := column_insert_at a m p.2 (insert_idx E w m c)
      b.setMonitor m { b.monitor m with active_column_idx := insert_idx E w m c }

/-- The C function `scroller_remove_client_from_columns` -/
def scroller_remove_client_from_columns (w : World) (c : Nat) : World :=
  match (w.client c).column with
  | none => w
  | some col =>
    let a := column_remove_client w c
    -- Destroy empty column
    if (a.column col).tile_count = 0 then
      match (w.column col).mon with
      | some m => column_destroy (column_remove a m col) col
      | none => column_destroy a col
    else a

/-! ## Sync back to the global list -/

/-- Body of the collecting loops of `scroller_sync_clients_to_columns`; the
state is the pair (global list, `reordered`).  `wl_list_remove(&c->link)`
takes `c` out of the list it is in, then it is appended to `reordered`. -/
def syncStep (E : Env) (w : World) (m : Nat) (s : List Nat × List Nat) (c : Nat) :
    List Nat × List Nat :=
  if eligibleOn E w m c then
    (s.1.filter (fun x => x != c), s.2.filter (fun x => x != c) ++ [c])
  else s

/-- The re-insertion loop: the first node of `reordered` is removed and
inserted right after the head sentinel of `clients`, until none is left. -/
def reinsertLoop : List Nat → List Nat → List Nat
  | [], cl => cl
  | first :: rest, cl => reinsertLoop rest (first :: cl)

/-- The walk of the two collecting loops: the columns of `m` in order, and
within each column its tiles in order. -/
def syncWalk (w : World) (m : Nat) : List Nat :=
  (w.monitor m).scroller_columns.flatMap (fun k => (w.column k).tiles)

/-- The collecting loops: the global list and `reordered` when they end. -/
def syncCollect (E : Env) (w : World) (m : Nat) : List Nat × List Nat :=
  (syncWalk w m).foldl (syncStep E w m) (w.clients, [])

/-- The C function `scroller_sync_clients_to_columns` -/
def scroller_sync_clients_to_columns (E : Env) (w : World) (m : Nat) : World :=
  if (w.monitor m).scroller_columns = [] then w
  else { w with clients := reinsertLoop (syncCollect E w m).2 (syncCollect E w m).1 }

/-! ## Consistency of a memory -/

/-- The part of consistency that ties tiles and columns together. -/
structure TileInv (w : World) : Prop where
  member_backref : ∀ k t, t ∈ (w.column k).tiles → (w.client t).column = some k
  back_member : ∀ t k, (w.client t).column = some k → t ∈ (w.column k).tiles
  index_order : ∀ k (i : Nat) t, (w.column k).tiles[i]? = some t → (w.client t).tile_index = i
  tile_count_eq : ∀ k, (w.column k).tile_count = (w.column k).tiles.length

/-- The state `column_add_tile` is in between its two halves: `c` is linked
into no column and its back-reference is about to be overwritten; everything
else is consistent. -/
structure TileInvExcept (w : World) (c : Nat) : Prop where
  not_linked : ∀ k, c ∉ (w.column k).tiles
  member_backref : ∀ k t, t ∈ (w.column k).tiles → (w.client t).column = some k
  back_member : ∀ t k, t ≠ c → (w.client t).column = some k → t ∈ (w.column k).tiles
  index_order : ∀ k (i : Nat) t, (w.column k).tiles[i]? = some t → (w.client t).tile_index = i
  tile_count_eq : ∀ k, (w.column k).tile_count = (w.column k).tiles.length

/-- The part of consistency that ties columns and monitors together. -/
structure ListInv (w : World) : Prop where
  column_count_eq : ∀ m, (w.monitor m).column_count = (w.monitor m).scroller_columns.length
  columns_nodup : ∀ m, (w.monitor m).scroller_columns.Nodup
  owner : ∀ k m, (w.column k).mon = some m ↔ k ∈ (w.monitor m).scroller_columns

/-- Handles the allocator has not handed out (or has taken back) are unused. -/
def FreshInv (w : World) : Prop :=
  ∀ k, w.brk ≤ k → (w.column k).tiles = [] ∧ (w.column k).mon = none

/-- A consistent memory.  The first five fields are the membership invariants
of the specification: (1) a back-reference points to a column that holds the
tile at `tile_index`, (2) the `tile_index` values of a column follow its
sequence, (5) no tile is in two columns, and the cached counts are the real
lengths.  The last four are what the code relies on besides: a tile in a
sequence refers back to that column, a column sequence lists no column twice,
a column names monitor `m` as its `mon` exactly when it is in the sequence of
`m`, and unallocated handles are unused. -/
structure Consistent (w : World) : Prop where
  backref_sits : ∀ t k, (w.client t).column = some k →
    ∃ i : Nat, (w.client t).tile_index = i ∧ (w.column k).tiles[i]? = some t
  index_order : ∀ k (i : Nat) t, (w.column k).tiles[i]? = some t → (w.client t).tile_index = i
  one_column : ∀ k1 k2 t, t ∈ (w.column k1).tiles → t ∈ (w.column k2).tiles → k1 = k2
  tile_count_eq : ∀ k, (w.column k).tile_count = (w.column k).tiles.length
  column_count_eq : ∀ m, (w.monitor m).column_count = (w.monitor m).scroller_columns.length
  member_backref : ∀ k t, t ∈ (w.column k).tiles → (w.client t).column = some k
  columns_nodup : ∀ m, (w.monitor m).scroller_columns.Nodup
  owner : ∀ k m, (w.column k).mon = some m ↔ k ∈ (w.monitor m).scroller_columns
  fresh : ∀ k, w.brk ≤ k → (w.column k).tiles = [] ∧ (w.column k).mon = none

/-- The membership invariants exactly as the specification lists them: (1),
(2), (5) and the two cached counts. -/
structure Membership (w : World) : Prop where
  backref_sits : ∀ t k, (w.client t).column = some k →
    ∃ i : Nat, (w.client t).tile_index = i ∧ (w.column k).tiles[i]? = some t
  index_order : ∀ k (i : Nat) t, (w.column k).tiles[i]? = some t → (w.client t).tile_index = i
  one_column : ∀ k1 k2 t, t ∈ (w.column k1).tiles → t ∈ (w.column k2).tiles → k1 = k2
  tile_count_eq : ∀ k, (w.column k).tile_count = (w.column k).tiles.length
  column_count_eq : ∀ m, (w.monitor m).column_count = (w.monitor m).scroller_columns.length

/-- Where `enterColumn` puts the tile in the sequence of `col`. -/
def insertPos (w : World) (col : Nat) (position : Int) : Nat :=
  if position < 0 ∨ position ≥ (w.column col).tile_count then (w.column col).tiles.length
  else
    match (w.column col).tiles[position.toNat]? with
    | some _ => position.toNat
    | none => (w.column col).tiles.length

/-- Where `column_insert_at` puts the column in the sequence of `m`. -/
def columnInsertPos (w : World) (m : Nat) (idx : Int) : Nat :=
  if idx ≤ 0 ∨ (w.monitor m).scroller_columns = [] then 0
  else if idx ≥ (w.monitor m).column_count then (w.monitor m).scroller_columns.length
  else
    match (w.monitor m).scroller_columns[idx.toNat]? with
    | some _ => idx.toNat
    | none => (w.monitor m).scroller_columns.length

/-- The memory after `column_create` and `column_add_tile` of the new column. -/
def spawned (w : World) (m c : Nat) (q : Rat) : World :=
  column_add_tile (column_create w (some m) q).1 (column_create w (some m) q).2 c 0

/-- No column in the sequence of monitor `m` is without tiles. -/
def NoEmptyColumn (w : World) (m : Nat) : Prop :=
  ∀ k ∈ (w.monitor m).scroller_columns, 0 < (w.column k).tile_count

instance (w : World) (m : Nat) : Decidable (NoEmptyColumn w m) := by
  unfold NoEmptyColumn
  infer_instance

/-! ## Sample memories -/

/-- A client record with every pointer NULL. -/
def blankClient : Client :=
  { mon := none, column := none, tile_index := -1, scroller_proportion := 0 }

/-- A monitor record after `column_init_for_monitor`. -/
def blankMonitor : Monitor :=
  { scroller_columns := [], active_column_idx := 0, column_count := 0, sel := none }

/-- No clients, no columns. -/
def emptyWorld : World :=
  { clients := [], client := fun _ => blankClient, column := fun _ => blankColumn,
    monitor := fun _ => blankMonitor, brk := 0 }

/-- Every client is visible and scroll-tiled. -/
def envAll : Env :=
  { visibleOn := fun _ _ => true, isScrollTiled := fun _ => true,
    scroller_default_proportion := 1 / 2 }

/-- Clients 0 and 1 on monitor 0, whose column list was just initialised. -/
def twoClients : World :=
  { emptyWorld with
    clients := [0, 1], client := fun _ => { blankClient with mon := some 0 } }

/-- Monitor 0 with the two singleton columns that migration builds from
`twoClients`: column 0 holds client 0, column 1 holds client 1. -/
def twoColumns : World :=
  scroller_migrate_to_columns envAll twoClients 0

/-- A column created for monitor 0 and given client 0 by `column_add_tile`,
not (yet) inserted into the monitor's sequence. -/
def orphanColumn : World :=
  spawned twoClients 0 0 (1 / 2)

/-- Monitor 0 with one column left: client 1 was taken out of `twoColumns`
and is still in the global list, after client 0. -/
def oneLeft : World :=
  scroller_remove_client_from_columns twoColumns 1

/-- Monitor 0 with a single column that stacks clients 0 and 1. -/
def stacked : World :=
  column_add_tile oneLeft 0 1 (-1)

/-- Column 0 lists client 0, whose back-reference is NULL. -/
def strayTile : World :=
  { emptyWorld with
    client := fun _ => { blankClient with mon := some 0, tile_index := 0 },
    column := fun k =>
      if k = 0 then { blankColumn with tiles := [0], tile_count := 1 } else blankColumn,
    brk := 2 }

/-- Column 0 stacks clients 0, 1 and 2. -/
def threeTiles : World :=
  { emptyWorld with
    client := fun _ => { blankClient with mon := some 0 },
    column := fun k =>
      if k = 0 then { blankColumn with tiles := [0, 1, 2], tile_count := 3 } else blankColumn,
    brk := 1 }

/-! ## Effect of the primitives on each field -/

section Views

variable (w : World)

@[simp]
theorem setClient_client (c : Nat) (v : Client) (x : Nat) :
    (w.setClient c v).client x = if x = c then v else w.client x := rfl
@[simp]
theorem setClient_column (c : Nat) (v : Client) : (w.setClient c v).column = w.column := rfl
@[simp]
theorem setClient_monitor (c : Nat) (v : Client) :
    (w.setClient c v).monitor = w.monitor := rfl
@[simp]
theorem setClient_clients (c : Nat) (v : Client) :
    (w.setClient c v).clients = w.clients := rfl
@[simp]
theorem setClient_brk (c : Nat) (v : Client) : (w.setClient c v).brk = w.brk := rfl

@[simp]
theorem setColumn_column (k : Nat) (v : ScrollerColumn) (x : Nat) :
    (w.setColumn k v).column x = if x = k then v else w.column x := rfl
@[simp]
theorem setColumn_client (k : Nat) (v : ScrollerColumn) :
    (w.setColumn k v).client = w.client := rfl
@[simp]
theorem setColumn_monitor (k : Nat) (v : ScrollerColumn) :
    (w.setColumn k v).monitor = w.monitor := rfl
@[simp]
theorem setColumn_clients (k : Nat) (v : ScrollerColumn) :
    (w.setColumn k v).clients = w.clients := rfl
@[simp]
theorem setColumn_brk (k : Nat) (v : ScrollerColumn) : (w.setColumn k v).brk = w.brk := rfl

@[simp]
theorem setMonitor_monitor (m : Nat) (v : Monitor) (x : Nat) :
    (w.setMonitor m v).monitor x = if x = m then v else w.monitor x := rfl
@[simp]
theorem setMonitor_client (m : Nat) (v : Monitor) :
    (w.setMonitor m v).client = w.client := rfl
@[simp]
theorem setMonitor_column (m : Nat) (v : Monitor) :
    (w.setMonitor m v).column = w.column := rfl
@[simp]
theorem setMonitor_clients (m : Nat) (v : Monitor) :
    (w.setMonitor m v).clients = w.clients := rfl
@[simp]
theorem setMonitor_brk (m : Nat) (v : Monitor) : (w.setMonitor m v).brk = w.brk := rfl

@[simp]
theorem unlinkTile_tiles (c k : Nat) :
    ((unlinkTile w c).column k).tiles = (w.column k).tiles.filter (fun x => x != c) := rfl
@[simp]
theorem unlinkTile_tile_count (c k : Nat) :
    ((unlinkTile w c).column k).tile_count = (w.column k).tile_count := rfl
@[simp]
theorem unlinkTile_active (c k : Nat) :
    ((unlinkTile w c).column k).active_tile_idx = (w.column k).active_tile_idx := rfl
@[simp]
theorem unlinkTile_mon (c k : Nat) :
    ((unlinkTile w c).column k).mon = (w.column k).mon := rfl
@[simp]
theorem unlinkTile_client (c : Nat) : (unlinkTile w c).client = w.client := rfl
@[simp]
theorem unlinkTile_monitor (c : Nat) : (unlinkTile w c).monitor = w.monitor := rfl
@[simp]
theorem unlinkTile_clients (c : Nat) : (unlinkTile w c).clients = w.clients := rfl
@[simp]
theorem unlinkTile_brk (c : Nat) : (unlinkTile w c).brk = w.brk := rfl

@[simp]
theorem unlinkColumn_columns (col m : Nat) :
    ((unlinkColumn w col).monitor m).scroller_columns
      = (w.monitor m).scroller_columns.filter (fun x => x != col) := rfl
@[simp]
theorem unlinkColumn_count (col m : Nat) :
    ((unlinkColumn w col).monitor m).column_count = (w.monitor m).column_count := rfl
@[simp]
theorem unlinkColumn_active (col m : Nat) :
    ((unlinkColumn w col).monitor m).active_column_idx = (w.monitor m).active_column_idx := rfl
@[simp]
theorem unlinkColumn_sel (col m : Nat) :
    ((unlinkColumn w col).monitor m).sel = (w.monitor m).sel := rfl
@[simp]
theorem unlinkColumn_client (col : Nat) : (unlinkColumn w col).client = w.client := rfl
@[simp]
theorem unlinkColumn_column (col : Nat) : (unlinkColumn w col).column = w.column := rfl
@[simp]
theorem unlinkColumn_clients (col : Nat) : (unlinkColumn w col).clients = w.clients := rfl
@[simp]
theorem unlinkColumn_brk (col : Nat) : (unlinkColumn w col).brk = w.brk := rfl

@[simp]
theorem reindex_client (col : Nat) :
    (column_reindex_tiles w col).client = reindexLoop w.client (w.column col).tiles 0 := rfl
@[simp]
theorem reindex_column (col : Nat) : (column_reindex_tiles w col).column = w.column := rfl
@[simp]
theorem reindex_monitor (col : Nat) :
    (column_reindex_tiles w col).monitor = w.monitor := rfl
@[simp]
theorem reindex_clients (col : Nat) :
    (column_reindex_tiles w col).clients = w.clients := rfl
@[simp]
theorem reindex_brk (col : Nat) : (column_reindex_tiles w col).brk = w.brk := rfl

end Views

/-! ## The reindexing loop -/

theorem reindexLoop_column (cl : Nat → Client) (l : List Nat) (i : Int) (x : Nat) :
    (reindexLoop cl l i x).column = (cl x).column := by
  induction l generalizing cl i with
  | nil => rfl
  | cons c rest ih =>
    simp only [reindexLoop, ih]
    split <;> simp_all

theorem reindexLoop_mon (cl : Nat → Client) (l : List Nat) (i : Int) (x : Nat) :
    (reindexLoop cl l i x).mon = (cl x).mon := by
  induction l generalizing cl i with
  | nil => rfl
  | cons c rest ih =>
    simp only [reindexLoop, ih]
    split <;> simp_all

theorem reindexLoop_proportion (cl : Nat → Client) (l : List Nat) (i : Int) (x : Nat) :
    (reindexLoop cl l i x).scroller_proportion = (cl x).scroller_proportion := by
  induction l generalizing cl i with
  | nil => rfl
  | cons c rest ih =>
    simp only [reindexLoop, ih]
    split <;> simp_all

theorem reindexLoop_of_not_mem (cl : Nat → Client) (l : List Nat) (i : Int) (x : Nat)
    (h : x ∉ l) : reindexLoop cl l i x = cl x := by
  induction l generalizing cl i with
  | nil => rfl
  | cons c rest ih =>
    simp only [List.mem_cons, not_or] at h
    simp only [reindexLoop]
    rw [ih _ _ h.2]
    simp [h.1]

theorem reindexLoop_index (cl : Nat → Client) (l : List Nat) (i : Int) (x : Nat) (j : Nat)
    (hnd : l.Nodup) (h : l[j]? = some x) : (reindexLoop cl l i x).tile_index = i + j := by
  induction l generalizing cl i j with
  | nil => simp at h
  | cons c rest ih =>
    rw [List.nodup_cons] at hnd
    simp only [reindexLoop]
    cases j with
    | zero =>
      simp only [List.getElem?_cons_zero, Option.some.injEq] at h
      subst h
      rw [reindexLoop_of_not_mem _ _ _ _ hnd.1]
      simp
    | succ j =>
      simp only [List.getElem?_cons_succ] at h
      rw [ih _ _ _ hnd.2 h]
      push_cast
      ring


/-! ## Effect of the tile operations on each field -/

theorem leaveColumn_of_none (w : World) (c : Nat) (h : (w.client c).column = none) :
    leaveColumn w c = w := by
  simp [leaveColumn, h]

theorem leaveColumn_monitor (w : World) (c : Nat) : (leaveColumn w c).monitor = w.monitor := by
  unfold leaveColumn
  split
  · rfl
  · dsimp only
    split <;> rfl

theorem leaveColumn_clients (w : World) (c : Nat) : (leaveColumn w c).clients = w.clients := by
  unfold leaveColumn
  split
  · rfl
  · dsimp only
    split <;> rfl

theorem leaveColumn_brk (w : World) (c : Nat) : (leaveColumn w c).brk = w.brk := by
  unfold leaveColumn
  split
  · rfl
  · dsimp only
    split <;> rfl

theorem leaveColumn_mon (w : World) (c k : Nat) :
    ((leaveColumn w c).column k).mon = (w.column k).mon := by
  unfold leaveColumn
  split
  · rfl
  · dsimp only
    split <;> simp <;> split <;> simp_all

theorem leaveColumn_tiles (w : World) (c old k : Nat) (h : (w.client c).column = some old) :
    ((leaveColumn w c).column k).tiles = (w.column k).tiles.filter (fun x => x != c) := by
  simp only [leaveColumn, h]
  split <;> simp <;> split <;> simp_all

theorem leaveColumn_tile_count (w : World) (c old k : Nat) (h : (w.client c).column = some old) :
    ((leaveColumn w c).column k).tile_count
      = if k = old then (w.column k).tile_count - 1 else (w.column k).tile_count := by
  simp only [leaveColumn, h]
  split <;> simp <;> split <;> simp_all

theorem leaveColumn_client (w : World) (c old : Nat) (h : (w.client c).column = some old) :
    (leaveColumn w c).client
      = reindexLoop w.client ((w.column old).tiles.filter (fun x => x != c)) 0 := by
  simp only [leaveColumn, h]
  split <;> simp

theorem detachFrom_monitor (w : World) (col c : Nat) :
    (detachFrom w col c).monitor = w.monitor := by
  unfold detachFrom
  dsimp only
  split <;> rfl

theorem detachFrom_clients (w : World) (col c : Nat) :
    (detachFrom w col c).clients = w.clients := by
  unfold detachFrom
  dsimp only
  split <;> rfl

theorem detachFrom_brk (w : World) (col c : Nat) : (detachFrom w col c).brk = w.brk := by
  unfold detachFrom
  dsimp only
  split <;> rfl

theorem detachFrom_mon (w : World) (col c k : Nat) :
    ((detachFrom w col c).column k).mon = (w.column k).mon := by
  unfold detachFrom
  dsimp only
  split <;> simp <;> split <;> simp_all

theorem detachFrom_tiles (w : World) (col c k : Nat) :
    ((detachFrom w col c).column k).tiles = (w.column k).tiles.filter (fun x => x != c) := by
  unfold detachFrom
  dsimp only
  split <;> simp <;> split <;> simp_all

theorem detachFrom_tile_count (w : World) (col c k : Nat) :
    ((detachFrom w col c).column k).tile_count
      = if k = col then (w.column k).tile_count - 1 else (w.column k).tile_count := by
  unfold detachFrom
  dsimp only
  split <;> simp <;> split <;> simp_all

theorem detachFrom_client (w : World) (col c : Nat) :
    (detachFrom w col c).client
      = reindexLoop
          (fun x => if x = c then { w.client c with column := none, tile_index := -1 }
                    else w.client x)
          ((w.column col).tiles.filter (fun x => x != c)) 0 := by
  unfold detachFrom
  dsimp only
  split <;> simp <;> rfl

theorem enterColumn_monitor (w : World) (col c : Nat) (p : Int) :
    (enterColumn w col c p).monitor = w.monitor := by
  unfold enterColumn
  dsimp only
  split
  · rfl
  · split <;> rfl

theorem enterColumn_clients (w : World) (col c : Nat) (p : Int) :
    (enterColumn w col c p).clients = w.clients := by
  unfold enterColumn
  dsimp only
  split
  · rfl
  · split <;> rfl

theorem enterColumn_brk (w : World) (col c : Nat) (p : Int) :
    (enterColumn w col c p).brk = w.brk := by
  unfold enterColumn
  dsimp only
  split
  · rfl
  · split <;> rfl

theorem enterColumn_mon (w : World) (col c : Nat) (p : Int) (k : Nat) :
    ((enterColumn w col c p).column k).mon = (w.column k).mon := by
  unfold enterColumn
  dsimp only
  split
  · simp [linkTileLast]; split <;> simp_all
  · split <;> simp [linkTileLast, linkTileAt] <;> split <;> simp_all

theorem enterColumn_active (w : World) (col c : Nat) (p : Int) (k : Nat) :
    ((enterColumn w col c p).column k).active_tile_idx = (w.column k).active_tile_idx := by
  unfold enterColumn
  dsimp only
  split
  · simp [linkTileLast]; split <;> simp_all
  · split <;> simp [linkTileLast, linkTileAt] <;> split <;> simp_all

theorem enterColumn_tile_count (w : World) (col c : Nat) (p : Int) (k : Nat) :
    ((enterColumn w col c p).column k).tile_count
      = if k = col then (w.column k).tile_count + 1 else (w.column k).tile_count := by
  unfold enterColumn
  dsimp only
  split
  · simp [linkTileLast]; split <;> simp_all
  · split <;> simp [linkTileLast, linkTileAt] <;> split <;> simp_all

theorem enterColumn_tiles (w : World) (col c : Nat) (p : Int) (k : Nat) :
    ((enterColumn w col c p).column k).tiles
      = if k = col then
          (w.column col).tiles.take (insertPos w col p) ++ c :: (w.column col).tiles.drop (insertPos w col p)
        else (w.column k).tiles := by
  unfold enterColumn insertPos column_tile_at
  dsimp only
  by_cases hp : p < 0 ∨ p ≥ (w.column col).tile_count
  · simp only [setClient_column, hp, if_true]
    simp [linkTileLast]
    split <;> simp_all
  · simp only [setClient_column, hp, if_false]
    split <;> simp [linkTileLast, linkTileAt] <;> split <;> simp_all


theorem enterColumn_client (w : World) (col c : Nat) (p : Int) :
    ∃ base : Nat → Client,
      (enterColumn w col c p).client
          = reindexLoop base ((enterColumn w col c p).column col).tiles 0
        ∧ (∀ x, x ≠ c → base x = w.client x)
        ∧ (base c).column = some col ∧ (base c).mon = (w.client c).mon
        ∧ (base c).scroller_proportion = (w.client c).scroller_proportion := by
  unfold enterColumn
  dsimp only
  split
  · refine ⟨_, rfl, ?_, ?_, ?_, ?_⟩ <;> simp [linkTileLast]
    intro x hx
    simp [hx]
  · split
    · refine ⟨_, rfl, ?_, ?_, ?_, ?_⟩ <;> simp [linkTileAt]
      intro x hx
      simp [hx]
    · refine ⟨_, rfl, ?_, ?_, ?_, ?_⟩ <;> simp [linkTileLast]
      intro x hx
      simp [hx]

/-! ## Lists -/

theorem nodup_of_index {l : List Nat} {f : Nat → Int}
    (h : ∀ (i : Nat) (t : Nat), l[i]? = some t → f t = i) : l.Nodup := by
  rw [List.nodup_iff_getElem?_ne_getElem?]
  intro i j hij hj heq
  have hjs : l[j]? = some l[j] := List.getElem?_eq_getElem hj
  have h1 := h j _ hjs
  have h2 := h i _ (heq.trans hjs)
  rw [h1] at h2
  have : (j : Int) = i := h2
  omega

theorem filter_ne_of_not_mem {l : List Nat} {c : Nat} (h : c ∉ l) :
    l.filter (fun x => x != c) = l := by
  rw [List.filter_eq_self]
  intro a ha
  simp only [bne_iff_ne, ne_eq]
  rintro rfl
  exact h ha

theorem length_filter_ne {l : List Nat} {c : Nat} (hnd : l.Nodup) (hc : c ∈ l) :
    (l.filter (fun x => x != c)).length + 1 = l.length := by
  induction l with
  | nil => simp at hc
  | cons a rest ih =>
    rw [List.nodup_cons] at hnd
    by_cases hac : a = c
    · subst hac
      simp [filter_ne_of_not_mem hnd.1]
    · have hc2 : c ∈ rest := by
        rcases List.mem_cons.1 hc with h | h
        · exact absurd h.symm hac
        · exact h
      simp [List.filter_cons, hac, ih hnd.2 hc2]

theorem mem_filter_ne {l : List Nat} {c t : Nat} :
    t ∈ l.filter (fun x => x != c) ↔ t ∈ l ∧ t ≠ c := by
  simp [List.mem_filter]

/-! ## Tiles and columns stay consistent -/

theorem TileInv.nodup {w : World} (h : TileInv w) (k : Nat) : (w.column k).tiles.Nodup :=
  nodup_of_index (h.index_order k)

theorem TileInv.one_column {w : World} (h : TileInv w) (k1 k2 t : Nat)
    (h1 : t ∈ (w.column k1).tiles) (h2 : t ∈ (w.column k2).tiles) : k1 = k2 := by
  have a := h.member_backref k1 t h1
  have b := h.member_backref k2 t h2
  rw [a] at b
  exact Option.some.inj b

theorem TileInv.toExcept {w : World} (h : TileInv w) (c : Nat)
    (hc : (w.client c).column = none) : TileInvExcept w c where
  not_linked := by
    intro k hk
    have := h.member_backref k c hk
    simp [hc] at this
  member_backref := h.member_backref
  back_member := fun t k _ ht => h.back_member t k ht
  index_order := h.index_order
  tile_count_eq := h.tile_count_eq

theorem TileInvExcept.toInv {w : World} {c : Nat} (h : TileInvExcept w c)
    (hc : (w.client c).column = none) : TileInv w where
  member_backref := h.member_backref
  back_member := by
    intro t k ht
    by_cases htc : t = c
    · subst htc
      simp [hc] at ht
    · exact h.back_member t k htc ht
  index_order := h.index_order
  tile_count_eq := h.tile_count_eq

/-- A memory that differs from a consistent one by the removal of `c` from
its column `old` (unlinked, count decremented, `old` reindexed) is consistent
up to the back-reference of `c`. -/
theorem tileInvExcept_of_detached {w : World} (h : TileInv w) {c old : Nat}
    (hc : (w.client c).column = some old) (w1 : World)
    (htiles : ∀ k, (w1.column k).tiles = (w.column k).tiles.filter (fun x => x != c))
    (hcount : ∀ k, (w1.column k).tile_count
      = if k = old then (w.column k).tile_count - 1 else (w.column k).tile_count)
    (base : Nat → Client)
    (hclient : w1.client = reindexLoop base ((w.column old).tiles.filter (fun x => x != c)) 0)
    (hbase : ∀ x, x ≠ c → base x = w.client x) : TileInvExcept w1 c := by
  have hmem : c ∈ (w.column old).tiles := h.back_member c old hc
  have hother : ∀ k, k ≠ old → c ∉ (w.column k).tiles := by
    intro k hk hck
    exact hk (h.one_column k old c hck hmem)
  have hcol : ∀ t, t ≠ c → (w1.client t).column = (w.client t).column := by
    intro t ht
    rw [hclient, reindexLoop_column, hbase t ht]
  refine ⟨?_, ?_, ?_, ?_, ?_⟩
  · intro k hk
    rw [htiles, mem_filter_ne] at hk
    exact hk.2 rfl
  · intro k t ht
    rw [htiles, mem_filter_ne] at ht
    rw [hcol t ht.2]
    exact h.member_backref k t ht.1
  · intro t k htc ht
    rw [hcol t htc] at ht
    rw [htiles, mem_filter_ne]
    exact ⟨h.back_member t k ht, htc⟩
  · intro k i t ht
    by_cases hk : k = old
    · subst hk
      rw [htiles] at ht
      rw [hclient, reindexLoop_index _ _ _ _ _ ((h.nodup k).filter _) ht]
      simp
    · rw [htiles, filter_ne_of_not_mem (hother k hk)] at ht
      have htk : t ∈ (w.column k).tiles := List.getElem?_mem ht
      have htc : t ≠ c := by
        rintro rfl
        exact hother k hk htk
      have hnot : t ∉ (w.column old).tiles.filter (fun x => x != c) := by
        intro hin
        rw [mem_filter_ne] at hin
        exact hk (h.one_column k old t htk hin.1)
      rw [hclient, reindexLoop_of_not_mem _ _ _ _ hnot, hbase t htc]
      exact h.index_order k i t ht
  · intro k
    rw [hcount, htiles]
    by_cases hk : k = old
    · subst hk
      have := length_filter_ne (h.nodup k) hmem
      rw [if_pos rfl, h.tile_count_eq k]
      omega
    · rw [if_neg hk, filter_ne_of_not_mem (hother k hk)]
      exact h.tile_count_eq k

theorem tileInvExcept_leaveColumn {w : World} (h : TileInv w) (c : Nat) :
    TileInvExcept (leaveColumn w c) c := by
  cases hc : (w.client c).column with
  | none =>
    rw [leaveColumn_of_none w c hc]
    exact h.toExcept c hc
  | some old =>
    exact tileInvExcept_of_detached h hc _ (fun k => leaveColumn_tiles w c old k hc)
      (fun k => leaveColumn_tile_count w c old k hc) w.client (leaveColumn_client w c old hc)
      (fun _ _ => rfl)

theorem tileInv_detachFrom {w : World} (h : TileInv w) {c col : Nat}
    (hc : (w.client c).column = some col) : TileInv (detachFrom w col c) := by
  have hx : TileInvExcept (detachFrom w col c) c :=
    tileInvExcept_of_detached h hc _ (fun k => detachFrom_tiles w col c k)
      (fun k => detachFrom_tile_count w col c k) _ (detachFrom_client w col c)
      (fun x hx => by simp [hx])
  apply hx.toInv
  rw [detachFrom_client, reindexLoop_column]
  simp

theorem tileInv_enterColumn {w : World} {c : Nat} (h : TileInvExcept w c) (col : Nat)
    (p : Int) : TileInv (enterColumn w col c p) := by
  obtain ⟨base, hclient, hbase, hbcol, -, -⟩ := enterColumn_client w col c p
  have htiles := enterColumn_tiles w col c p
  have hcount := enterColumn_tile_count w col c p
  generalize enterColumn w col c p = w1 at *
  have hold : (w.column col).tiles.Nodup := nodup_of_index (h.index_order col)
  have hnew : (w1.column col).tiles.Nodup := by
    rw [htiles col, if_pos rfl]
    have hperm : ((w.column col).tiles.take (insertPos w col p)
        ++ c :: (w.column col).tiles.drop (insertPos w col p)).Perm (c :: (w.column col).tiles) := by
      refine List.perm_middle.trans ?_
      rw [List.take_append_drop]
    rw [hperm.nodup_iff, List.nodup_cons]
    exact ⟨h.not_linked col, hold⟩
  have hmemnew : ∀ t, t ∈ (w1.column col).tiles ↔ t = c ∨ t ∈ (w.column col).tiles := by
    intro t
    rw [htiles col, if_pos rfl, List.mem_append, List.mem_cons]
    constructor
    · rintro (h1 | h1 | h1)
      · exact Or.inr (List.mem_of_mem_take h1)
      · exact Or.inl h1
      · exact Or.inr (List.mem_of_mem_drop h1)
    · rintro (h1 | h1)
      · exact Or.inr (Or.inl h1)
      · rw [← List.take_append_drop (insertPos w col p) (w.column col).tiles,
          List.mem_append] at h1
        rcases h1 with h1 | h1
        · exact Or.inl h1
        · exact Or.inr (Or.inr h1)
  have hcolref : ∀ t, (w1.client t).column = if t = c then some col else (w.client t).column := by
    intro t
    rw [hclient, reindexLoop_column]
    by_cases ht : t = c
    · subst ht
      simp [hbcol]
    · simp [ht, hbase t ht]
  refine ⟨?_, ?_, ?_, ?_⟩
  · intro k t ht
    rw [hcolref]
    by_cases hk : k = col
    · subst hk
      rcases (hmemnew t).1 ht with h1 | h1
      · simp [h1]
      · have : t ≠ c := by
          rintro rfl
          exact h.not_linked k h1
        simp [this, h.member_backref k t h1]
    · rw [htiles k, if_neg hk] at ht
      have : t ≠ c := by
        rintro rfl
        exact h.not_linked k ht
      simp [this, h.member_backref k t ht]
  · intro t k ht
    rw [hcolref] at ht
    by_cases htc : t = c
    · subst htc
      simp only [if_true, Option.some.injEq] at ht
      subst ht
      exact (hmemnew t).2 (Or.inl rfl)
    · simp only [htc, if_false] at ht
      have := h.back_member t k htc ht
      by_cases hk : k = col
      · subst hk
        exact (hmemnew t).2 (Or.inr this)
      · rw [htiles k, if_neg hk]
        exact this
  · intro k i t ht
    by_cases hk : k = col
    · subst hk
      rw [hclient, reindexLoop_index _ _ _ _ _ hnew ht]
      simp
    · rw [htiles k, if_neg hk] at ht
      have htk : t ∈ (w.column k).tiles := List.getElem?_mem ht
      have htc : t ≠ c := by
        rintro rfl
        exact h.not_linked k htk
      have hnot : t ∉ (w1.column col).tiles := by
        intro hin
        rcases (hmemnew t).1 hin with h1 | h1
        · exact htc h1
        · have a := h.member_backref k t htk
          have b := h.member_backref col t h1
          rw [a] at b
          exact hk (Option.some.inj b)
      rw [hclient, reindexLoop_of_not_mem _ _ _ _ hnot, hbase t htc]
      exact h.index_order k i t ht
  · intro k
    rw [hcount k]
    by_cases hk : k = col
    · subst hk
      rw [if_pos rfl, htiles k, if_pos rfl, h.tile_count_eq k]
      simp only [List.length_append, List.length_cons, List.length_take, List.length_drop]
      omega
    · rw [if_neg hk, htiles k, if_neg hk]
      exact h.tile_count_eq k

theorem tileInv_add_tile {w : World} (h : TileInv w) (col c : Nat) (p : Int) :
    TileInv (column_add_tile w col c p) :=
  tileInv_enterColumn (tileInvExcept_leaveColumn h c) col p


/-! ## Consistency, assembled and taken apart -/

theorem Consistent.tileInv {w : World} (h : Consistent w) : TileInv w where
  member_backref := h.member_backref
  back_member := by
    intro t k ht
    obtain ⟨i, -, hi⟩ := h.backref_sits t k ht
    exact List.getElem?_mem hi
  index_order := h.index_order
  tile_count_eq := h.tile_count_eq

theorem Consistent.listInv {w : World} (h : Consistent w) : ListInv w :=
  ⟨h.column_count_eq, h.columns_nodup, h.owner⟩

theorem Consistent.freshInv {w : World} (h : Consistent w) : FreshInv w := h.fresh

theorem Consistent.of_parts {w : World} (ht : TileInv w) (hl : ListInv w) (hf : FreshInv w) :
    Consistent w where
  backref_sits := by
    intro t k htk
    obtain ⟨i, hi⟩ := List.mem_iff_getElem?.1 (ht.back_member t k htk)
    exact ⟨i, ht.index_order k i t hi, hi⟩
  index_order := ht.index_order
  one_column := ht.one_column
  tile_count_eq := ht.tile_count_eq
  column_count_eq := hl.column_count_eq
  member_backref := ht.member_backref
  columns_nodup := hl.columns_nodup
  owner := hl.owner
  fresh := hf

theorem Consistent.membership {w : World} (h : Consistent w) : Membership w :=
  ⟨h.backref_sits, h.index_order, h.one_column, h.tile_count_eq, h.column_count_eq⟩

/-- Only the column fields `mon` and the monitors matter to `ListInv`. -/
theorem listInv_transport {w w1 : World} (h : ListInv w)
    (hmon : ∀ k, (w1.column k).mon = (w.column k).mon) (hm : w1.monitor = w.monitor) :
    ListInv w1 := by
  refine ⟨?_, ?_, ?_⟩
  · intro m
    rw [hm]
    exact h.column_count_eq m
  · intro m
    rw [hm]
    exact h.columns_nodup m
  · intro k m
    rw [hmon, hm]
    exact h.owner k m

/-! ## Effect of `column_add_tile` as a whole -/

theorem column_add_tile_monitor (w : World) (col c : Nat) (p : Int) :
    (column_add_tile w col c p).monitor = w.monitor := by
  unfold column_add_tile
  rw [enterColumn_monitor, leaveColumn_monitor]

theorem column_add_tile_clients (w : World) (col c : Nat) (p : Int) :
    (column_add_tile w col c p).clients = w.clients := by
  unfold column_add_tile
  rw [enterColumn_clients, leaveColumn_clients]

theorem column_add_tile_brk (w : World) (col c : Nat) (p : Int) :
    (column_add_tile w col c p).brk = w.brk := by
  unfold column_add_tile
  rw [enterColumn_brk, leaveColumn_brk]

theorem column_add_tile_mon (w : World) (col c : Nat) (p : Int) (k : Nat) :
    ((column_add_tile w col c p).column k).mon = (w.column k).mon := by
  unfold column_add_tile
  rw [enterColumn_mon, leaveColumn_mon]

theorem leaveColumn_tiles_of_nil (w : World) (c k : Nat) (h : (w.column k).tiles = []) :
    ((leaveColumn w c).column k).tiles = [] := by
  cases hc : (w.client c).column with
  | none => rw [leaveColumn_of_none w c hc, h]
  | some old => rw [leaveColumn_tiles w c old k hc, h]; rfl

theorem column_add_tile_tiles_of_nil (w : World) (col c : Nat) (p : Int) (k : Nat)
    (hk : k ≠ col) (h : (w.column k).tiles = []) :
    ((column_add_tile w col c p).column k).tiles = [] := by
  unfold column_add_tile
  rw [enterColumn_tiles, if_neg hk]
  exact leaveColumn_tiles_of_nil w c k h

/-! ## The tile operations keep a consistent memory consistent -/

theorem consistent_add_tile {w : World} (h : Consistent w) (col c : Nat) (p : Int)
    (hcol : col < w.brk) : Consistent (column_add_tile w col c p) := by
  refine Consistent.of_parts (tileInv_add_tile h.tileInv col c p)
    (listInv_transport h.listInv (column_add_tile_mon w col c p) (column_add_tile_monitor w col c p)) ?_
  intro k hk
  rw [column_add_tile_brk] at hk
  have hkc : k ≠ col := by omega
  exact ⟨column_add_tile_tiles_of_nil w col c p k hkc (h.fresh k hk).1,
    by rw [column_add_tile_mon]; exact (h.fresh k hk).2⟩

theorem consistent_detachFrom {w : World} (h : Consistent w) {c col : Nat}
    (hc : (w.client c).column = some col) : Consistent (detachFrom w col c) := by
  refine Consistent.of_parts (tileInv_detachFrom h.tileInv hc)
    (listInv_transport h.listInv (detachFrom_mon w col c) (detachFrom_monitor w col c)) ?_
  intro k hk
  rw [detachFrom_brk] at hk
  refine ⟨?_, ?_⟩
  · rw [detachFrom_tiles, (h.fresh k hk).1]
    rfl
  · rw [detachFrom_mon]
    exact (h.fresh k hk).2

theorem column_tile_at_mem {w : World} {col : Nat} {idx : Int} {c : Nat}
    (h : column_tile_at w col idx = some c) : c ∈ (w.column col).tiles := by
  unfold column_tile_at at h
  split at h
  · simp at h
  · exact List.getElem?_mem h

theorem consistent_remove_tile {w : World} (h : Consistent w) (col : Nat) (idx : Int) :
    Consistent (column_remove_tile w col idx).1 := by
  unfold column_remove_tile
  split
  · exact h
  · split
    · exact h
    · rename_i c hc
      exact consistent_detachFrom h (h.member_backref col c (column_tile_at_mem hc))

theorem consistent_remove_client {w : World} (h : Consistent w) (c : Nat) :
    Consistent (column_remove_client w c) := by
  unfold column_remove_client
  split
  · exact h
  · rename_i col hc
    exact consistent_detachFrom h hc


/-! ## Dropping an empty column -/

theorem tileInv_transport {w w1 : World} (h : TileInv w) (hc : w1.client = w.client)
    (ht : ∀ k, (w1.column k).tiles = (w.column k).tiles)
    (hn : ∀ k, (w1.column k).tile_count = (w.column k).tile_count) : TileInv w1 := by
  refine ⟨?_, ?_, ?_, ?_⟩
  · intro k t
    rw [ht, hc]
    exact h.member_backref k t
  · intro t k
    rw [ht, hc]
    exact h.back_member t k
  · intro k i t
    rw [ht, hc]
    exact h.index_order k i t
  · intro k
    rw [ht, hn]
    exact h.tile_count_eq k

/-- A consistent memory stays consistent when a column without tiles is
unlinked from the column lists and its slot is cleared, the count of the
monitor it names being decremented. -/
theorem consistent_drop_empty {a b : World} (h : Consistent a) (col : Nat)
    (hempty : (a.column col).tiles = [])
    (hclient : b.client = a.client) (hbrk : b.brk = a.brk)
    (hcolumn : ∀ k, b.column k = if k = col then blankColumn else a.column k)
    (hcols : ∀ m, (b.monitor m).scroller_columns
      = (a.monitor m).scroller_columns.filter (fun x => x != col))
    (hcount : ∀ m, (b.monitor m).column_count
      = if (a.column col).mon = some m then (a.monitor m).column_count - 1
        else (a.monitor m).column_count) : Consistent b := by
  refine Consistent.of_parts (tileInv_transport h.tileInv hclient ?_ ?_) ⟨?_, ?_, ?_⟩ ?_
  · intro k
    rw [hcolumn]
    split
    · next hk => subst hk; rw [hempty]; rfl
    · rfl
  · intro k
    rw [hcolumn]
    split
    · next hk =>
      subst hk
      rw [h.tile_count_eq k, hempty]
      rfl
    · rfl
  · intro m
    rw [hcount, hcols]
    split
    · next hm =>
      have := length_filter_ne (h.columns_nodup m) ((h.owner col m).1 hm)
      rw [h.column_count_eq m]
      omega
    · next hm =>
      have hnot : col ∉ (a.monitor m).scroller_columns := fun hin => hm ((h.owner col m).2 hin)
      rw [filter_ne_of_not_mem hnot]
      exact h.column_count_eq m
  · intro m
    rw [hcols]
    exact (h.columns_nodup m).filter _
  · intro k m
    rw [hcolumn, hcols, mem_filter_ne]
    split
    · next hk =>
      subst hk
      simp [blankColumn]
    · next hk =>
      rw [h.owner k m]
      exact ⟨fun x => ⟨x, hk⟩, fun x => x.1⟩
  · intro k hk
    rw [hbrk] at hk
    rw [hcolumn]
    split
    · exact ⟨rfl, rfl⟩
    · exact h.fresh k hk

@[simp]
theorem column_destroy_column (w : World) (col k : Nat) :
    (column_destroy w col).column k = if k = col then blankColumn else w.column k := rfl
@[simp]
theorem column_destroy_client (w : World) (col : Nat) :
    (column_destroy w col).client = w.client := rfl
@[simp]
theorem column_destroy_clients (w : World) (col : Nat) :
    (column_destroy w col).clients = w.clients := rfl
@[simp]
theorem column_destroy_brk (w : World) (col : Nat) : (column_destroy w col).brk = w.brk := rfl
@[simp]
theorem column_destroy_columns (w : World) (col m : Nat) :
    ((column_destroy w col).monitor m).scroller_columns
      = (w.monitor m).scroller_columns.filter (fun x => x != col) := rfl
@[simp]
theorem column_destroy_count (w : World) (col m : Nat) :
    ((column_destroy w col).monitor m).column_count = (w.monitor m).column_count := rfl
@[simp]
theorem column_destroy_active (w : World) (col m : Nat) :
    ((column_destroy w col).monitor m).active_column_idx = (w.monitor m).active_column_idx := rfl
@[simp]
theorem column_destroy_sel (w : World) (col m : Nat) :
    ((column_destroy w col).monitor m).sel = (w.monitor m).sel := rfl

theorem column_remove_column (w : World) (m col : Nat) :
    (column_remove w m col).column = w.column := by
  unfold column_remove
  dsimp only
  split <;> rfl

theorem column_remove_client' (w : World) (m col : Nat) :
    (column_remove w m col).client = w.client := by
  unfold column_remove
  dsimp only
  split <;> rfl

theorem column_remove_clients (w : World) (m col : Nat) :
    (column_remove w m col).clients = w.clients := by
  unfold column_remove
  dsimp only
  split <;> rfl

theorem column_remove_brk (w : World) (m col : Nat) : (column_remove w m col).brk = w.brk := by
  unfold column_remove
  dsimp only
  split <;> rfl

theorem column_remove_columns (w : World) (m col m1 : Nat) :
    ((column_remove w m col).monitor m1).scroller_columns
      = (w.monitor m1).scroller_columns.filter (fun x => x != col) := by
  unfold column_remove
  dsimp only
  split <;> simp <;> split <;> simp_all

theorem column_remove_count (w : World) (m col m1 : Nat) :
    ((column_remove w m col).monitor m1).column_count
      = if m1 = m then (w.monitor m1).column_count - 1 else (w.monitor m1).column_count := by
  unfold column_remove
  dsimp only
  split <;> simp <;> split <;> simp_all

theorem filter_ne_twice (l : List Nat) (c : Nat) :
    (l.filter (fun x => x != c)).filter (fun x => x != c) = l.filter (fun x => x != c) := by
  rw [List.filter_filter]
  simp

theorem consistent_remove_from_columns {w : World} (h : Consistent w) (c : Nat) :
    Consistent (scroller_remove_client_from_columns w c) := by
  unfold scroller_remove_client_from_columns
  split
  · exact h
  · rename_i col hc
    have hdet : column_remove_client w c = detachFrom w col c := by
      simp [column_remove_client, hc]
    have ha : Consistent (detachFrom w col c) := consistent_detachFrom h hc
    dsimp only
    rw [hdet]
    split
    · next hz =>
      have hempty : ((detachFrom w col c).column col).tiles = [] := by
        have := ha.tile_count_eq col
        rw [hz] at this
        exact List.length_eq_zero.1 (by exact_mod_cast this.symm)
      have hmon := detachFrom_mon w col c col
      split
      · next m hm =>
        refine consistent_drop_empty ha col hempty ?_ ?_ ?_ ?_ ?_
        · simp [column_remove_client']
        · simp [column_remove_brk]
        · intro k
          simp [column_remove_column]
        · intro m1
          simp [column_remove_columns, filter_ne_twice]
        · intro m1
          rw [hmon, hm]
          simp only [column_destroy_count, column_remove_count, Option.some.injEq]
          by_cases hmm : m1 = m
          · simp [hmm]
          · have : ¬ m = m1 := fun x => hmm x.symm
            simp [hmm, this]
      · next hm =>
        refine consistent_drop_empty ha col hempty rfl rfl (fun _ => rfl) (fun _ => rfl) ?_
        intro m1
        rw [hmon, hm]
        simp
    · exact ha


/-! ## Creating a column for a client -/

theorem perm_insert_middle (l : List Nat) (n a : Nat) :
    (l.take n ++ a :: l.drop n).Perm (a :: l) := by
  refine List.perm_middle.trans ?_
  rw [List.take_append_drop]

@[simp]
theorem column_create_fst_column (w : World) (m : Option Nat) (q : Rat) (k : Nat) :
    (column_create w m q).1.column k
      = if k = w.brk then
          { tiles := [], active_tile_idx := 0, tile_count := 0, proportion := q, mon := m }
        else w.column k := rfl
@[simp]
theorem column_create_fst_client (w : World) (m : Option Nat) (q : Rat) :
    (column_create w m q).1.client = w.client := rfl
@[simp]
theorem column_create_fst_monitor (w : World) (m : Option Nat) (q : Rat) :
    (column_create w m q).1.monitor = w.monitor := rfl
@[simp]
theorem column_create_fst_clients (w : World) (m : Option Nat) (q : Rat) :
    (column_create w m q).1.clients = w.clients := rfl
@[simp]
theorem column_create_fst_brk (w : World) (m : Option Nat) (q : Rat) :
    (column_create w m q).1.brk = w.brk + 1 := rfl
@[simp]
theorem column_create_snd (w : World) (m : Option Nat) (q : Rat) :
    (column_create w m q).2 = w.brk := rfl

theorem tileInv_spawned {w : World} (h : Consistent w) (m c : Nat) (q : Rat) :
    TileInv (spawned w m c q) := by
  apply tileInv_add_tile
  refine tileInv_transport h.tileInv rfl ?_ ?_
  · intro k
    rw [column_create_fst_column]
    split
    · next hk => subst hk; exact (h.fresh _ le_rfl).1.symm
    · rfl
  · intro k
    rw [column_create_fst_column]
    split
    · next hk =>
      subst hk
      rw [h.tile_count_eq, (h.fresh _ le_rfl).1]
      rfl
    · rfl

theorem spawned_monitor (w : World) (m c : Nat) (q : Rat) :
    (spawned w m c q).monitor = w.monitor := by
  unfold spawned
  rw [column_add_tile_monitor]
  rfl

theorem spawned_clients (w : World) (m c : Nat) (q : Rat) :
    (spawned w m c q).clients = w.clients := by
  unfold spawned
  rw [column_add_tile_clients]
  rfl

theorem spawned_brk (w : World) (m c : Nat) (q : Rat) :
    (spawned w m c q).brk = w.brk + 1 := by
  unfold spawned
  rw [column_add_tile_brk]
  rfl

theorem spawned_mon (w : World) (m c : Nat) (q : Rat) (k : Nat) :
    ((spawned w m c q).column k).mon = if k = w.brk then some m else (w.column k).mon := by
  unfold spawned
  rw [column_add_tile_mon, column_create_fst_column]
  split <;> rfl

theorem spawned_tiles_of_fresh {w : World} (h : Consistent w) (m c : Nat) (q : Rat) (k : Nat)
    (hk : w.brk + 1 ≤ k) : ((spawned w m c q).column k).tiles = [] := by
  unfold spawned
  apply column_add_tile_tiles_of_nil
  · simp only [column_create_snd]
    omega
  · rw [column_create_fst_column, if_neg (by omega)]
    exact (h.fresh k (by omega)).1

/-- A consistent memory stays consistent when a column is created for a
client and linked somewhere into the column list of its monitor. -/
theorem consistent_of_spawn {w b : World} (h : Consistent w) (m c : Nat) (q : Rat)
    (hclient : b.client = (spawned w m c q).client)
    (hcolumn : b.column = (spawned w m c q).column)
    (hbrk : b.brk = w.brk + 1)
    (hother : ∀ m1, m1 ≠ m → b.monitor m1 = w.monitor m1)
    (hlist : ((b.monitor m).scroller_columns).Perm (w.brk :: (w.monitor m).scroller_columns))
    (hcount : (b.monitor m).column_count = (w.monitor m).column_count + 1) : Consistent b := by
  have hnotin : ∀ m1, w.brk ∉ (w.monitor m1).scroller_columns := by
    intro m1 hin
    have := (h.owner _ m1).2 hin
    rw [(h.fresh _ le_rfl).2] at this
    exact absurd this (by simp)
  refine Consistent.of_parts (tileInv_transport (tileInv_spawned h m c q) hclient ?_ ?_) ⟨?_, ?_, ?_⟩ ?_
  · intro k; rw [hcolumn]
  · intro k; rw [hcolumn]
  · intro m1
    by_cases hm : m1 = m
    · subst hm
      rw [hcount, hlist.length_eq, h.column_count_eq]
      simp
    · rw [hother m1 hm]
      exact h.column_count_eq m1
  · intro m1
    by_cases hm : m1 = m
    · subst hm
      rw [hlist.nodup_iff, List.nodup_cons]
      exact ⟨hnotin m1, h.columns_nodup m1⟩
    · rw [hother m1 hm]
      exact h.columns_nodup m1
  · intro k m1
    rw [hcolumn, spawned_mon]
    by_cases hm : m1 = m
    · subst hm
      rw [hlist.mem_iff, List.mem_cons]
      split
      · next hk => simp [hk]
      · next hk =>
        rw [h.owner k m1]
        simp [hk]
    · rw [hother m1 hm]
      split
      · next hk =>
        subst hk
        have : ¬ m = m1 := fun x => hm x.symm
        simp [this, hnotin m1]
      · exact h.owner k m1
  · intro k hk
    rw [hbrk] at hk
    rw [hcolumn]
    refine ⟨spawned_tiles_of_fresh h m c q k hk, ?_⟩
    rw [spawned_mon, if_neg (by omega)]
    exact (h.fresh k (by omega)).2

/-! ## Migration keeps a consistent memory consistent -/

theorem migrateStep_skip (E : Env) (m : Nat) (w : World) (c : Nat)
    (h : eligibleOn E w m c = false) : migrateStep E m w c = w := by
  unfold migrateStep
  unfold eligibleOn at h
  by_cases h1 : (w.client c).mon = some m
  · simp only [h1, beq_self_eq_true, Bool.true_and, Bool.and_eq_false_iff] at h
    rw [if_neg (by simp [h1]), if_pos]
    rcases h with h | h <;> simp [h]
  · rw [if_pos h1]

theorem migrateStep_take (E : Env) (m : Nat) (w : World) (c : Nat)
    (h : eligibleOn E w m c = true) :
    (migrateStep E m w c).client = (spawned w m c (w.client c).scroller_proportion).client
    ∧ (migrateStep E m w c).column = (spawned w m c (w.client c).scroller_proportion).column
    ∧ (migrateStep E m w c).brk = w.brk + 1
    ∧ (migrateStep E m w c).clients = w.clients
    ∧ (∀ m1, m1 ≠ m → (migrateStep E m w c).monitor m1 = w.monitor m1)
    ∧ ((migrateStep E m w c).monitor m).scroller_columns
        = (w.monitor m).scroller_columns ++ [w.brk]
    ∧ ((migrateStep E m w c).monitor m).column_count = (w.monitor m).column_count + 1
    ∧ ((migrateStep E m w c).monitor m).sel = (w.monitor m).sel
    ∧ ((migrateStep E m w c).monitor m).active_column_idx
        = if (w.monitor m).sel = some c then (w.monitor m).column_count
          else (w.monitor m).active_column_idx := by
  unfold eligibleOn at h
  simp only [Bool.and_eq_true, beq_iff_eq] at h
  obtain ⟨h1, h2, h3⟩ := h
  have hm := spawned_monitor w m c (w.client c).scroller_proportion
  have hb := spawned_brk w m c (w.client c).scroller_proportion
  have hc := spawned_clients w m c (w.client c).scroller_proportion
  unfold migrateStep
  rw [if_neg (by simp [h1]), if_neg (by simp [h2, h3])]
  unfold spawned at hm hb hc ⊢
  simp only [column_create_snd] at hm hb hc ⊢
  simp only [setMonitor_monitor, if_true, hm]
  split
  · next hs =>
    refine ⟨rfl, rfl, ?_, ?_, ?_, ?_, ?_, ?_, ?_⟩
    · simpa using hb
    · simpa using hc
    · intro m1 hm1
      simp [hm1, hm]
    · simp
    · simp
    · simp
    · simp [hs]
  · next hs =>
    refine ⟨rfl, rfl, ?_, ?_, ?_, ?_, ?_, ?_, ?_⟩
    · simpa using hb
    · simpa using hc
    · intro m1 hm1
      simp [hm1, hm]
    · simp
    · simp
    · simp
    · simp [hs]

theorem consistent_migrateStep {w : World} (h : Consistent w) (E : Env) (m c : Nat) :
    Consistent (migrateStep E m w c) := by
  cases he : eligibleOn E w m c with
  | false => rw [migrateStep_skip E m w c he]; exact h
  | true =>
    obtain ⟨h1, h2, h3, -, h5, h6, h7, -, -⟩ := migrateStep_take E m w c he
    refine consistent_of_spawn h m c _ h1 h2 h3 h5 ?_ h7
    rw [h6]
    exact List.perm_append_singleton _ _

theorem consistent_foldl_migrateStep (E : Env) (m : Nat) (l : List Nat) {w : World}
    (h : Consistent w) : Consistent (l.foldl (migrateStep E m) w) := by
  induction l generalizing w with
  | nil => exact h
  | cons c rest ih => exact ih (consistent_migrateStep h E m c)

theorem consistent_init_of_empty {w : World} (h : Consistent w) (m : Nat)
    (he : (w.monitor m).scroller_columns = []) : Consistent (column_init_for_monitor w m) := by
  refine Consistent.of_parts (tileInv_transport h.tileInv rfl (fun _ => rfl) (fun _ => rfl)) ⟨?_, ?_, ?_⟩
    h.fresh
  · intro m1
    unfold column_init_for_monitor
    simp only [setMonitor_monitor]
    split
    · rfl
    · exact h.column_count_eq m1
  · intro m1
    unfold column_init_for_monitor
    simp only [setMonitor_monitor]
    split
    · exact List.nodup_nil
    · exact h.columns_nodup m1
  · intro k m1
    unfold column_init_for_monitor
    simp only [setMonitor_monitor, setMonitor_column]
    split
    · next hm => subst hm; rw [h.owner, he]
    · exact h.owner k m1

theorem consistent_migrate {w : World} (h : Consistent w) (E : Env) (m : Nat) :
    Consistent (scroller_migrate_to_columns E w m) := by
  unfold scroller_migrate_to_columns
  split
  · exact h
  · next he =>
    exact consistent_foldl_migrateStep E m _ (consistent_init_of_empty h m (by simpa using he))


/-! ## Adding a client keeps a consistent memory consistent -/

theorem column_insert_at_client (w : World) (m col : Nat) (idx : Int) :
    (column_insert_at w m col idx).client = w.client := rfl

theorem column_insert_at_column (w : World) (m col : Nat) (idx : Int) :
    (column_insert_at w m col idx).column = w.column := rfl

theorem column_insert_at_brk (w : World) (m col : Nat) (idx : Int) :
    (column_insert_at w m col idx).brk = w.brk := rfl

theorem column_insert_at_clients (w : World) (m col : Nat) (idx : Int) :
    (column_insert_at w m col idx).clients = w.clients := rfl

theorem column_insert_at_other (w : World) (m col : Nat) (idx : Int) (m1 : Nat) (h : m1 ≠ m) :
    (column_insert_at w m col idx).monitor m1 = w.monitor m1 := by
  simp [column_insert_at, h]

theorem column_insert_at_count (w : World) (m col : Nat) (idx : Int) :
    ((column_insert_at w m col idx).monitor m).column_count = (w.monitor m).column_count + 1 := by
  simp [column_insert_at]

theorem column_insert_at_active (w : World) (m col : Nat) (idx : Int) :
    ((column_insert_at w m col idx).monitor m).active_column_idx
      = (w.monitor m).active_column_idx := by
  simp [column_insert_at]

theorem column_insert_at_sel (w : World) (m col : Nat) (idx : Int) :
    ((column_insert_at w m col idx).monitor m).sel = (w.monitor m).sel := by
  simp [column_insert_at]

theorem column_insert_at_columns (w : World) (m col : Nat) (idx : Int) :
    ((column_insert_at w m col idx).monitor m).scroller_columns
      = (w.monitor m).scroller_columns.take (columnInsertPos w m idx)
          ++ col :: (w.monitor m).scroller_columns.drop (columnInsertPos w m idx) := by
  unfold column_insert_at columnInsertPos column_at_index
  simp only [setMonitor_monitor, if_true]
  by_cases h1 : idx ≤ 0 ∨ (w.monitor m).scroller_columns = []
  · simp [h1]
  · simp only [h1, if_false]
    by_cases h2 : idx ≥ (w.monitor m).column_count
    · simp [h2]
    · have h3 : ¬ (idx < 0 ∨ idx ≥ (w.monitor m).column_count) := by
        push_neg at h1 h2 ⊢
        exact ⟨by omega, h2⟩
      simp only [h2, h3, if_false]
      cases hg : (w.monitor m).scroller_columns[idx.toNat]? with
      | none => simp
      | some v =>
        have h4 : ¬ idx < 0 := fun x => h3 (Or.inl x)
        simp [h4]

theorem add_client_skip (E : Env) (w : World) (c : Nat)
    (h : ∀ m, (w.client c).mon = some m →
      eligibleOn E w m c = false ∨ (w.client c).column ≠ none) :
    scroller_add_client_to_columns E w c = w := by
  unfold scroller_add_client_to_columns
  split
  · rfl
  · next m hm =>
    rcases h m hm with h1 | h1
    · unfold eligibleOn at h1
      simp only [hm, beq_self_eq_true, Bool.true_and, Bool.and_eq_false_iff] at h1
      rw [if_pos]
      rcases h1 with h1 | h1 <;> simp [h1]
    · split
      · rfl
      · rw [if_pos]
        cases hc : (w.client c).column with
        | none => exact absurd hc h1
        | some _ => rfl

/-- The proportion `scroller_add_client_to_columns` gives the new column. -/
theorem add_client_take (E : Env) (w : World) (c m : Nat)
    (hm : (w.client c).mon = some m) (he : eligibleOn E w m c = true)
    (hc : (w.client c).column = none) :
    ∃ q : Rat,
      (scroller_add_client_to_columns E w c).client = (spawned w m c q).client
      ∧ (scroller_add_client_to_columns E w c).column = (spawned w m c q).column
      ∧ (scroller_add_client_to_columns E w c).brk = w.brk + 1
      ∧ (scroller_add_client_to_columns E w c).clients = w.clients
      ∧ (∀ m1, m1 ≠ m → (scroller_add_client_to_columns E w c).monitor m1 = w.monitor m1)
      ∧ ((scroller_add_client_to_columns E w c).monitor m).scroller_columns
          = (w.monitor m).scroller_columns.take (columnInsertPos w m (insert_idx E w m c))
            ++ w.brk
              :: (w.monitor m).scroller_columns.drop (columnInsertPos w m (insert_idx E w m c))
      ∧ ((scroller_add_client_to_columns E w c).monitor m).column_count
          = (w.monitor m).column_count + 1
      ∧ ((scroller_add_client_to_columns E w c).monitor m).sel = (w.monitor m).sel
      ∧ ((scroller_add_client_to_columns E w c).monitor m).active_column_idx
          = insert_idx E w m c := by
  unfold eligibleOn at he
  simp only [Bool.and_eq_true, beq_iff_eq] at he
  obtain ⟨-, h2, h3⟩ := he
  refine ⟨if (w.client c).scroller_proportion > 0 then (w.client c).scroller_proportion
      else E.scroller_default_proportion, ?_⟩
  generalize hq : (if (w.client c).scroller_proportion > 0 then (w.client c).scroller_proportion
      else E.scroller_default_proportion) = q
  have hmon := spawned_monitor w m c q
  have hb := spawned_brk w m c q
  have hcl := spawned_clients w m c q
  have e : scroller_add_client_to_columns E w c
      = (column_insert_at (spawned w m c q) m w.brk (insert_idx E w m c)).setMonitor m
          { (column_insert_at (spawned w m c q) m w.brk (insert_idx E w m c)).monitor m with
            active_column_idx := insert_idx E w m c } := by
    unfold scroller_add_client_to_columns
    simp only [hm, h2, h3, hc, hq]
    rfl
  have hpos : columnInsertPos (spawned w m c q) m (insert_idx E w m c)
      = columnInsertPos w m (insert_idx E w m c) := by
    unfold columnInsertPos
    rw [hmon]
  rw [e]
  refine ⟨rfl, rfl, ?_, ?_, ?_, ?_, ?_, ?_, ?_⟩
  · simpa [column_insert_at_brk] using hb
  · simpa [column_insert_at_clients] using hcl
  · intro m1 hm1
    simp only [setMonitor_monitor, if_neg hm1]
    rw [column_insert_at_other _ _ _ _ _ hm1, hmon]
  · simp only [setMonitor_monitor, if_true]
    rw [column_insert_at_columns, hpos, hmon]
  · simp only [setMonitor_monitor, if_true]
    rw [column_insert_at_count, hmon]
  · simp only [setMonitor_monitor, if_true]
    rw [column_insert_at_sel, hmon]
  · simp only [setMonitor_monitor, if_true]

theorem consistent_add_client {w : World} (h : Consistent w) (E : Env) (c : Nat) :
    Consistent (scroller_add_client_to_columns E w c) := by
  by_cases hs : ∀ m, (w.client c).mon = some m →
      eligibleOn E w m c = false ∨ (w.client c).column ≠ none
  · rw [add_client_skip E w c hs]
    exact h
  · push_neg at hs
    obtain ⟨m, hm, he, hc⟩ := hs
    simp only [Bool.not_eq_false] at he
    obtain ⟨q, h1, h2, h3, -, h5, h6, h7, -, -⟩ := add_client_take E w c m hm he hc
    refine consistent_of_spawn h m c q h1 h2 h3 h5 ?_ h7
    rw [h6]
    exact perm_insert_middle _ _ _


/-! ## Cleanup and rebuild keep a consistent memory consistent -/

theorem clearLoop_client (l : List Nat) (w : World) (t : Nat) :
    (l.foldl (fun a c => a.setClient c (cleared (a.client c))) w).client t
      = if t ∈ l then cleared (w.client t) else w.client t := by
  induction l generalizing w with
  | nil => rfl
  | cons c rest ih =>
    rw [List.foldl_cons, ih]
    by_cases h1 : t = c
    · subst h1
      by_cases h2 : t ∈ rest <;> simp [h2, cleared]
    · by_cases h2 : t ∈ rest <;> simp [h1, h2]

theorem clearLoop_column (l : List Nat) (w : World) :
    (l.foldl (fun a c => a.setClient c (cleared (a.client c))) w).column = w.column := by
  induction l generalizing w with
  | nil => rfl
  | cons c rest ih => rw [List.foldl_cons, ih]; rfl

theorem clearLoop_monitor (l : List Nat) (w : World) :
    (l.foldl (fun a c => a.setClient c (cleared (a.client c))) w).monitor = w.monitor := by
  induction l generalizing w with
  | nil => rfl
  | cons c rest ih => rw [List.foldl_cons, ih]; rfl

theorem clearLoop_brk (l : List Nat) (w : World) :
    (l.foldl (fun a c => a.setClient c (cleared (a.client c))) w).brk = w.brk := by
  induction l generalizing w with
  | nil => rfl
  | cons c rest ih => rw [List.foldl_cons, ih]; rfl

theorem clearLoop_clients (l : List Nat) (w : World) :
    (l.foldl (fun a c => a.setClient c (cleared (a.client c))) w).clients = w.clients := by
  induction l generalizing w with
  | nil => rfl
  | cons c rest ih => rw [List.foldl_cons, ih]; rfl

theorem cleanupColumn_client (w : World) (col t : Nat) :
    (cleanupColumn w col).client t
      = if t ∈ (w.column col).tiles then cleared (w.client t) else w.client t := by
  unfold cleanupColumn
  rw [column_destroy_client, clearLoop_client]

theorem cleanupColumn_column (w : World) (col k : Nat) :
    (cleanupColumn w col).column k = if k = col then blankColumn else w.column k := by
  unfold cleanupColumn
  rw [column_destroy_column, clearLoop_column]

theorem cleanupColumn_brk (w : World) (col : Nat) : (cleanupColumn w col).brk = w.brk := by
  unfold cleanupColumn
  rw [column_destroy_brk, clearLoop_brk]

theorem cleanupColumn_clients (w : World) (col : Nat) :
    (cleanupColumn w col).clients = w.clients := by
  unfold cleanupColumn
  rw [column_destroy_clients, clearLoop_clients]

theorem cleanupColumn_columns (w : World) (col m : Nat) :
    ((cleanupColumn w col).monitor m).scroller_columns
      = (w.monitor m).scroller_columns.filter (fun x => x != col) := by
  unfold cleanupColumn
  rw [column_destroy_columns, clearLoop_monitor]

theorem cleanupColumn_count (w : World) (col m : Nat) :
    ((cleanupColumn w col).monitor m).column_count = (w.monitor m).column_count := by
  unfold cleanupColumn
  rw [column_destroy_count, clearLoop_monitor]

theorem cleanupColumn_active (w : World) (col m : Nat) :
    ((cleanupColumn w col).monitor m).active_column_idx = (w.monitor m).active_column_idx := by
  unfold cleanupColumn
  rw [column_destroy_active, clearLoop_monitor]

theorem cleanupColumn_sel (w : World) (col m : Nat) :
    ((cleanupColumn w col).monitor m).sel = (w.monitor m).sel := by
  unfold cleanupColumn
  rw [column_destroy_sel, clearLoop_monitor]

theorem cleanupAll_column (l : List Nat) (w : World) (k : Nat) :
    (l.foldl cleanupColumn w).column k = if k ∈ l then blankColumn else w.column k := by
  induction l generalizing w with
  | nil => rfl
  | cons c rest ih =>
    rw [List.foldl_cons, ih, cleanupColumn_column]
    by_cases h1 : k ∈ rest
    · simp [h1]
    · by_cases h2 : k = c <;> simp [h1, h2]

theorem cleanupAll_brk (l : List Nat) (w : World) : (l.foldl cleanupColumn w).brk = w.brk := by
  induction l generalizing w with
  | nil => rfl
  | cons c rest ih => rw [List.foldl_cons, ih, cleanupColumn_brk]

theorem cleanupAll_clients (l : List Nat) (w : World) :
    (l.foldl cleanupColumn w).clients = w.clients := by
  induction l generalizing w with
  | nil => rfl
  | cons c rest ih => rw [List.foldl_cons, ih, cleanupColumn_clients]

theorem cleanupAll_columns (l : List Nat) (w : World) (m : Nat) :
    ((l.foldl cleanupColumn w).monitor m).scroller_columns
      = (w.monitor m).scroller_columns.filter (fun x => decide (x ∉ l)) := by
  induction l generalizing w with
  | nil => simp
  | cons c rest ih =>
    rw [List.foldl_cons, ih, cleanupColumn_columns, List.filter_filter]
    apply List.filter_congr
    intro x _
    simp only [List.mem_cons, not_or, Bool.decide_and, bne_iff_ne, ne_eq, decide_not]
    by_cases h1 : x = c <;> by_cases h2 : x ∈ rest <;> simp [h1, h2]

theorem cleanupAll_count (l : List Nat) (w : World) (m : Nat) :
    ((l.foldl cleanupColumn w).monitor m).column_count = (w.monitor m).column_count := by
  induction l generalizing w with
  | nil => rfl
  | cons c rest ih => rw [List.foldl_cons, ih, cleanupColumn_count]

theorem cleanupAll_active (l : List Nat) (w : World) (m : Nat) :
    ((l.foldl cleanupColumn w).monitor m).active_column_idx = (w.monitor m).active_column_idx := by
  induction l generalizing w with
  | nil => rfl
  | cons c rest ih => rw [List.foldl_cons, ih, cleanupColumn_active]

theorem cleanupAll_sel (l : List Nat) (w : World) (m : Nat) :
    ((l.foldl cleanupColumn w).monitor m).sel = (w.monitor m).sel := by
  induction l generalizing w with
  | nil => rfl
  | cons c rest ih => rw [List.foldl_cons, ih, cleanupColumn_sel]

theorem cleanupAll_client_untouched (l : List Nat) (w : World) (t : Nat)
    (h : ∀ k, k ∈ l → t ∉ (w.column k).tiles) : (l.foldl cleanupColumn w).client t = w.client t := by
  induction l generalizing w with
  | nil => rfl
  | cons c rest ih =>
    rw [List.foldl_cons, ih, cleanupColumn_client, if_neg (h c (List.mem_cons_self _ _))]
    intro k hk
    rw [cleanupColumn_column]
    split
    · simp [blankColumn]
    · exact h k (List.mem_cons_of_mem _ hk)

theorem cleanupAll_client_cases (l : List Nat) (w : World) (t : Nat) :
    (l.foldl cleanupColumn w).client t = w.client t
      ∨ (l.foldl cleanupColumn w).client t = cleared (w.client t) := by
  induction l generalizing w with
  | nil => exact Or.inl rfl
  | cons c rest ih =>
    rw [List.foldl_cons]
    rcases ih (cleanupColumn w c) with h | h <;> rw [h, cleanupColumn_client] <;> split
    · exact Or.inr rfl
    · exact Or.inl rfl
    · exact Or.inr rfl
    · exact Or.inr rfl

theorem cleanupAll_client_touched (l : List Nat) (w : World) (t : Nat) (k : Nat) (hk : k ∈ l)
    (ht : t ∈ (w.column k).tiles) : ((l.foldl cleanupColumn w).client t).column = none := by
  induction l generalizing w with
  | nil => simp at hk
  | cons c rest ih =>
    rw [List.foldl_cons]
    by_cases hkc : k = c
    · subst hkc
      rcases cleanupAll_client_cases rest (cleanupColumn w k) t with h | h
      · rw [h, cleanupColumn_client, if_pos ht]
        rfl
      · rw [h]
        rfl
    · have hk2 : k ∈ rest := by
        rcases List.mem_cons.1 hk with h | h
        · exact absurd h hkc
        · exact h
      apply ih _ hk2
      rw [cleanupColumn_column, if_neg hkc]
      exact ht

theorem cleanupAll_client_mon (l : List Nat) (w : World) (t : Nat) :
    ((l.foldl cleanupColumn w).client t).mon = (w.client t).mon := by
  rcases cleanupAll_client_cases l w t with h | h <;> rw [h]
  rfl

theorem consistent_cleanup {w : World} (h : Consistent w) (m : Nat) :
    Consistent (column_cleanup_for_monitor w m) := by
  have hin : ∀ t k, k ∈ (w.monitor m).scroller_columns → t ∈ (w.column k).tiles →
      ((column_cleanup_for_monitor w m).client t).column = none := by
    intro t k hk ht
    exact cleanupAll_client_touched _ w t k hk ht
  have hout : ∀ t, (∀ k, k ∈ (w.monitor m).scroller_columns → t ∉ (w.column k).tiles) →
      (column_cleanup_for_monitor w m).client t = w.client t := by
    intro t ht
    exact cleanupAll_client_untouched _ w t ht
  have hcol : ∀ k, (column_cleanup_for_monitor w m).column k
      = if k ∈ (w.monitor m).scroller_columns then blankColumn else w.column k := by
    intro k
    exact cleanupAll_column _ w k
  have hmon_m : ((column_cleanup_for_monitor w m).monitor m).scroller_columns = []
      ∧ ((column_cleanup_for_monitor w m).monitor m).column_count = 0 := by
    simp [column_cleanup_for_monitor, column_init_for_monitor]
  have hmon_o : ∀ m1, m1 ≠ m →
      ((column_cleanup_for_monitor w m).monitor m1).scroller_columns
          = (w.monitor m1).scroller_columns
        ∧ ((column_cleanup_for_monitor w m).monitor m1).column_count
          = (w.monitor m1).column_count := by
    intro m1 hm1
    simp only [column_cleanup_for_monitor, column_init_for_monitor, setMonitor_monitor,
      if_neg hm1, cleanupAll_columns, cleanupAll_count, and_true]
    rw [List.filter_eq_self]
    intro k hk
    simp only [decide_eq_true_eq]
    intro hk2
    have a := (h.owner k m1).2 hk
    have b := (h.owner k m).2 hk2
    rw [a] at b
    exact hm1 (Option.some.inj b)
  have hbrk : (column_cleanup_for_monitor w m).brk = w.brk := by
    simp [column_cleanup_for_monitor, column_init_for_monitor, cleanupAll_brk]
  generalize column_cleanup_for_monitor w m = w1 at *
  have hkeep : ∀ k t, k ∉ (w.monitor m).scroller_columns → t ∈ (w.column k).tiles →
      w1.client t = w.client t := by
    intro k t hk ht
    apply hout
    intro k2 hk2 ht2
    exact hk (h.one_column k k2 t ht ht2 ▸ hk2)
  refine Consistent.of_parts ⟨?_, ?_, ?_, ?_⟩ ⟨?_, ?_, ?_⟩ ?_
  · intro k t ht
    rw [hcol] at ht
    split at ht
    · simp [blankColumn] at ht
    · next hk =>
      rw [hkeep k t hk ht]
      exact h.member_backref k t ht
  · intro t k ht
    by_cases hex : ∀ k2, k2 ∈ (w.monitor m).scroller_columns → t ∉ (w.column k2).tiles
    · rw [hout t hex] at ht
      have hmem := h.tileInv.back_member t k ht
      have hk : k ∉ (w.monitor m).scroller_columns := fun x => hex k x hmem
      rw [hcol, if_neg hk]
      exact hmem
    · push_neg at hex
      obtain ⟨k2, hk2, ht2⟩ := hex
      rw [hin t k2 hk2 ht2] at ht
      simp at ht
  · intro k i t ht
    rw [hcol] at ht
    split at ht
    · simp [blankColumn] at ht
    · next hk =>
      rw [hkeep k t hk (List.getElem?_mem ht)]
      exact h.index_order k i t ht
  · intro k
    rw [hcol]
    split
    · rfl
    · exact h.tile_count_eq k
  · intro m1
    by_cases hm1 : m1 = m
    · subst hm1
      rw [hmon_m.1, hmon_m.2]
      rfl
    · rw [(hmon_o m1 hm1).1, (hmon_o m1 hm1).2]
      exact h.column_count_eq m1
  · intro m1
    by_cases hm1 : m1 = m
    · subst hm1
      rw [hmon_m.1]
      exact List.nodup_nil
    · rw [(hmon_o m1 hm1).1]
      exact h.columns_nodup m1
  · intro k m1
    rw [hcol]
    by_cases hm1 : m1 = m
    · subst hm1
      rw [hmon_m.1]
      split
      · simp [blankColumn]
      · next hk =>
        rw [h.owner]
        simp [hk]
    · rw [(hmon_o m1 hm1).1]
      split
      · next hk =>
        simp only [blankColumn]
        refine ⟨fun x => by simp at x, fun hk1 => ?_⟩
        exfalso
        have a := (h.owner k m1).2 hk1
        have b := (h.owner k m).2 hk
        rw [a] at b
        exact hm1 (Option.some.inj b)
      · exact h.owner k m1
  · intro k hk
    rw [hbrk] at hk
    rw [hcol]
    split
    · exact ⟨rfl, rfl⟩
    · exact h.fresh k hk

theorem consistent_rebuild {w : World} (h : Consistent w) (E : Env) (m : Nat) :
    Consistent (scroller_rebuild_columns E w m) :=
  consistent_migrate (consistent_cleanup h m) E m


/-! ## Sample memories are consistent -/

theorem consistent_of_blank {w : World} (hcol : ∀ k, w.column k = blankColumn)
    (hcl : ∀ t, (w.client t).column = none)
    (hm : ∀ m, (w.monitor m).scroller_columns = [] ∧ (w.monitor m).column_count = 0) :
    Consistent w := by
  refine Consistent.of_parts ⟨?_, ?_, ?_, ?_⟩ ⟨?_, ?_, ?_⟩ ?_
  · intro k t ht
    simp [hcol, blankColumn] at ht
  · intro t k ht
    simp [hcl] at ht
  · intro k i t ht
    simp [hcol, blankColumn] at ht
  · intro k
    simp [hcol, blankColumn]
  · intro m
    simp [hm]
  · intro m
    simp [hm]
  · intro k m
    simp [hcol, blankColumn, hm]
  · intro k _
    simp [hcol, blankColumn]

theorem consistent_twoClients : Consistent twoClients :=
  consistent_of_blank (fun _ => rfl) (fun _ => rfl) (fun _ => ⟨rfl, rfl⟩)

theorem consistent_twoColumns : Consistent twoColumns :=
  consistent_migrate consistent_twoClients envAll 0

theorem membership_orphanColumn : Membership orphanColumn := by
  have ht : TileInv orphanColumn := tileInv_spawned consistent_twoClients 0 0 (1 / 2)
  refine ⟨?_, ht.index_order, ht.one_column, ht.tile_count_eq, ?_⟩
  · intro t k htk
    obtain ⟨i, hi⟩ := List.mem_iff_getElem?.1 (ht.back_member t k htk)
    exact ⟨i, ht.index_order k i t hi, hi⟩
  · intro m
    unfold orphanColumn
    rw [spawned_monitor]
    rfl


/-! ## Columns without tiles -/

theorem leaveColumn_tile_count_eq (w : World) (c k : Nat) :
    ((leaveColumn w c).column k).tile_count
      = if (w.client c).column = some k then (w.column k).tile_count - 1
        else (w.column k).tile_count := by
  cases hc : (w.client c).column with
  | none => rw [leaveColumn_of_none w c hc]; simp
  | some old =>
    rw [leaveColumn_tile_count w c old k hc]
    by_cases hk : k = old
    · simp [hk]
    · have : ¬ old = k := fun x => hk x.symm
      simp [hk, this]

theorem column_add_tile_tile_count (w : World) (col c : Nat) (p : Int) (k : Nat) :
    ((column_add_tile w col c p).column k).tile_count
      = (if (w.client c).column = some k then (w.column k).tile_count - 1
          else (w.column k).tile_count) + (if k = col then 1 else 0) := by
  unfold column_add_tile
  rw [enterColumn_tile_count, leaveColumn_tile_count_eq]
  split <;> simp

theorem leaveColumn_client_column (w : World) (c t : Nat) :
    ((leaveColumn w c).client t).column = (w.client t).column := by
  cases hc : (w.client c).column with
  | none => rw [leaveColumn_of_none w c hc]
  | some old => rw [leaveColumn_client w c old hc, reindexLoop_column]

theorem leaveColumn_client_mon (w : World) (c t : Nat) :
    ((leaveColumn w c).client t).mon = (w.client t).mon := by
  cases hc : (w.client c).column with
  | none => rw [leaveColumn_of_none w c hc]
  | some old => rw [leaveColumn_client w c old hc, reindexLoop_mon]

theorem column_add_tile_client_column (w : World) (col c : Nat) (p : Int) (t : Nat) :
    ((column_add_tile w col c p).client t).column
      = if t = c then some col else (w.client t).column := by
  unfold column_add_tile
  obtain ⟨base, h1, h2, h3, -, -⟩ := enterColumn_client (leaveColumn w c) col c p
  rw [h1, reindexLoop_column]
  by_cases ht : t = c
  · subst ht
    simp [h3]
  · rw [h2 t ht, leaveColumn_client_column, if_neg ht]

theorem column_add_tile_client_mon (w : World) (col c : Nat) (p : Int) (t : Nat) :
    ((column_add_tile w col c p).client t).mon = (w.client t).mon := by
  unfold column_add_tile
  obtain ⟨base, h1, h2, -, h4, -⟩ := enterColumn_client (leaveColumn w c) col c p
  rw [h1, reindexLoop_mon]
  by_cases ht : t = c
  · subst ht
    rw [h4, leaveColumn_client_mon]
  · rw [h2 t ht, leaveColumn_client_mon]

theorem noEmpty_add_tile {w : World} (col c : Nat) (p : Int) (m : Nat)
    (h2 : ∀ old, (w.client c).column = some old → 2 ≤ (w.column old).tile_count)
    (h : NoEmptyColumn w m) : NoEmptyColumn (column_add_tile w col c p) m := by
  intro k hk
  rw [column_add_tile_monitor] at hk
  rw [column_add_tile_tile_count]
  have h0 := h k hk
  by_cases hc : (w.client c).column = some k
  · have := h2 k hc
    rw [if_pos hc]
    split <;> omega
  · rw [if_neg hc]
    split <;> omega

theorem noEmpty_detachFrom {w : World} (col c : Nat) (m : Nat)
    (h2 : 2 ≤ (w.column col).tile_count) (h : NoEmptyColumn w m) :
    NoEmptyColumn (detachFrom w col c) m := by
  intro k hk
  rw [detachFrom_monitor] at hk
  rw [detachFrom_tile_count]
  have h0 := h k hk
  split
  · next hkc => subst hkc; omega
  · exact h0

theorem noEmpty_remove_tile {w : World} (col : Nat) (idx : Int) (m : Nat)
    (h2 : 2 ≤ (w.column col).tile_count) (h : NoEmptyColumn w m) :
    NoEmptyColumn (column_remove_tile w col idx).1 m := by
  unfold column_remove_tile
  split
  · exact h
  · split
    · exact h
    · exact noEmpty_detachFrom col _ m h2 h

theorem noEmpty_remove_client {w : World} (c : Nat) (m : Nat)
    (h2 : ∀ old, (w.client c).column = some old → 2 ≤ (w.column old).tile_count)
    (h : NoEmptyColumn w m) : NoEmptyColumn (column_remove_client w c) m := by
  unfold column_remove_client
  split
  · exact h
  · next col hc => exact noEmpty_detachFrom col c m (h2 col hc) h

theorem noEmpty_remove_from_columns {w : World} (c : Nat) (m : Nat) (h : NoEmptyColumn w m) :
    NoEmptyColumn (scroller_remove_client_from_columns w c) m := by
  unfold scroller_remove_client_from_columns
  split
  · exact h
  · next col hc =>
    have hdet : column_remove_client w c = detachFrom w col c := by
      simp [column_remove_client, hc]
    dsimp only
    rw [hdet]
    have hkeep : ∀ k, k ≠ col → k ∈ (w.monitor m).scroller_columns →
        0 < ((detachFrom w col c).column k).tile_count := by
      intro k hk hin
      rw [detachFrom_tile_count, if_neg hk]
      exact h k hin
    split
    · split
      · next m1 _ =>
        intro k hk
        rw [column_destroy_columns, column_remove_columns, detachFrom_monitor, filter_ne_twice,
          mem_filter_ne] at hk
        rw [column_destroy_column, if_neg hk.2, column_remove_column]
        exact hkeep k hk.2 hk.1
      · intro k hk
        rw [column_destroy_columns, detachFrom_monitor, mem_filter_ne] at hk
        rw [column_destroy_column, if_neg hk.2]
        exact hkeep k hk.2 hk.1
    · next hz =>
      intro k hk
      rw [detachFrom_monitor] at hk
      by_cases hkc : k = col
      · subst hkc
        have h0 := h k hk
        rw [detachFrom_tile_count, if_pos rfl] at hz ⊢
        omega
      · exact hkeep k hkc hk

theorem spawned_tile_count (w : World) (m c : Nat) (q : Rat) (k : Nat)
    (hc : (w.client c).column ≠ some w.brk) :
    ((spawned w m c q).column k).tile_count
      = if k = w.brk then 1
        else if (w.client c).column = some k then (w.column k).tile_count - 1
        else (w.column k).tile_count := by
  unfold spawned
  rw [column_add_tile_tile_count]
  simp only [column_create_fst_client, column_create_fst_column, column_create_snd]
  by_cases hk : k = w.brk
  · subst hk
    simp [hc]
  · simp [hk]

theorem noEmpty_add_client (E : Env) {w : World} (c : Nat) (m1 : Nat) (h : NoEmptyColumn w m1) :
    NoEmptyColumn (scroller_add_client_to_columns E w c) m1 := by
  by_cases hs : ∀ m, (w.client c).mon = some m →
      eligibleOn E w m c = false ∨ (w.client c).column ≠ none
  · rw [add_client_skip E w c hs]
    exact h
  · push_neg at hs
    obtain ⟨m, hm, he, hc⟩ := hs
    simp only [Bool.not_eq_false] at he
    obtain ⟨q, -, h2, -, -, h5, h6, -, -, -⟩ := add_client_take E w c m hm he hc
    have hcount : ∀ k, ((scroller_add_client_to_columns E w c).column k).tile_count
        = if k = w.brk then 1 else (w.column k).tile_count := by
      intro k
      rw [h2, spawned_tile_count w m c q k (by simp [hc])]
      simp [hc]
    intro k hk
    rw [hcount]
    split
    · exact Int.one_pos
    · apply h
      by_cases hmm : m1 = m
      · subst hmm
        rw [h6, List.mem_append, List.mem_cons] at hk
        rcases hk with hk | hk | hk
        · exact List.mem_of_mem_take hk
        · contradiction
        · exact List.mem_of_mem_drop hk
      · rw [h5 m1 hmm] at hk
        exact hk


theorem noEmpty_foldl_migrateStep (E : Env) (m : Nat) (l : List Nat) (hnd : l.Nodup)
    {w : World} (hpos : NoEmptyColumn w m)
    (hrefs : ∀ t ∈ l, ∀ k, (w.client t).column = some k →
      k ∉ (w.monitor m).scroller_columns ∧ k < w.brk)
    (hbelow : ∀ k ∈ (w.monitor m).scroller_columns, k < w.brk) :
    NoEmptyColumn (l.foldl (migrateStep E m) w) m := by
  induction l generalizing w with
  | nil => exact hpos
  | cons c rest ih =>
    rw [List.nodup_cons] at hnd
    rw [List.foldl_cons]
    cases he : eligibleOn E w m c with
    | false =>
      rw [migrateStep_skip E m w c he]
      exact ih hnd.2 hpos (fun t ht => hrefs t (List.mem_cons_of_mem _ ht)) hbelow
    | true =>
      obtain ⟨h1, h2, h3, -, -, h6, -, -, -⟩ := migrateStep_take E m w c he
      have hcb : (w.client c).column ≠ some w.brk := by
        intro hx
        have := (hrefs c (List.mem_cons_self _ _) _ hx).2
        omega
      apply ih hnd.2
      · intro k hk
        rw [h6, List.mem_append, List.mem_singleton] at hk
        rw [h2, spawned_tile_count w m c _ k hcb]
        rcases hk with hk | hk
        · have hlt := hbelow k hk
          rw [if_neg (by omega)]
          split
          · next hx => exact absurd hk (hrefs c (List.mem_cons_self _ _) k hx).1
          · exact hpos k hk
        · rw [if_pos hk]
          exact Int.one_pos
      · intro t ht k hk
        have htc : t ≠ c := by
          rintro rfl
          exact hnd.1 ht
        rw [h1] at hk
        unfold spawned at hk
        rw [column_add_tile_client_column, if_neg htc] at hk
        have := hrefs t (List.mem_cons_of_mem _ ht) k hk
        rw [h6, h3, List.mem_append, List.mem_singleton]
        refine ⟨?_, by omega⟩
        rintro (hx | hx)
        · exact this.1 hx
        · omega
      · intro k hk
        rw [h6, List.mem_append, List.mem_singleton] at hk
        rw [h3]
        rcases hk with hk | hk
        · have := hbelow k hk
          omega
        · omega

theorem Consistent.ref_lt_brk {w : World} (h : Consistent w) (t k : Nat)
    (ht : (w.client t).column = some k) : k < w.brk := by
  by_contra hk
  have hmem := h.tileInv.back_member t k ht
  rw [(h.fresh k (by omega)).1] at hmem
  simp at hmem

theorem noEmpty_migrate (E : Env) {w : World} (h : Consistent w) (hnd : w.clients.Nodup)
    (m : Nat) (hpos : NoEmptyColumn w m) :
    NoEmptyColumn (scroller_migrate_to_columns E w m) m := by
  unfold scroller_migrate_to_columns
  split
  · exact hpos
  · apply noEmpty_foldl_migrateStep E m _ hnd
    · intro k hk
      simp [column_init_for_monitor] at hk
    · intro t _ k hk
      refine ⟨by simp [column_init_for_monitor], ?_⟩
      exact h.ref_lt_brk t k hk
    · intro k hk
      simp [column_init_for_monitor] at hk

theorem cleanup_columns_nil (w : World) (m : Nat) :
    ((column_cleanup_for_monitor w m).monitor m).scroller_columns = [] := by
  simp [column_cleanup_for_monitor, column_init_for_monitor]

theorem cleanup_clients (w : World) (m : Nat) :
    (column_cleanup_for_monitor w m).clients = w.clients := by
  simp [column_cleanup_for_monitor, column_init_for_monitor, cleanupAll_clients]

theorem noEmpty_rebuild (E : Env) {w : World} (h : Consistent w) (hnd : w.clients.Nodup)
    (m : Nat) : NoEmptyColumn (scroller_rebuild_columns E w m) m := by
  unfold scroller_rebuild_columns
  apply noEmpty_migrate E (consistent_cleanup h m)
  · rw [cleanup_clients]
    exact hnd
  · intro k hk
    rw [cleanup_columns_nil] at hk
    simp at hk


/-! ## After a rebuild every eligible client has a column -/

theorem eligibleOn_congr (E : Env) {w w1 : World} (m c : Nat)
    (h : (w1.client c).mon = (w.client c).mon) : eligibleOn E w1 m c = eligibleOn E w m c := by
  unfold eligibleOn
  rw [h]

theorem spawned_client_mon (w : World) (m c : Nat) (q : Rat) (t : Nat) :
    ((spawned w m c q).client t).mon = (w.client t).mon := by
  unfold spawned
  rw [column_add_tile_client_mon]
  rfl

theorem spawned_client_column (w : World) (m c : Nat) (q : Rat) (t : Nat) :
    ((spawned w m c q).client t).column = if t = c then some w.brk else (w.client t).column := by
  unfold spawned
  rw [column_add_tile_client_column]
  rfl

theorem migrateStep_client_mon (E : Env) (m : Nat) (w : World) (c t : Nat) :
    ((migrateStep E m w c).client t).mon = (w.client t).mon := by
  cases he : eligibleOn E w m c with
  | false => rw [migrateStep_skip E m w c he]
  | true =>
    rw [(migrateStep_take E m w c he).1, spawned_client_mon]

theorem migrateStep_client_column (E : Env) (m : Nat) (w : World) (c t : Nat) :
    ((migrateStep E m w c).client t).column
      = if t = c ∧ eligibleOn E w m c = true then some w.brk else (w.client t).column := by
  cases he : eligibleOn E w m c with
  | false => rw [migrateStep_skip E m w c he]; simp
  | true =>
    rw [(migrateStep_take E m w c he).1, spawned_client_column]
    simp

theorem migrateStep_columns_ne_nil (E : Env) (m : Nat) (w : World) (c : Nat)
    (h : eligibleOn E w m c = true ∨ (w.monitor m).scroller_columns ≠ []) :
    ((migrateStep E m w c).monitor m).scroller_columns ≠ [] := by
  cases he : eligibleOn E w m c with
  | false =>
    rw [migrateStep_skip E m w c he]
    rcases h with h | h
    · rw [he] at h; cases h
    · exact h
  | true =>
    rw [(migrateStep_take E m w c he).2.2.2.2.2.1]
    simp

theorem foldl_migrateStep_mon (E : Env) (m : Nat) (l : List Nat) (w : World) (t : Nat) :
    ((l.foldl (migrateStep E m) w).client t).mon = (w.client t).mon := by
  induction l generalizing w with
  | nil => rfl
  | cons c rest ih => rw [List.foldl_cons, ih, migrateStep_client_mon]

theorem foldl_migrateStep_clients (E : Env) (m : Nat) (l : List Nat) (w : World) :
    (l.foldl (migrateStep E m) w).clients = w.clients := by
  induction l generalizing w with
  | nil => rfl
  | cons c rest ih =>
    rw [List.foldl_cons, ih]
    cases he : eligibleOn E w m c with
    | false => rw [migrateStep_skip E m w c he]
    | true => exact (migrateStep_take E m w c he).2.2.2.1

theorem foldl_migrateStep_attached (E : Env) (m : Nat) (l : List Nat) (w : World) (t : Nat)
    (h : (t ∈ l ∧ eligibleOn E w m t = true) ∨ ((w.client t).column).isSome = true) :
    (((l.foldl (migrateStep E m) w).client t).column).isSome = true := by
  induction l generalizing w with
  | nil =>
    rcases h with h | h
    · simp at h
    · exact h
  | cons c rest ih =>
    rw [List.foldl_cons]
    apply ih
    rw [migrateStep_client_column]
    rcases h with ⟨hmem, he⟩ | h
    · by_cases htc : t = c
      · subst htc
        right
        simp [he]
      · left
        refine ⟨?_, ?_⟩
        · rcases List.mem_cons.1 hmem with h1 | h1
          · exact absurd h1 htc
          · exact h1
        · rw [eligibleOn_congr E m t (migrateStep_client_mon E m w c t)]
          exact he
    · right
      split
      · rfl
      · exact h

theorem foldl_migrateStep_ne_nil (E : Env) (m : Nat) (l : List Nat) (w : World)
    (h : (∃ t, t ∈ l ∧ eligibleOn E w m t = true) ∨ (w.monitor m).scroller_columns ≠ []) :
    ((l.foldl (migrateStep E m) w).monitor m).scroller_columns ≠ [] := by
  induction l generalizing w with
  | nil =>
    rcases h with ⟨t, h, -⟩ | h
    · simp at h
    · exact h
  | cons c rest ih =>
    rw [List.foldl_cons]
    apply ih
    rcases h with ⟨t, hmem, he⟩ | h
    · by_cases htc : t = c
      · subst htc
        right
        exact migrateStep_columns_ne_nil E m w t (Or.inl he)
      · left
        refine ⟨t, ?_, ?_⟩
        · rcases List.mem_cons.1 hmem with h1 | h1
          · exact absurd h1 htc
          · exact h1
        · rw [eligibleOn_congr E m t (migrateStep_client_mon E m w c t)]
          exact he
    · right
      exact migrateStep_columns_ne_nil E m w c (Or.inr h)

theorem rebuild_eq_foldl (E : Env) (w : World) (m : Nat) :
    scroller_rebuild_columns E w m
      = w.clients.foldl (migrateStep E m)
          (column_init_for_monitor (column_cleanup_for_monitor w m) m) := by
  unfold scroller_rebuild_columns scroller_migrate_to_columns
  rw [if_neg (by rw [cleanup_columns_nil]; simp), cleanup_clients]

/-! ## Sync back -/

theorem reinsertLoop_eq (re cl : List Nat) : reinsertLoop re cl = re.reverse ++ cl := by
  induction re generalizing cl with
  | nil => rfl
  | cons a rest ih => simp [reinsertLoop, ih]

theorem syncStep_pos (E : Env) (w : World) (m : Nat) (s : List Nat × List Nat) (c : Nat)
    (he : eligibleOn E w m c = true) :
    syncStep E w m s c
      = (s.1.filter (fun x => x != c), s.2.filter (fun x => x != c) ++ [c]) := by
  simp [syncStep, he]

theorem syncStep_neg (E : Env) (w : World) (m : Nat) (s : List Nat × List Nat) (c : Nat)
    (he : ¬ eligibleOn E w m c = true) : syncStep E w m s c = s := by
  simp [syncStep, he]

theorem syncFold_fst (E : Env) (w : World) (m : Nat) (walk : List Nat) (cl re : List Nat) :
    (walk.foldl (syncStep E w m) (cl, re)).1
      = cl.filter (fun x => decide (x ∉ walk.filter (eligibleOn E w m))) := by
  induction walk generalizing cl re with
  | nil => simp
  | cons c rest ih =>
    rw [List.foldl_cons]
    by_cases he : eligibleOn E w m c = true
    · rw [syncStep_pos E w m _ c he, ih, List.filter_filter, List.filter_cons_of_pos he]
      apply List.filter_congr
      intro x _
      by_cases h1 : x = c <;> simp [h1]
    · rw [syncStep_neg E w m _ c he, ih, List.filter_cons_of_neg he]

theorem syncFold_snd_indep (E : Env) (w : World) (m : Nat) (walk : List Nat)
    (cl cl2 re : List Nat) :
    (walk.foldl (syncStep E w m) (cl, re)).2 = (walk.foldl (syncStep E w m) (cl2, re)).2 := by
  induction walk generalizing cl cl2 re with
  | nil => rfl
  | cons c rest ih =>
    rw [List.foldl_cons, List.foldl_cons]
    by_cases he : eligibleOn E w m c = true
    · rw [syncStep_pos E w m _ c he, syncStep_pos E w m _ c he]
      exact ih _ _ _
    · rw [syncStep_neg E w m _ c he, syncStep_neg E w m _ c he]
      exact ih _ _ _

theorem syncFold_snd_mem (E : Env) (w : World) (m : Nat) (walk : List Nat) (cl re : List Nat)
    (x : Nat) (hx : x ∈ (walk.foldl (syncStep E w m) (cl, re)).2) :
    x ∈ re ∨ x ∈ walk.filter (eligibleOn E w m) := by
  induction walk generalizing cl re with
  | nil => exact Or.inl hx
  | cons c rest ih =>
    rw [List.foldl_cons] at hx
    by_cases he : eligibleOn E w m c = true
    · rw [syncStep_pos E w m _ c he] at hx
      rw [List.filter_cons_of_pos he]
      rcases ih _ _ hx with h | h
      · rw [List.mem_append, mem_filter_ne, List.mem_singleton] at h
        rcases h with h | h
        · exact Or.inl h.1
        · exact Or.inr (by rw [h]; exact List.mem_cons_self _ _)
      · exact Or.inr (List.mem_cons_of_mem _ h)
    · rw [syncStep_neg E w m _ c he] at hx
      rw [List.filter_cons_of_neg he]
      exact ih _ _ hx

theorem syncCollect_fix (E : Env) (w : World) (m : Nat) :
    syncCollect E { w with clients := reinsertLoop (syncCollect E w m).2 (syncCollect E w m).1 } m
      = syncCollect E w m := by
  generalize hs : syncCollect E w m = s
  have hs2 : (syncWalk w m).foldl (syncStep E w m) (w.clients, []) = s := hs
  show (syncWalk w m).foldl (syncStep E w m) (reinsertLoop s.2 s.1, []) = s
  generalize syncWalk w m = walk at hs2 ⊢
  have h2 : (walk.foldl (syncStep E w m) (reinsertLoop s.2 s.1, [])).2 = s.2 := by
    rw [← hs2]
    exact syncFold_snd_indep E w m walk _ _ _
  have h1 : (walk.foldl (syncStep E w m) (reinsertLoop s.2 s.1, [])).1 = s.1 := by
    rw [syncFold_fst, reinsertLoop_eq, List.filter_append]
    have ha : s.2.reverse.filter (fun x => decide (x ∉ walk.filter (eligibleOn E w m))) = [] := by
      rw [List.filter_eq_nil_iff]
      intro x hx
      rw [List.mem_reverse, ← hs2] at hx
      rcases syncFold_snd_mem E w m walk _ _ x hx with h | h
      · simp at h
      · simp [h]
    have hb : s.1.filter (fun x => decide (x ∉ walk.filter (eligibleOn E w m))) = s.1 := by
      rw [← hs2, syncFold_fst, List.filter_filter]
      apply List.filter_congr
      intro x _
      simp
    rw [ha, hb]
    rfl
  exact Prod.ext h1 h2

theorem needs_rebuild_after_fold (E : Env) (m : Nat) (w0 : World) :
    scroller_columns_need_rebuild E (w0.clients.foldl (migrateStep E m) w0) m = false := by
  have hcl := foldl_migrateStep_clients E m w0.clients w0
  have helig : ∀ t, eligibleOn E (w0.clients.foldl (migrateStep E m) w0) m t
      = eligibleOn E w0 m t :=
    fun t => eligibleOn_congr E m t (foldl_migrateStep_mon E m w0.clients w0 t)
  have hA : ∀ t, t ∈ w0.clients → eligibleOn E w0 m t = true →
      (((w0.clients.foldl (migrateStep E m) w0).client t).column).isSome = true :=
    fun t ht he => foldl_migrateStep_attached E m w0.clients w0 t (Or.inl ⟨ht, he⟩)
  have hB : (∃ t, t ∈ w0.clients ∧ eligibleOn E w0 m t = true) →
      ((w0.clients.foldl (migrateStep E m) w0).monitor m).scroller_columns ≠ [] :=
    fun h => foldl_migrateStep_ne_nil E m w0.clients w0 (Or.inl h)
  generalize w0.clients.foldl (migrateStep E m) w0 = w1 at *
  unfold scroller_columns_need_rebuild
  rw [if_neg]
  · rw [List.any_eq_false]
    intro c hc
    rw [hcl] at hc
    have he := helig c
    unfold eligibleOn at he
    cases h1 : eligibleOn E w0 m c with
    | true =>
      have := hA c hc h1
      cases hcol : (w1.client c).column with
      | none => rw [hcol] at this; cases this
      | some k => simp
    | false =>
      unfold eligibleOn at h1
      rw [h1] at he
      intro hx
      simp only [Bool.and_eq_true] at hx
      have : ((w1.client c).mon == some m && (E.visibleOn c m && E.isScrollTiled c)) = true := by
        simp only [Bool.and_eq_true]
        exact ⟨hx.1, hx.2.1⟩
      rw [he] at this
      cases this
  · rintro ⟨hnil, hpos⟩
    apply hB _ hnil
    unfold visible_scroll_tiling_clients at hpos
    have hlen : 0 < (w1.clients.filter (eligibleOn E w1 m)).length := by exact_mod_cast hpos
    obtain ⟨t, ht⟩ := List.exists_mem_of_length_pos hlen
    rw [List.mem_filter, hcl, helig] at ht
    exact ⟨t, ht⟩

/-! ## Where a new column goes -/

theorem insertPos_of_le (w : World) (col : Nat) (p : Int)
    (hcount : (w.column col).tile_count = (w.column col).tiles.length)
    (h0 : 0 ≤ p) (h1 : p ≤ (w.column col).tile_count) :
    insertPos w col p = p.toNat := by
  unfold insertPos
  by_cases h2 : p < 0 ∨ p ≥ (w.column col).tile_count
  · rw [if_pos h2]
    rw [hcount] at h1 h2
    omega
  · rw [if_neg h2]
    rw [hcount] at h2
    have hlt : p.toNat < (w.column col).tiles.length := by omega
    rw [List.getElem?_eq_getElem hlt]

theorem getElem?_insert_middle (l : List Nat) (n a : Nat) (hn : n ≤ l.length) :
    (l.take n ++ a :: l.drop n)[n]? = some a := by
  rw [List.getElem?_append_right (by simp [hn])]
  simp [hn]

theorem filter_insert_middle (l : List Nat) (n a : Nat) (ha : a ∉ l) :
    (l.take n ++ a :: l.drop n).filter (fun x => x != a) = l := by
  rw [List.filter_append, List.filter_cons_of_neg (by simp),
    filter_ne_of_not_mem (fun h => ha (List.mem_of_mem_take h)),
    filter_ne_of_not_mem (fun h => ha (List.mem_of_mem_drop h)), List.take_append_drop]


/-! ## More sample memories -/

theorem consistent_oneLeft : Consistent oneLeft :=
  consistent_remove_from_columns consistent_twoColumns 1

theorem consistent_stacked : Consistent stacked :=
  consistent_add_tile consistent_oneLeft 0 1 (-1) (by decide)

theorem membership_strayTile : Membership strayTile := by
  have htiles : ∀ k t, t ∈ (strayTile.column k).tiles → k = 0 ∧ t = 0 := by
    intro k t ht
    by_cases hk : k = 0
    · subst hk
      simp [strayTile, blankColumn] at ht
      exact ⟨rfl, ht⟩
    · simp [strayTile, blankColumn, hk] at ht
  refine ⟨?_, ?_, ?_, ?_, ?_⟩
  · intro t k ht
    simp [strayTile, blankClient] at ht
  · intro k i t ht
    obtain ⟨hk, -⟩ := htiles k t (List.getElem?_mem ht)
    subst hk
    cases i with
    | zero => rfl
    | succ i => simp [strayTile, blankColumn] at ht
  · intro k1 k2 t h1 h2
    rw [(htiles k1 t h1).1, (htiles k2 t h2).1]
  · intro k
    by_cases hk : k = 0
    · subst hk
      rfl
    · simp [strayTile, blankColumn, hk]
  · intro m
    rfl

/-! # The claims -/

/-- C1, as stated, fails.  (a) `orphanColumn` is reached from a monitor with
no columns by `column_create` and `column_add_tile`; the listed invariants
hold in it, and `scroller_remove_client_from_columns` of its tile leaves
monitor 0 with `column_count = -1` and an empty sequence.  (b) In `strayTile`
the listed invariants hold too, and `column_add_tile` of the tile that sits in
column 0 with a NULL back-reference puts it into column 1 as well. -/
theorem membership_not_preserved :
    (Membership orphanColumn
      ∧ ¬ Membership (scroller_remove_client_from_columns orphanColumn 0))
    ∧ (Membership strayTile ∧ ¬ Membership (column_add_tile strayTile 1 0 (-1))) := by
  refine ⟨⟨membership_orphanColumn, fun h => ?_⟩, ⟨membership_strayTile, fun h => ?_⟩⟩
  · have := h.column_count_eq 0
    revert this
    decide
  · have := h.one_column 0 1 0 (by decide) (by decide)
    revert this
    decide

/-- C1, amended: from a consistent memory (the membership invariants (1), (2),
(5) and the cached counts, together with: a tile in a sequence refers back to
that column, a column names `m` as its monitor exactly when it is in the
sequence of `m`, no column is listed twice, unallocated handles are unused)
each single call of `column_add_tile` (on an allocated column, any position,
any tile), `column_remove_tile`, `column_remove_client`,
`scroller_add_client_to_columns`, `scroller_remove_client_from_columns`,
`scroller_migrate_to_columns` and `scroller_rebuild_columns` yields a
consistent memory again. -/
theorem consistent_preserved (E : Env) (w : World) (h : Consistent w) :
    (∀ col c p, col < w.brk → Consistent (column_add_tile w col c p))
    ∧ (∀ col idx, Consistent (column_remove_tile w col idx).1)
    ∧ (∀ c, Consistent (column_remove_client w c))
    ∧ (∀ c, Consistent (scroller_add_client_to_columns E w c))
    ∧ (∀ c, Consistent (scroller_remove_client_from_columns w c))
    ∧ (∀ m, Consistent (scroller_migrate_to_columns E w m))
    ∧ (∀ m, Consistent (scroller_rebuild_columns E w m)) :=
  ⟨fun col c p hcol => consistent_add_tile h col c p hcol,
   fun col idx => consistent_remove_tile h col idx,
   fun c => consistent_remove_client h c,
   fun c => consistent_add_client h E c,
   fun c => consistent_remove_from_columns h c,
   fun m => consistent_migrate h E m,
   fun m => consistent_rebuild h E m⟩

/-- C1, amended, at `twoColumns`: moving client 0 into column 1 and removing
client 0 from the columns both leave a consistent memory. -/
theorem consistent_preserved_witness :
    Consistent twoColumns
      ∧ Consistent (column_add_tile twoColumns 1 0 0)
      ∧ Consistent (scroller_remove_client_from_columns twoColumns 0) :=
  ⟨consistent_twoColumns,
   (consistent_preserved envAll twoColumns consistent_twoColumns).1 1 0 0 (by decide),
   (consistent_preserved envAll twoColumns consistent_twoColumns).2.2.2.2.1 0⟩

/-- C2: on a monitor whose column list was just initialised, adding the first
client leaves `column_count = 1` and `active_column_idx = 1`, so the active
column index is not below the column count. -/
theorem first_client_active_column_out_of_bounds :
    ((scroller_add_client_to_columns envAll (column_init_for_monitor twoClients 0) 0).monitor
        0).column_count = 1
    ∧ ((scroller_add_client_to_columns envAll (column_init_for_monitor twoClients 0) 0).monitor
        0).active_column_idx = 1
    ∧ ¬ ((scroller_add_client_to_columns envAll (column_init_for_monitor twoClients 0)
          0).monitor 0).active_column_idx
        < ((scroller_add_client_to_columns envAll (column_init_for_monitor twoClients 0)
          0).monitor 0).column_count := by
  decide

/-- C3, as stated, fails for the three tile primitives: in `twoColumns` every
column of monitor 0 has a tile, and after `column_remove_tile` of the only tile
of column 0, after `column_remove_client` of it, and after `column_add_tile`
moving it to column 1, column 0 is still in the sequence of monitor 0 with
`tile_count = 0`. -/
theorem empty_column_retained :
    NoEmptyColumn twoColumns 0
    ∧ ¬ NoEmptyColumn (column_remove_tile twoColumns 0 0).1 0
    ∧ ¬ NoEmptyColumn (column_remove_client twoColumns 0) 0
    ∧ ¬ NoEmptyColumn (column_add_tile twoColumns 1 0 (-1)) 0 := by
  decide

/-- C3, amended: when every column in the sequence of monitor `m` has
`tile_count > 0`, the same holds after `scroller_add_client_to_columns` and
`scroller_remove_client_from_columns`; after `scroller_migrate_to_columns` and
`scroller_rebuild_columns` of `m` from a consistent memory with a
duplicate-free client list; and after `column_add_tile`, `column_remove_tile`
and `column_remove_client` whenever the column the tile is taken out of has at
least two tiles. -/
theorem no_empty_column_kept (E : Env) (w : World) (m : Nat) (h : NoEmptyColumn w m) :
    (∀ c, NoEmptyColumn (scroller_add_client_to_columns E w c) m)
    ∧ (∀ c, NoEmptyColumn (scroller_remove_client_from_columns w c) m)
    ∧ (Consistent w → w.clients.Nodup → NoEmptyColumn (scroller_migrate_to_columns E w m) m)
    ∧ (Consistent w → w.clients.Nodup → NoEmptyColumn (scroller_rebuild_columns E w m) m)
    ∧ (∀ col c p, (∀ old, (w.client c).column = some old → 2 ≤ (w.column old).tile_count) →
        NoEmptyColumn (column_add_tile w col c p) m)
    ∧ (∀ col idx, 2 ≤ (w.column col).tile_count →
        NoEmptyColumn (column_remove_tile w col idx).1 m)
    ∧ (∀ c, (∀ old, (w.client c).column = some old → 2 ≤ (w.column old).tile_count) →
        NoEmptyColumn (column_remove_client w c) m) :=
  ⟨fun c => noEmpty_add_client E c m h,
   fun c => noEmpty_remove_from_columns c m h,
   fun hw hnd => noEmpty_migrate E hw hnd m h,
   fun hw hnd => noEmpty_rebuild E hw hnd m,
   fun col c p h2 => noEmpty_add_tile col c p m h2 h,
   fun col idx h2 => noEmpty_remove_tile col idx m h2 h,
   fun c h2 => noEmpty_remove_client c m h2 h⟩

/-- C3, amended, at `stacked` (one column holding clients 0 and 1): each of
the seven operations leaves monitor 0 without an empty column. -/
theorem no_empty_column_kept_witness :
    NoEmptyColumn stacked 0
    ∧ NoEmptyColumn (scroller_add_client_to_columns envAll stacked 5) 0
    ∧ NoEmptyColumn (scroller_remove_client_from_columns stacked 0) 0
    ∧ NoEmptyColumn (scroller_migrate_to_columns envAll stacked 0) 0
    ∧ NoEmptyColumn (scroller_rebuild_columns envAll stacked 0) 0
    ∧ NoEmptyColumn (column_add_tile stacked 0 0 (-1)) 0
    ∧ NoEmptyColumn (column_remove_tile stacked 0 0).1 0
    ∧ NoEmptyColumn (column_remove_client stacked 0) 0 := by
  have h0 : NoEmptyColumn stacked 0 := by decide
  have hcol : ∀ old, (stacked.client 0).column = some old →
      2 ≤ (stacked.column old).tile_count := by
    intro old hold
    have e : (stacked.client 0).column = some 0 := by decide
    rw [e] at hold
    cases hold
    decide
  have hnd : stacked.clients.Nodup := by decide
  exact ⟨h0,
    (no_empty_column_kept envAll stacked 0 h0).1 5,
    (no_empty_column_kept envAll stacked 0 h0).2.1 0,
    (no_empty_column_kept envAll stacked 0 h0).2.2.1 consistent_stacked hnd,
    (no_empty_column_kept envAll stacked 0 h0).2.2.2.1 consistent_stacked hnd,
    (no_empty_column_kept envAll stacked 0 h0).2.2.2.2.1 0 0 (-1) hcol,
    (no_empty_column_kept envAll stacked 0 h0).2.2.2.2.2.1 0 0 (by decide),
    (no_empty_column_kept envAll stacked 0 h0).2.2.2.2.2.2 0 hcol⟩

/-- C4: in `twoColumns` the walk of the columns is client 0 then client 1,
both collected; after `scroller_sync_clients_to_columns` the global list is
client 1 then client 0, the walk order reversed. -/
theorem sync_reverses_walk_order :
    syncWalk twoColumns 0 = [0, 1]
    ∧ twoColumns.clients = [0, 1]
    ∧ (scroller_sync_clients_to_columns envAll twoColumns 0).clients = [1, 0] := by
  decide

/-- C5, as stated, fails for a position outside `0..n`: with column 0 of
`twoColumns` holding client 0 only, `column_add_tile` of the unattached client
5 at position -1 appends it, and `column_remove_tile` at -1 removes nothing:
the column then holds clients 0 and 5. -/
theorem roundtrip_fails_outside_range :
    (twoColumns.column 0).tiles = [0]
    ∧ ((column_remove_tile (column_add_tile twoColumns 0 5 (-1)) 0 (-1)).1.column 0).tiles
        = [0, 5]
    ∧ (column_remove_tile (column_add_tile twoColumns 0 5 (-1)) 0 (-1)).2 = none := by
  decide

/-- C5, amended: for a column whose `tile_count` is the length `n` of its
sequence and whose `tile_index` values follow the sequence, a tile `t` with no
back-reference that is not in the sequence, and a position `0 ≤ p ≤ n`:
`column_add_tile` at `p` followed by `column_remove_tile` at `p` returns `t`
and restores the sequence, `tile_count` and the `tile_index` of every member. -/
theorem add_remove_roundtrip (w : World) (col t : Nat) (p : Int)
    (hcount : (w.column col).tile_count = (w.column col).tiles.length)
    (hidx : ∀ (i : Nat) (x : Nat), (w.column col).tiles[i]? = some x →
      (w.client x).tile_index = i)
    (ht : (w.client t).column = none) (hnot : t ∉ (w.column col).tiles)
    (h0 : 0 ≤ p) (h1 : p ≤ (w.column col).tile_count) :
    (column_remove_tile (column_add_tile w col t p) col p).2 = some t
    ∧ ((column_remove_tile (column_add_tile w col t p) col p).1.column col).tiles
        = (w.column col).tiles
    ∧ ((column_remove_tile (column_add_tile w col t p) col p).1.column col).tile_count
        = (w.column col).tile_count
    ∧ ∀ x ∈ (w.column col).tiles,
        ((column_remove_tile (column_add_tile w col t p) col p).1.client x).tile_index
          = (w.client x).tile_index := by
  have hn : insertPos w col p = p.toNat := insertPos_of_le w col p hcount h0 h1
  have hle : p.toNat ≤ (w.column col).tiles.length := by
    rw [hcount] at h1
    omega
  have hadd : column_add_tile w col t p = enterColumn w col t p := by
    unfold column_add_tile
    rw [leaveColumn_of_none w t ht]
  have htiles1 : ((enterColumn w col t p).column col).tiles
      = (w.column col).tiles.take p.toNat ++ t :: (w.column col).tiles.drop p.toNat := by
    rw [enterColumn_tiles, if_pos rfl, hn]
  have hcount1 : ((enterColumn w col t p).column col).tile_count
      = (w.column col).tile_count + 1 := by
    rw [enterColumn_tile_count, if_pos rfl]
  have hat : column_tile_at (enterColumn w col t p) col p = some t := by
    unfold column_tile_at
    rw [if_neg (by rw [hcount1]; omega), htiles1]
    exact getElem?_insert_middle _ _ _ hle
  have hrem : column_remove_tile (enterColumn w col t p) col p
      = (detachFrom (enterColumn w col t p) col t, some t) := by
    unfold column_remove_tile
    rw [if_neg (by rw [hcount1]; omega), hat]
  rw [hadd, hrem]
  have htiles2 : ((detachFrom (enterColumn w col t p) col t).column col).tiles
      = (w.column col).tiles := by
    rw [detachFrom_tiles, htiles1]
    exact filter_insert_middle _ _ _ hnot
  refine ⟨rfl, htiles2, ?_, ?_⟩
  · rw [detachFrom_tile_count, if_pos rfl, hcount1]
    ring
  · intro x hx
    obtain ⟨i, hi⟩ := List.mem_iff_getElem?.1 hx
    rw [detachFrom_client, htiles1, filter_insert_middle _ _ _ hnot,
      reindexLoop_index _ _ _ _ i (nodup_of_index hidx) hi, hidx i x hi]
    simp

/-- C5, amended, at column 0 of `stacked` (clients 0 and 1): inserting the
unattached client 5 at position 1 and removing at position 1 restores it. -/
theorem add_remove_roundtrip_witness :
    (stacked.column 0).tiles = [0, 1]
    ∧ (column_remove_tile (column_add_tile stacked 0 5 1) 0 1).2 = some 5
    ∧ ((column_remove_tile (column_add_tile stacked 0 5 1) 0 1).1.column 0).tiles
        = (stacked.column 0).tiles
    ∧ ((column_remove_tile (column_add_tile stacked 0 5 1) 0 1).1.column 0).tile_count
        = (stacked.column 0).tile_count
    ∧ ∀ x ∈ (stacked.column 0).tiles,
        ((column_remove_tile (column_add_tile stacked 0 5 1) 0 1).1.client x).tile_index
          = (stacked.client x).tile_index :=
  ⟨by decide,
   add_remove_roundtrip stacked 0 5 1 (by decide)
     (consistent_stacked.index_order 0) (by decide) (by decide) (by decide) (by decide)⟩


/-- C6: whatever the memory, `scroller_columns_need_rebuild` right after
`scroller_rebuild_columns` of the same monitor returns false. -/
theorem rebuild_leaves_nothing_to_rebuild (E : Env) (w : World) (m : Nat) :
    scroller_columns_need_rebuild E (scroller_rebuild_columns E w m) m = false := by
  have e : (column_init_for_monitor (column_cleanup_for_monitor w m) m).clients = w.clients := by
    simp [column_init_for_monitor, cleanup_clients]
  rw [rebuild_eq_foldl, ← e]
  exact needs_rebuild_after_fold E m _

/-- C7, as stated, fails: for the three tiles of `threeTiles`, bounds of
height 100 at `y = 0` and gap 2, the emitted y-offsets are 0, 34, 68 and the
emitted heights are 32, 32, 32, not 32, 32, 34. -/
theorem render_three_tiles_heights :
    (scroller_render_column threeTiles 0 { x := 0, y := 0, width := 50, height := 100 } 2).map
        (fun r => (r.1, r.2.y, r.2.height))
      = [(0, 0, 32), (1, 34, 32), (2, 68, 32)]
    ∧ (scroller_render_column threeTiles 0 { x := 0, y := 0, width := 50, height := 100 } 2).map
        (fun r => r.2.height)
      ≠ [32, 32, 34] := by
  decide

/-- C7, amended: rendering a column of 3 tiles into bounds of height 100
starting at `y = 0` with gap 2 emits, in tile order, the heights 32, 32, 32 at
y-offsets 0, 34, 68 (each with the x and width of the bounds). -/
theorem render_three_tiles (w : World) (col a b c : Nat) (x wd : Int)
    (ht : (w.column col).tiles = [a, b, c]) (hn : (w.column col).tile_count = 3) :
    scroller_render_column w col { x := x, y := 0, width := wd, height := 100 } 2
      = [(a, { x := x, y := 0, width := wd, height := 32 }),
         (b, { x := x, y := 34, width := wd, height := 32 }),
         (c, { x := x, y := 68, width := wd, height := 32 })] := by
  unfold scroller_render_column
  rw [hn, ht]
  have hq : Int.tdiv 96 3 = 32 := by decide
  simp [renderLoop, wrap32, hq]

/-- C7, amended, at `threeTiles`. -/
theorem render_three_tiles_witness :
    scroller_render_column threeTiles 0 { x := 0, y := 0, width := 50, height := 100 } 2
      = [(0, { x := 0, y := 0, width := 50, height := 32 }),
         (1, { x := 0, y := 34, width := 50, height := 32 }),
         (2, { x := 0, y := 68, width := 50, height := 32 })] :=
  render_three_tiles threeTiles 0 0 1 2 0 50 (by decide) (by decide)

/-- C8: on a monitor whose column list was just initialised, client 0 is
eligible, unattached and has no attached predecessor; after
`scroller_add_client_to_columns` its singleton column is column 0 of the
monitor, `active_column_idx` is 1 and `column_at_index` at the active index
finds no column. -/
theorem first_client_active_column_missing :
    findPrevClient envAll (column_init_for_monitor twoClients 0) 0 0 = none
    ∧ ((scroller_add_client_to_columns envAll (column_init_for_monitor twoClients 0) 0).monitor
        0).scroller_columns = [0]
    ∧ ((scroller_add_client_to_columns envAll (column_init_for_monitor twoClients 0) 0).column
        0).tiles = [0]
    ∧ column_at_index
        (scroller_add_client_to_columns envAll (column_init_for_monitor twoClients 0) 0) 0
        ((scroller_add_client_to_columns envAll (column_init_for_monitor twoClients 0)
          0).monitor 0).active_column_idx
      = none := by
  decide

/-- C10: `scroller_sync_clients_to_columns` is idempotent: a second call right
after the first leaves the memory, and so the global client list, as the
first call left it. -/
theorem sync_idempotent (E : Env) (w : World) (m : Nat) :
    scroller_sync_clients_to_columns E (scroller_sync_clients_to_columns E w m) m
        = scroller_sync_clients_to_columns E w m
    ∧ (scroller_sync_clients_to_columns E (scroller_sync_clients_to_columns E w m) m).clients
        = (scroller_sync_clients_to_columns E w m).clients := by
  have key : scroller_sync_clients_to_columns E (scroller_sync_clients_to_columns E w m) m
      = scroller_sync_clients_to_columns E w m := by
    by_cases hc : (w.monitor m).scroller_columns = []
    · simp [scroller_sync_clients_to_columns, hc]
    · have e1 : scroller_sync_clients_to_columns E w m
          = { w with clients := reinsertLoop (syncCollect E w m).2 (syncCollect E w m).1 } := by
        simp [scroller_sync_clients_to_columns, hc]
      rw [e1]
      unfold scroller_sync_clients_to_columns
      simp only [hc, if_false]
      rw [syncCollect_fix]
  exact ⟨key, by rw [key]⟩


/-! ## Positions of insertion -/

theorem reindexLoop_index_split (cl : Nat → Client) (pre post : List Nat) (i : Int) (x : Nat)
    (h : x ∉ post) : (reindexLoop cl (pre ++ x :: post) i x).tile_index = i + pre.length := by
  induction pre generalizing cl i with
  | nil =>
    simp only [List.nil_append, reindexLoop]
    rw [reindexLoop_of_not_mem _ _ _ _ h]
    simp
  | cons a pre ih =>
    simp only [List.cons_append, reindexLoop, List.append_eq]
    rw [ih]
    simp only [List.length_cons]
    push_cast
    ring

theorem indexLoop_split (col : Nat) (pre post : List Nat) (i : Int) (h : col ∉ pre) :
    indexLoop col (pre ++ col :: post) i = i + pre.length := by
  induction pre generalizing i with
  | nil => simp [indexLoop]
  | cons a pre ih =>
    simp only [List.mem_cons, not_or] at h
    have hne : a ≠ col := fun x => h.1 x.symm
    simp only [List.cons_append, indexLoop, if_neg hne, List.append_eq]
    rw [ih _ h.2]
    simp only [List.length_cons]
    push_cast
    ring

theorem insertPos_eq (w : World) (col : Nat) (p : Int)
    (hcount : (w.column col).tile_count = (w.column col).tiles.length) :
    insertPos w col p
      = if p < 0 ∨ p ≥ (w.column col).tile_count then (w.column col).tiles.length
        else p.toNat := by
  unfold insertPos
  by_cases h : p < 0 ∨ p ≥ (w.column col).tile_count
  · rw [if_pos h, if_pos h]
  · rw [if_neg h, if_neg h]
    rw [hcount] at h
    have hlt : p.toNat < (w.column col).tiles.length := by omega
    rw [List.getElem?_eq_getElem hlt]

theorem columnInsertPos_eq (w : World) (m : Nat) (idx : Int)
    (hcount : (w.monitor m).column_count = (w.monitor m).scroller_columns.length) :
    columnInsertPos w m idx = (max 0 (min idx (w.monitor m).column_count)).toNat := by
  unfold columnInsertPos
  by_cases h1 : idx ≤ 0 ∨ (w.monitor m).scroller_columns = []
  · rw [if_pos h1]
    rcases h1 with h1 | h1
    · omega
    · rw [hcount, h1]
      simp only [List.length_nil, Nat.cast_zero]
      omega
  · rw [if_neg h1]
    push_neg at h1
    by_cases h2 : idx ≥ (w.monitor m).column_count
    · rw [if_pos h2]
      rw [hcount] at h2 ⊢
      omega
    · rw [if_neg h2]
      rw [hcount] at h2 ⊢
      have hlt : idx.toNat < (w.monitor m).scroller_columns.length := by omega
      rw [List.getElem?_eq_getElem hlt]
      simp only
      omega

/-- C14: `scroller_columns_need_rebuild` returns true exactly when the monitor
has no columns while some client of the global list is on it, visible and
scroll-tiled, or when some such client has no column; otherwise it returns
false. -/
theorem needs_rebuild_iff (E : Env) (w : World) (m : Nat) :
    scroller_columns_need_rebuild E w m = true
      ↔ ((w.monitor m).scroller_columns = []
            ∧ ∃ c, c ∈ w.clients ∧ eligibleOn E w m c = true)
          ∨ (∃ c, c ∈ w.clients ∧ eligibleOn E w m c = true ∧ (w.client c).column = none) := by
  have hpos : visible_scroll_tiling_clients E w m > 0
      ↔ ∃ c, c ∈ w.clients ∧ eligibleOn E w m c = true := by
    unfold visible_scroll_tiling_clients
    constructor
    · intro h
      have hlen : 0 < (w.clients.filter (eligibleOn E w m)).length := by exact_mod_cast h
      obtain ⟨t, ht⟩ := List.exists_mem_of_length_pos hlen
      rw [List.mem_filter] at ht
      exact ⟨t, ht⟩
    · rintro ⟨c, hc, he⟩
      have : 0 < (w.clients.filter (eligibleOn E w m)).length :=
        List.length_pos_of_mem (List.mem_filter.2 ⟨hc, he⟩)
      exact_mod_cast this
  have hany : (w.clients.any (fun c =>
      (w.client c).mon == some m
        && (E.visibleOn c m && E.isScrollTiled c && (w.client c).column.isNone))) = true
      ↔ ∃ c, c ∈ w.clients ∧ eligibleOn E w m c = true ∧ (w.client c).column = none := by
    rw [List.any_eq_true]
    constructor
    · rintro ⟨c, hc, h⟩
      simp only [Bool.and_eq_true, Option.isNone_iff_eq_none] at h
      refine ⟨c, hc, ?_, h.2.2⟩
      unfold eligibleOn
      simp only [Bool.and_eq_true]
      exact ⟨h.1, h.2.1⟩
    · rintro ⟨c, hc, he, hn⟩
      unfold eligibleOn at he
      simp only [Bool.and_eq_true] at he
      refine ⟨c, hc, ?_⟩
      simp only [Bool.and_eq_true, Option.isNone_iff_eq_none]
      exact ⟨he.1, he.2, hn⟩
  unfold scroller_columns_need_rebuild
  by_cases h : (w.monitor m).scroller_columns = [] ∧ visible_scroll_tiling_clients E w m > 0
  · rw [if_pos h]
    simp only [true_iff]
    exact Or.inl ⟨h.1, hpos.1 h.2⟩
  · rw [if_neg h, hany]
    constructor
    · exact fun x => Or.inr x
    · rintro (⟨h1, h2⟩ | h2)
      · exact absurd ⟨h1, hpos.2 h2⟩ h
      · exact h2

/-- C15: for a column whose `tile_count` is the length `n` of its sequence and
a tile `t` with no back-reference that is not in the sequence,
`column_add_tile` yields the old sequence with `t` appended when
`position < 0` or `position ≥ n`, and otherwise the old sequence with `t`
right before the previous occupant of `position`; afterwards `tile_count` is
`n + 1`, the back-reference of `t` is the column and `tile_index` of `t` is
its position in the new sequence. -/
theorem column_add_tile_position (w : World) (col t : Nat) (position : Int)
    (hcount : (w.column col).tile_count = (w.column col).tiles.length)
    (ht : (w.client t).column = none) (hnot : t ∉ (w.column col).tiles) :
    ((column_add_tile w col t position).column col).tiles
        = (if position < 0 ∨ position ≥ (w.column col).tile_count then
            (w.column col).tiles ++ [t]
          else (w.column col).tiles.take position.toNat
            ++ t :: (w.column col).tiles.drop position.toNat)
    ∧ ((column_add_tile w col t position).column col).tile_count
        = (w.column col).tile_count + 1
    ∧ ((column_add_tile w col t position).client t).column = some col
    ∧ ((column_add_tile w col t position).client t).tile_index
        = (if position < 0 ∨ position ≥ (w.column col).tile_count then
            (w.column col).tile_count
          else position) := by
  have hadd : column_add_tile w col t position = enterColumn w col t position := by
    unfold column_add_tile
    rw [leaveColumn_of_none w t ht]
  have htiles : ((enterColumn w col t position).column col).tiles
      = (w.column col).tiles.take (insertPos w col position)
        ++ t :: (w.column col).tiles.drop (insertPos w col position) := by
    rw [enterColumn_tiles, if_pos rfl]
  have hpos := insertPos_eq w col position hcount
  obtain ⟨base, h1, -, h3, -, -⟩ := enterColumn_client w col t position
  have hidx : ((enterColumn w col t position).client t).tile_index
      = ((min (insertPos w col position) (w.column col).tiles.length : Nat) : Int) := by
    rw [h1, htiles, reindexLoop_index_split _ _ _ _ _
      (fun h => hnot (List.mem_of_mem_drop h))]
    simp
  rw [hadd]
  refine ⟨?_, ?_, ?_, ?_⟩
  · rw [htiles, hpos]
    by_cases h : position < 0 ∨ position ≥ (w.column col).tile_count
    · simp [h]
    · simp [h]
  · rw [enterColumn_tile_count, if_pos rfl]
  · rw [h1, reindexLoop_column, h3]
  · rw [hidx, hpos]
    by_cases h : position < 0 ∨ position ≥ (w.column col).tile_count
    · rw [if_pos h, if_pos h, hcount]
      simp
    · rw [if_neg h, if_neg h]
      rw [hcount] at h
      omega

/-- C15 at column 0 of `stacked` (clients 0 and 1): client 5 added at
position 1 goes between them, added at position -1 goes last. -/
theorem column_add_tile_position_witness :
    ((column_add_tile stacked 0 5 1).column 0).tiles = [0, 5, 1]
    ∧ ((column_add_tile stacked 0 5 1).client 5).tile_index = 1
    ∧ ((column_add_tile stacked 0 5 (-1)).column 0).tiles = [0, 1, 5]
    ∧ ((column_add_tile stacked 0 5 (-1)).client 5).tile_index = 2 := by
  have h1 := column_add_tile_position stacked 0 5 1 (by decide) (by decide) (by decide)
  have h2 := column_add_tile_position stacked 0 5 (-1) (by decide) (by decide) (by decide)
  have ht : (stacked.column 0).tiles = [0, 1] := by decide
  have hn : (stacked.column 0).tile_count = 2 := by decide
  rw [ht, hn] at h1 h2
  exact ⟨by simpa using h1.1, by simpa using h1.2.2.2, by simpa using h2.1,
    by simpa using h2.2.2.2⟩

/-- C16: for a monitor whose `column_count` is the length of its column
sequence and a column that is not in it, `column_insert_at` puts the column at
the head when `idx ≤ 0`, at the tail when `idx ≥ column_count`, and otherwise
right before the column previously at `idx`; afterwards `column_index_of` of
the column is `max 0 (min idx column_count)` (with the old count),
`column_count` is one larger and the other columns are in their old order. -/
theorem column_insert_at_position (w : World) (m col : Nat) (idx : Int)
    (hcount : (w.monitor m).column_count = (w.monitor m).scroller_columns.length)
    (hnot : col ∉ (w.monitor m).scroller_columns) :
    (idx ≤ 0 → ((column_insert_at w m col idx).monitor m).scroller_columns
        = col :: (w.monitor m).scroller_columns)
    ∧ (idx ≥ (w.monitor m).column_count →
        ((column_insert_at w m col idx).monitor m).scroller_columns
          = (w.monitor m).scroller_columns ++ [col])
    ∧ (0 < idx → idx < (w.monitor m).column_count →
        ((column_insert_at w m col idx).monitor m).scroller_columns
            = (w.monitor m).scroller_columns.take idx.toNat
              ++ col :: (w.monitor m).scroller_columns.drop idx.toNat
          ∧ ((column_insert_at w m col idx).monitor m).scroller_columns[idx.toNat + 1]?
            = (w.monitor m).scroller_columns[idx.toNat]?)
    ∧ column_index_of (column_insert_at w m col idx) m col
        = max 0 (min idx (w.monitor m).column_count)
    ∧ ((column_insert_at w m col idx).monitor m).column_count
        = (w.monitor m).column_count + 1
    ∧ ((column_insert_at w m col idx).monitor m).scroller_columns.filter (fun x => x != col)
        = (w.monitor m).scroller_columns := by
  have hcols := column_insert_at_columns w m col idx
  have hpos := columnInsertPos_eq w m idx hcount
  rw [hpos] at hcols
  refine ⟨?_, ?_, ?_, ?_, column_insert_at_count w m col idx, ?_⟩
  · intro h
    rw [hcols]
    have : (max 0 (min idx (w.monitor m).column_count)).toNat = 0 := by omega
    rw [this]
    simp
  · intro h
    rw [hcols]
    have : (max 0 (min idx (w.monitor m).column_count)).toNat
        = (w.monitor m).scroller_columns.length := by
      rw [hcount] at h ⊢
      omega
    rw [this]
    simp
  · intro h0 h1
    have : (max 0 (min idx (w.monitor m).column_count)).toNat = idx.toNat := by omega
    rw [this] at hcols
    refine ⟨hcols, ?_⟩
    rw [hcols]
    have hle : idx.toNat ≤ (w.monitor m).scroller_columns.length := by
      rw [hcount] at h1
      omega
    rw [List.getElem?_append_right (by simp [hle])]
    simp [hle]
  · unfold column_index_of
    rw [hcols, indexLoop_split _ _ _ _ (fun h => hnot (List.mem_of_mem_take h))]
    rw [List.length_take]
    rw [hcount]
    omega
  · rw [hcols]
    exact filter_insert_middle _ _ _ hnot

/-- C16 at `twoColumns` (columns 0 and 1): column 7 inserted at index 1 goes
between them, at index 9 goes last, at index -3 goes first. -/
theorem column_insert_at_position_witness :
    ((column_insert_at twoColumns 0 7 1).monitor 0).scroller_columns = [0, 7, 1]
    ∧ column_index_of (column_insert_at twoColumns 0 7 1) 0 7 = 1
    ∧ ((column_insert_at twoColumns 0 7 9).monitor 0).scroller_columns = [0, 1, 7]
    ∧ ((column_insert_at twoColumns 0 7 (-3)).monitor 0).scroller_columns = [7, 0, 1] := by
  have h1 := column_insert_at_position twoColumns 0 7 1 (by decide) (by decide)
  have h2 := column_insert_at_position twoColumns 0 7 9 (by decide) (by decide)
  have h3 := column_insert_at_position twoColumns 0 7 (-3) (by decide) (by decide)
  have hc : (twoColumns.monitor 0).scroller_columns = [0, 1] := by decide
  have hn : (twoColumns.monitor 0).column_count = 2 := by decide
  rw [hc, hn] at h1 h2 h3
  refine ⟨?_, ?_, ?_, ?_⟩
  · simpa using (h1.2.2.1 (by decide) (by decide)).1
  · simpa using h1.2.2.2.1
  · simpa using h2.2.1 (by decide)
  · simpa using h3.1 (by decide)

/-- C18: `column_remove_tile` at an index below 0 or not below `tile_count`
returns NULL and leaves the memory as it is, and `column_remove_client` and
`scroller_remove_client_from_columns` of a tile with no back-reference leave
the memory as it is. -/
theorem remove_absent_is_noop (w : World) :
    (∀ col idx, (idx < 0 ∨ idx ≥ (w.column col).tile_count) →
        column_remove_tile w col idx = (w, none))
    ∧ (∀ c, (w.client c).column = none →
        column_remove_client w c = w ∧ scroller_remove_client_from_columns w c = w) := by
  refine ⟨?_, ?_⟩
  · intro col idx h
    unfold column_remove_tile
    rw [if_pos h]
  · intro c h
    constructor
    · unfold column_remove_client
      rw [h]
    · unfold scroller_remove_client_from_columns
      rw [h]

/-- C18 at `twoColumns`: removing at index -1 and at index 1 of the singleton
column 0, and removing the unattached client 5, change nothing. -/
theorem remove_absent_is_noop_witness :
    column_remove_tile twoColumns 0 (-1) = (twoColumns, none)
    ∧ column_remove_tile twoColumns 0 1 = (twoColumns, none)
    ∧ column_remove_client twoColumns 5 = twoColumns
    ∧ scroller_remove_client_from_columns twoColumns 5 = twoColumns :=
  ⟨(remove_absent_is_noop twoColumns).1 0 (-1) (by decide),
   (remove_absent_is_noop twoColumns).1 0 1 (by decide),
   ((remove_absent_is_noop twoColumns).2 5 (by decide)).1,
   ((remove_absent_is_noop twoColumns).2 5 (by decide)).2⟩


/-! ## Active indices on removal -/

theorem detachFrom_active (w : World) (col c k : Nat) :
    ((detachFrom w col c).column k).active_tile_idx
      = if k = col then
          (if (w.column col).active_tile_idx ≥ (w.column col).tile_count - 1
              ∧ (w.column col).tile_count - 1 > 0 then
            (w.column col).tile_count - 1 - 1
          else (w.column col).active_tile_idx)
        else (w.column k).active_tile_idx := by
  by_cases hk : k = col
  · subst hk
    by_cases hcond : (w.column k).active_tile_idx ≥ (w.column k).tile_count - 1
        ∧ (w.column k).tile_count - 1 > 0
    · rw [if_pos rfl, if_pos hcond]
      simp [detachFrom, hcond]
    · rw [if_pos rfl, if_neg hcond]
      have hc2 : ¬ ((w.column k).tile_count ≤ (w.column k).active_tile_idx + 1
          ∧ 1 < (w.column k).tile_count) := by
        intro h
        apply hcond
        constructor <;> omega
      simp [detachFrom, hc2]
  · unfold detachFrom
    dsimp only
    split <;> simp [hk]

theorem column_remove_active (w : World) (m col m1 : Nat) :
    ((column_remove w m col).monitor m1).active_column_idx
      = if m1 = m then
          (if (w.monitor m).active_column_idx ≥ (w.monitor m).column_count - 1
              ∧ (w.monitor m).column_count - 1 > 0 then
            (w.monitor m).column_count - 1 - 1
          else (w.monitor m).active_column_idx)
        else (w.monitor m1).active_column_idx := by
  by_cases hk : m1 = m
  · subst hk
    by_cases hcond : (w.monitor m1).active_column_idx ≥ (w.monitor m1).column_count - 1
        ∧ (w.monitor m1).column_count - 1 > 0
    · rw [if_pos rfl, if_pos hcond]
      simp [column_remove, hcond]
    · rw [if_pos rfl, if_neg hcond]
      have hc2 : ¬ ((w.monitor m1).column_count ≤ (w.monitor m1).active_column_idx + 1
          ∧ 1 < (w.monitor m1).column_count) := by
        intro h
        apply hcond
        constructor <;> omega
      simp [column_remove, hc2]
  · unfold column_remove
    dsimp only
    split <;> simp [hk]

theorem filter_ne_eq_eraseIdx (l : List Nat) (i t : Nat) (hnd : l.Nodup) (h : l[i]? = some t) :
    l.filter (fun x => x != t) = l.eraseIdx i := by
  induction l generalizing i with
  | nil => simp at h
  | cons a rest ih =>
    rw [List.nodup_cons] at hnd
    cases i with
    | zero =>
      simp only [List.getElem?_cons_zero, Option.some.injEq] at h
      subst h
      simp [filter_ne_of_not_mem hnd.1]
    | succ i =>
      simp only [List.getElem?_cons_succ] at h
      have hne : a ≠ t := by
        rintro rfl
        exact hnd.1 (List.getElem?_mem h)
      simp [List.filter_cons, hne, ih i hnd.2 h]

/-- C11: in a consistent memory let `c` be the only tile of its column, a
member of the sequence of monitor `m`.  `scroller_remove_client_from_columns`
clears the back-reference of `c` and sets its `tile_index` to -1, takes the
column out of the sequence of `m` (the others keep their order) and
decrements `column_count`; and if the column was the one at
`active_column_idx`, the index is left at `min` of its old value and
`column_count - 1` when columns remain, and at 0 when none remain. -/
theorem remove_last_tile_of_column (w : World) (c col m : Nat) (hw : Consistent w)
    (hc : (w.client c).column = some col) (ht : (w.column col).tiles = [c])
    (hm : col ∈ (w.monitor m).scroller_columns) :
    ((scroller_remove_client_from_columns w c).client c).column = none
    ∧ ((scroller_remove_client_from_columns w c).client c).tile_index = -1
    ∧ ((scroller_remove_client_from_columns w c).monitor m).scroller_columns
        = (w.monitor m).scroller_columns.filter (fun x => x != col)
    ∧ col ∉ ((scroller_remove_client_from_columns w c).monitor m).scroller_columns
    ∧ ((scroller_remove_client_from_columns w c).monitor m).column_count
        = (w.monitor m).column_count - 1
    ∧ (column_at_index w m (w.monitor m).active_column_idx = some col →
        (0 < ((scroller_remove_client_from_columns w c).monitor m).column_count →
          ((scroller_remove_client_from_columns w c).monitor m).active_column_idx
            = min (w.monitor m).active_column_idx
                (((scroller_remove_client_from_columns w c).monitor m).column_count - 1))
        ∧ (((scroller_remove_client_from_columns w c).monitor m).column_count = 0 →
          ((scroller_remove_client_from_columns w c).monitor m).active_column_idx = 0)) := by
  have hmon : (w.column col).mon = some m := (hw.owner col m).2 hm
  have hcnt : (w.column col).tile_count = 1 := by
    rw [hw.tile_count_eq, ht]
    rfl
  have e : scroller_remove_client_from_columns w c
      = column_destroy (column_remove (detachFrom w col c) m col) col := by
    unfold scroller_remove_client_from_columns
    simp only [hc, column_remove_client, detachFrom_tile_count, if_true, hcnt, hmon]
    rfl
  have hclient : (scroller_remove_client_from_columns w c).client c
      = { w.client c with column := none, tile_index := -1 } := by
    rw [e, column_destroy_client, column_remove_client', detachFrom_client,
      reindexLoop_of_not_mem]
    · simp
    · rw [mem_filter_ne]
      exact fun h => h.2 rfl
  have hcols : ((scroller_remove_client_from_columns w c).monitor m).scroller_columns
      = (w.monitor m).scroller_columns.filter (fun x => x != col) := by
    rw [e, column_destroy_columns, column_remove_columns, detachFrom_monitor, filter_ne_twice]
  have hcount : ((scroller_remove_client_from_columns w c).monitor m).column_count
      = (w.monitor m).column_count - 1 := by
    rw [e, column_destroy_count, column_remove_count, if_pos rfl, detachFrom_monitor]
  have hactive : ((scroller_remove_client_from_columns w c).monitor m).active_column_idx
      = (if (w.monitor m).active_column_idx ≥ (w.monitor m).column_count - 1
            ∧ (w.monitor m).column_count - 1 > 0 then
          (w.monitor m).column_count - 1 - 1
        else (w.monitor m).active_column_idx) := by
    rw [e, column_destroy_active, column_remove_active, if_pos rfl, detachFrom_monitor]
  refine ⟨by rw [hclient], by rw [hclient], hcols, ?_, hcount, ?_⟩
  · rw [hcols, mem_filter_ne]
    exact fun h => h.2 rfl
  · intro hat
    unfold column_at_index at hat
    split at hat
    · cases hat
    · next hrange =>
      push_neg at hrange
      rw [hcount, hactive]
      refine ⟨fun hpos => ?_, fun hzero => ?_⟩
      · split
        · omega
        · next hn =>
          rw [min_eq_left]
          omega
      · rw [if_neg (by omega)]
        omega

/-- C11 at `twoColumns`: removing client 1, the only tile of the last column,
leaves column 0 alone in the sequence with `column_count = 1`. -/
theorem remove_last_tile_of_column_witness :
    ((scroller_remove_client_from_columns twoColumns 1).client 1).column = none
    ∧ ((scroller_remove_client_from_columns twoColumns 1).client 1).tile_index = -1
    ∧ ((scroller_remove_client_from_columns twoColumns 1).monitor 0).scroller_columns = [0]
    ∧ ((scroller_remove_client_from_columns twoColumns 1).monitor 0).column_count = 1 := by
  have h := remove_last_tile_of_column twoColumns 1 1 0 consistent_twoColumns (by decide)
    (by decide) (by decide)
  have hc : (twoColumns.monitor 0).scroller_columns = [0, 1] := by decide
  have hn : (twoColumns.monitor 0).column_count = 2 := by decide
  rw [hc, hn] at h
  exact ⟨h.1, h.2.1, by simpa using h.2.2.1, by simpa using h.2.2.2.2.1⟩

/-- C12: for a column with `k > 1` tiles (`tile_count = k`, no tile listed
twice), `active_tile_idx` in range and the tile `t` at index `i`:
`column_remove_tile` at `i` returns `t`, and `column_remove_client` of `t`
does the same to the memory when `t` refers back to the column; `t` is
detached (no back-reference, `tile_index = -1`), the remaining tiles are the
old sequence without position `i`, indexed `0..k-2` in that order,
`tile_count` is `k - 1` and `active_tile_idx` is `min` of its old value and
`k - 2`. -/
theorem remove_tile_clamps_active (w : World) (col i t : Nat)
    (hcount : (w.column col).tile_count = (w.column col).tiles.length)
    (hnd : (w.column col).tiles.Nodup) (hk : 1 < (w.column col).tiles.length)
    (h1 : (w.column col).active_tile_idx < (w.column col).tile_count)
    (hi : (w.column col).tiles[i]? = some t) :
    (column_remove_tile w col (i : Int)).2 = some t
    ∧ ((w.client t).column = some col →
        column_remove_client w t = (column_remove_tile w col (i : Int)).1)
    ∧ ((column_remove_tile w col (i : Int)).1.client t).column = none
    ∧ ((column_remove_tile w col (i : Int)).1.client t).tile_index = -1
    ∧ ((column_remove_tile w col (i : Int)).1.column col).tiles
        = (w.column col).tiles.eraseIdx i
    ∧ ((column_remove_tile w col (i : Int)).1.column col).tile_count
        = (w.column col).tile_count - 1
    ∧ (∀ (j : Nat) (x : Nat), ((w.column col).tiles.eraseIdx i)[j]? = some x →
        ((column_remove_tile w col (i : Int)).1.client x).tile_index = j)
    ∧ ((column_remove_tile w col (i : Int)).1.column col).active_tile_idx
        = min (w.column col).active_tile_idx ((w.column col).tile_count - 2) := by
  have hilt : i < (w.column col).tiles.length := by
    rcases List.getElem?_eq_some.1 hi with ⟨h, -⟩
    exact h
  have hat : column_tile_at w col (i : Int) = some t := by
    unfold column_tile_at
    rw [if_neg (by rw [hcount]; omega)]
    simpa using hi
  have e : column_remove_tile w col (i : Int) = (detachFrom w col t, some t) := by
    unfold column_remove_tile
    rw [if_neg (by rw [hcount]; omega), hat]
  have hfilter := filter_ne_eq_eraseIdx _ i t hnd hi
  rw [e]
  refine ⟨rfl, ?_, ?_, ?_, ?_, ?_, ?_, ?_⟩
  · intro hc
    unfold column_remove_client
    rw [hc]
  · rw [detachFrom_client, reindexLoop_column]
    simp
  · rw [detachFrom_client, reindexLoop_of_not_mem]
    · simp
    · rw [mem_filter_ne]
      exact fun h => h.2 rfl
  · rw [detachFrom_tiles, hfilter]
  · rw [detachFrom_tile_count, if_pos rfl]
  · intro j x hj
    rw [detachFrom_client, hfilter,
      reindexLoop_index _ _ _ _ j (hnd.sublist (List.eraseIdx_sublist _ _)) hj]
    simp
  · rw [detachFrom_active, if_pos rfl]
    rw [hcount] at h1 ⊢
    split
    · rw [min_eq_right] <;> omega
    · rw [min_eq_left]
      omega

/-- C12 at column 0 of `stacked` (clients 0 and 1, active index 0): removing
the tile at index 0 leaves client 1 at index 0 and the active index at 0. -/
theorem remove_tile_clamps_active_witness :
    (column_remove_tile stacked 0 0).2 = some 0
    ∧ ((column_remove_tile stacked 0 0).1.column 0).tiles = [1]
    ∧ ((column_remove_tile stacked 0 0).1.column 0).tile_count = 1
    ∧ ((column_remove_tile stacked 0 0).1.column 0).active_tile_idx = 0 := by
  have h := remove_tile_clamps_active stacked 0 0 0 (by decide) (by decide) (by decide)
    (by decide) (by decide)
  have ht : (stacked.column 0).tiles = [0, 1] := by decide
  have hn : (stacked.column 0).tile_count = 2 := by decide
  have ha : (stacked.column 0).active_tile_idx = 0 := by decide
  rw [ht, hn, ha] at h
  exact ⟨h.1, by simpa using h.2.2.2.2.1, by simpa using h.2.2.2.2.2.1,
    by simpa using h.2.2.2.2.2.2.2⟩


/-! ## Rendering -/

theorem wrap32_of_fits (x : Int) (h : fits32 x) : wrap32 x = x := by
  unfold fits32 at h
  unfold wrap32
  omega

theorem fits32_tdiv (a n : Int) (ha : fits32 a) (hn : 1 ≤ n) : fits32 (a.tdiv n) := by
  unfold fits32 at ha ⊢
  rcases le_or_lt 0 a with h | h
  · rw [Int.tdiv_eq_ediv h (by omega)]
    have h1 : 0 ≤ a / n := Int.ediv_nonneg h (by omega)
    have h2 : a / n ≤ a := Int.ediv_le_self _ h
    omega
  · have e : a.tdiv n = -((-a).tdiv n) := by simp
    rw [e, Int.tdiv_eq_ediv (by omega) (by omega)]
    have h1 : 0 ≤ (-a) / n := Int.ediv_nonneg (by omega) (by omega)
    have h2 : (-a) / n ≤ -a := Int.ediv_le_self _ (by omega)
    omega

theorem renderLoop_length (geom : Box) (n q gap : Int) (l : List Nat) (y i0 : Int) :
    (renderLoop geom n q gap l y i0).length = l.length := by
  induction l generalizing y i0 with
  | nil => rfl
  | cons c rest ih => simp [renderLoop, ih]

theorem render_length (w : World) (col : Nat) (geom : Box) (gap : Int)
    (hcount : (w.column col).tile_count = (w.column col).tiles.length) :
    (scroller_render_column w col geom gap).length = (w.column col).tiles.length := by
  unfold scroller_render_column
  by_cases h : (w.column col).tile_count = 0
  · rw [if_pos h]
    rw [hcount] at h
    have : (w.column col).tiles.length = 0 := by exact_mod_cast h
    rw [this]
    rfl
  · rw [if_neg h]
    exact renderLoop_length _ _ _ _ _ _ _

theorem renderLoopExact_length (geom : Box) (n q gap : Int) (l : List Nat) (y i0 : Int) :
    (renderLoopExact geom n q gap l y i0).length = l.length := by
  induction l generalizing y i0 with
  | nil => rfl
  | cons c rest ih => simp [renderLoopExact, ih]

theorem renderLoopExact_getElem (geom : Box) (n q gap : Int) (l : List Nat) (y i0 : Int)
    (j : Nat) (c : Nat) (h : l[j]? = some c) :
    (renderLoopExact geom n q gap l y i0)[j]?
      = some (c, { x := geom.x, y := y + j * (q + gap), width := geom.width,
                   height := if i0 + j = n - 1 then geom.y + geom.height - (y + j * (q + gap))
                             else q }) := by
  induction l generalizing y i0 j with
  | nil => simp at h
  | cons a rest ih =>
    cases j with
    | zero =>
      simp only [List.getElem?_cons_zero, Option.some.injEq] at h
      subst h
      simp [renderLoopExact]
    | succ j =>
      simp only [List.getElem?_cons_succ] at h
      simp only [renderLoopExact, List.getElem?_cons_succ]
      rw [ih _ _ _ h]
      have e1 : y + q + gap + (j : Int) * (q + gap) = y + ((j + 1 : Nat) : Int) * (q + gap) := by
        push_cast
        ring
      have e2 : i0 + 1 + (j : Int) = i0 + ((j + 1 : Nat) : Int) := by
        push_cast
        ring
      rw [e1, e2]

theorem renderLoopExact_sum (geom : Box) (n q gap : Int) (l : List Nat) (y i0 : Int)
    (hl : l ≠ []) (hn : i0 + l.length = n) :
    ((renderLoopExact geom n q gap l y i0).map (fun r => r.2.height)).sum
      = geom.y + geom.height - y - ((l.length : Int) - 1) * gap := by
  induction l generalizing y i0 with
  | nil => exact absurd rfl hl
  | cons a rest ih =>
    cases rest with
    | nil =>
      simp only [List.length_cons, List.length_nil] at hn
      have : i0 = n - 1 := by push_cast at hn; omega
      simp [renderLoopExact, this]
    | cons b rest2 =>
      have hne : ¬ i0 = n - 1 := by
        simp only [List.length_cons] at hn
        push_cast at hn
        omega
      have hn2 : i0 + 1 + ((b :: rest2).length : Int) = n := by
        simp only [List.length_cons] at hn ⊢
        push_cast at hn ⊢
        omega
      have := ih (y + q + gap) (i0 + 1) (by simp) hn2
      rw [renderLoopExact, List.map_cons, List.sum_cons, this]
      simp only [if_neg hne, List.length_cons]
      push_cast
      ring

theorem render_exact_eq_loop (w : World) (col : Nat) (geom : Box) (gap : Int)
    (hcount : (w.column col).tile_count = (w.column col).tiles.length)
    (hne : (w.column col).tiles ≠ []) :
    scroller_render_column_exact w col geom gap
      = renderLoopExact geom (w.column col).tile_count
          ((geom.height - ((w.column col).tile_count - 1) * gap).tdiv (w.column col).tile_count)
          gap (w.column col).tiles geom.y 0 := by
  unfold scroller_render_column_exact
  rw [if_neg]
  rw [hcount]
  intro h
  exact hne (List.length_eq_zero.1 (by exact_mod_cast h))

/-- Where no operation overflows, the 32-bit loop and the loop in exact
arithmetic produce the same rectangles. -/
theorem renderLoop_eq_exact (geom : Box) (n q gap : Int) (l : List Nat) (y i0 : Int)
    (hn : fits32 (n - 1)) (hs : fits32 (q + gap)) (hB : fits32 (geom.y + geom.height))
    (hy : ∀ j : Nat, j < l.length → fits32 (y + j * (q + gap)))
    (hi : ∀ j : Nat, j < l.length → fits32 (i0 + j))
    (hlast : ∀ j : Nat, j < l.length → i0 + j = n - 1 →
      fits32 (geom.y + geom.height - (y + j * (q + gap)))) :
    renderLoop geom n q gap l y i0 = renderLoopExact geom n q gap l y i0 := by
  induction l generalizing y i0 with
  | nil => rfl
  | cons a rest ih =>
    have hh : (if i0 = wrap32 (n - 1) then wrap32 (wrap32 (geom.y + geom.height) - y) else q)
        = (if i0 = n - 1 then geom.y + geom.height - y else q) := by
      rw [wrap32_of_fits _ hn, wrap32_of_fits _ hB]
      by_cases h : i0 = n - 1
      · rw [if_pos h, if_pos h]
        have := hlast 0 (by simp) (by simpa using h)
        simp only [Nat.cast_zero, zero_mul, add_zero] at this
        exact wrap32_of_fits _ this
      · rw [if_neg h, if_neg h]
    cases rest with
    | nil => simp only [renderLoop, renderLoopExact, hh]
    | cons b rest2 =>
      have hy1 := hy 1 (by simp)
      have hi1 := hi 1 (by simp)
      simp only [Nat.cast_one, one_mul] at hy1 hi1
      have ey : wrap32 (y + wrap32 (q + gap)) = y + q + gap := by
        rw [wrap32_of_fits _ hs, wrap32_of_fits _ hy1]
        ring
      have ei : wrap32 (i0 + 1) = i0 + 1 := wrap32_of_fits _ hi1
      rw [renderLoop, renderLoopExact, hh, ey, ei]
      congr 1
      apply ih
      · intro j hj
        have := hy (j + 1) (by simpa using hj)
        have e : y + ((j + 1 : Nat) : Int) * (q + gap) = y + q + gap + j * (q + gap) := by
          push_cast
          ring
        rwa [e] at this
      · intro j hj
        have := hi (j + 1) (by simpa using hj)
        have e : i0 + ((j + 1 : Nat) : Int) = i0 + 1 + j := by
          push_cast
          ring
        rwa [e] at this
      · intro j hj hij
        have := hlast (j + 1) (by simpa using hj) (by push_cast; omega)
        have e : y + ((j + 1 : Nat) : Int) * (q + gap) = y + q + gap + j * (q + gap) := by
          push_cast
          ring
        rwa [e] at this

/-- Where no operation overflows, `scroller_render_column` emits the
rectangles of its reading in exact arithmetic. -/
theorem render_eq_exact (w : World) (col : Nat) (geom : Box) (gap : Int)
    (hcount : (w.column col).tile_count = (w.column col).tiles.length)
    (hfit : RenderFits w col geom gap) :
    scroller_render_column w col geom gap = scroller_render_column_exact w col geom gap := by
  obtain ⟨h1, h2, h3, h4, h5, _, h6, h7⟩ := hfit
  unfold scroller_render_column scroller_render_column_exact
  by_cases h0 : (w.column col).tile_count = 0
  · rw [if_pos h0, if_pos h0]
  · rw [if_neg h0, if_neg h0]
    have hpos : (1 : Int) ≤ (w.column col).tile_count := by
      rw [hcount] at h0 ⊢
      omega
    have e1 : wrap32 (wrap32 ((w.column col).tile_count - 1) * gap)
        = ((w.column col).tile_count - 1) * gap := by
      rw [wrap32_of_fits _ h1, wrap32_of_fits _ h2]
    have e2 : wrap32 (geom.height - ((w.column col).tile_count - 1) * gap)
        = geom.height - ((w.column col).tile_count - 1) * gap := wrap32_of_fits _ h3
    have e3 : wrap32 ((geom.height - ((w.column col).tile_count - 1) * gap).tdiv
        (w.column col).tile_count)
        = (geom.height - ((w.column col).tile_count - 1) * gap).tdiv
            (w.column col).tile_count := wrap32_of_fits _ (fits32_tdiv _ _ h3 hpos)
    simp only [e1, e2, e3]
    unfold tileHeight at h4 h5 h7
    apply renderLoop_eq_exact _ _ _ _ _ _ _ h1 h4 h6 (fun j hj => h5 j (Nat.le_of_lt hj))
    · intro j hj
      unfold fits32 at h1 ⊢
      rw [hcount] at h1
      omega
    · intro j hj hij
      have e : (j : Int) = (w.column col).tile_count - 1 := by omega
      rw [e]
      exact h7

/-- A plain sufficient condition for `RenderFits`: a non-negative gap, bounds
at least as high as the gaps, starting at a non-negative `y`, whose bottom
edge plus one gap fits in 32 bits. -/
theorem renderFits_of_nonneg (w : World) (col : Nat) (geom : Box) (gap : Int)
    (hcount : (w.column col).tile_count = (w.column col).tiles.length)
    (hne : (w.column col).tiles ≠ [])
    (hg : 0 ≤ gap) (hy : 0 ≤ geom.y)
    (hh : ((w.column col).tile_count - 1) * gap ≤ geom.height)
    (hn : (w.column col).tile_count < 2147483648)
    (hb : geom.y + geom.height + gap < 2147483648) :
    RenderFits w col geom gap := by
  have hlen : 0 < (w.column col).tiles.length := List.length_pos.2 hne
  have hn1 : (1 : Int) ≤ (w.column col).tile_count := by
    rw [hcount]
    omega
  have hT : 0 ≤ ((w.column col).tile_count - 1) * gap :=
    mul_nonneg (by omega) hg
  have hD : 0 ≤ geom.height - ((w.column col).tile_count - 1) * gap := by omega
  have hq0 : 0 ≤ tileHeight w col geom gap := by
    unfold tileHeight
    exact Int.tdiv_nonneg hD (by omega)
  have hqn : (w.column col).tile_count * tileHeight w col geom gap
      ≤ geom.height - ((w.column col).tile_count - 1) * gap := by
    unfold tileHeight
    rw [Int.tdiv_eq_ediv hD (by omega)]
    exact Int.mul_ediv_self_le (by omega)
  have hq1 : tileHeight w col geom gap
      ≤ (w.column col).tile_count * tileHeight w col geom gap := by
    nlinarith
  have hs0 : 0 ≤ tileHeight w col geom gap + gap := by omega
  have hns : (w.column col).tile_count * (tileHeight w col geom gap + gap)
      ≤ geom.height + gap := by
    nlinarith
  have hpart : ∀ i : Nat, i ≤ (w.column col).tiles.length →
      (i : Int) * (tileHeight w col geom gap + gap) ≤ geom.height + gap := by
    intro i hi
    have : (i : Int) ≤ (w.column col).tile_count := by
      rw [hcount]
      exact_mod_cast hi
    have := mul_le_mul_of_nonneg_right this hs0
    omega
  have hm1 : ((w.column col).tile_count - 1) * (tileHeight w col geom gap + gap)
      ≤ geom.height := by
    nlinarith
  have hm0 : 0 ≤ ((w.column col).tile_count - 1) * (tileHeight w col geom gap + gap) :=
    mul_nonneg (by omega) hs0
  unfold RenderFits fits32
  refine ⟨by omega, by omega, by omega, by omega, ?_, ?_, by omega, by omega⟩
  · intro i hi
    have h1 := hpart i hi
    have h2 : 0 ≤ (i : Int) * (tileHeight w col geom gap + gap) :=
      mul_nonneg (Int.natCast_nonneg _) hs0
    omega
  · rw [hcount] at hn
    omega

theorem render_exact_fills (w : World) (col : Nat) (geom : Box) (gap : Int)
    (hcount : (w.column col).tile_count = (w.column col).tiles.length)
    (hne : (w.column col).tiles ≠ []) :
    ((scroller_render_column_exact w col geom gap).map (fun r => r.2.height)).sum
        + ((w.column col).tile_count - 1) * gap = geom.height
    ∧ (scroller_render_column_exact w col geom gap).head?.map (fun r => r.2.y) = some geom.y
    ∧ (scroller_render_column_exact w col geom gap).getLast?.map (fun r => r.2.y + r.2.height)
        = some (geom.y + geom.height) := by
  have hlen : 0 < (w.column col).tiles.length := List.length_pos.2 hne
  rw [render_exact_eq_loop w col geom gap hcount hne]
  refine ⟨?_, ?_, ?_⟩
  · rw [renderLoopExact_sum _ _ _ _ _ _ _ hne (by rw [hcount]; ring), hcount]
    ring
  · rw [List.head?_eq_getElem?,
      renderLoopExact_getElem _ _ _ _ _ _ _ 0 _ (List.getElem?_eq_getElem hlen)]
    simp
  · rw [List.getLast?_eq_getElem?, renderLoopExact_length,
      renderLoopExact_getElem _ _ _ _ _ _ _ ((w.column col).tiles.length - 1) _
        (List.getElem?_eq_getElem (by omega))]
    have hlast : (0 : Int) + (((w.column col).tiles.length - 1 : Nat) : Int)
        = (w.column col).tile_count - 1 := by
      rw [hcount]
      omega
    simp only [Option.map_some', hlast, if_true]
    congr 1
    ring

/-- C17, as stated, fails in two ways, both shown on the three tiles of
`threeTiles`.  With bounds of height 10 and gap 6 the bounds are lower than the
gaps: the emitted heights are 0, 0 at y-offsets 0, 6 for the first two tiles
(C division rounds toward zero), while the floor of (10 - 12) / 3 is -1.  With
bounds of height 100 and gap 1500000000 the product `(tile_count - 1) * gap`
does not fit in an `int32_t`: the emitted heights are 431655798, 431655798,
431655800 at y-offsets 0, 1931655798, -431655700, while the quotient of
(100 - 3000000000) / 3 is -999999967 as a floor and -999999966 rounded toward
zero. -/
theorem render_geometry_fails :
    ((scroller_render_column threeTiles 0 { x := 0, y := 0, width := 50, height := 10 } 6).map
        (fun r => (r.2.y, r.2.height))
      = [(0, 0), (6, 0), (12, -2)]
      ∧ Int.fdiv (10 - 6 * (3 - 1)) 3 = -1)
    ∧ ((scroller_render_column threeTiles 0
          { x := 0, y := 0, width := 50, height := 100 } 1500000000).map
        (fun r => (r.2.y, r.2.height))
      = [(0, 431655798), (1931655798, 431655798), (-431655700, 431655800)]
      ∧ Int.fdiv (100 - 1500000000 * (3 - 1)) 3 = -999999967
      ∧ Int.tdiv (100 - 1500000000 * (3 - 1)) 3 = -999999966
      ∧ ¬ RenderFits threeTiles 0 { x := 0, y := 0, width := 50, height := 100 } 1500000000) := by
  decide

/-- C17, amended: a column with `tile_count = 0` emits nothing, and
`scroller_render_column` emits one rectangle per tile.  For a column with
`n ≥ 1` tiles and bounds and gap for which no 32-bit operation of
`scroller_render_column` overflows (`RenderFits`), with `q` the C quotient
`(bounds.height - gap * (n - 1)) / n`, rounded toward zero (`tileHeight`), the
tile at index `i` gets `x = bounds.x`, `width = bounds.width`,
`y = bounds.y + i * (q + gap)`, height `q` when `i < n - 1` and
`bounds.y + bounds.height - y` when it is the last.  The quotient `q` is the
floor of the quotient whenever `gap * (n - 1) ≤ bounds.height`. -/
theorem render_column_geometry (w : World) (col : Nat) (geom : Box) (gap : Int)
    (hcount : (w.column col).tile_count = (w.column col).tiles.length) :
    ((w.column col).tile_count = 0 → scroller_render_column w col geom gap = [])
    ∧ (scroller_render_column w col geom gap).length = (w.column col).tiles.length
    ∧ (RenderFits w col geom gap →
        ∀ (i : Nat) (c : Nat), (w.column col).tiles[i]? = some c →
          (scroller_render_column w col geom gap)[i]?
            = some (c,
                { x := geom.x,
                  y := geom.y + i * (tileHeight w col geom gap + gap),
                  width := geom.width,
                  height :=
                    if (i : Int) = (w.column col).tile_count - 1 then
                      geom.y + geom.height - (geom.y + i * (tileHeight w col geom gap + gap))
                    else tileHeight w col geom gap }))
    ∧ (gap * ((w.column col).tile_count - 1) ≤ geom.height →
        tileHeight w col geom gap
          = Int.fdiv (geom.height - gap * ((w.column col).tile_count - 1))
              (w.column col).tile_count) := by
  refine ⟨?_, render_length w col geom gap hcount, ?_, ?_⟩
  · intro h
    unfold scroller_render_column
    rw [if_pos h]
  · intro hfit i c hi
    have hne : (w.column col).tiles ≠ [] := by
      intro h
      rw [h] at hi
      simp at hi
    rw [render_eq_exact w col geom gap hcount hfit, render_exact_eq_loop w col geom gap hcount hne,
      renderLoopExact_getElem _ _ _ _ _ _ _ i c hi]
    simp [tileHeight]
  · intro h
    have h1 : (0 : Int) ≤ geom.height - ((w.column col).tile_count - 1) * gap := by
      have : ((w.column col).tile_count - 1) * gap = gap * ((w.column col).tile_count - 1) := by
        ring
      omega
    have h2 : (0 : Int) ≤ (w.column col).tile_count := by
      rw [hcount]
      exact Int.natCast_nonneg _
    have e : geom.height - gap * ((w.column col).tile_count - 1)
        = geom.height - ((w.column col).tile_count - 1) * gap := by ring
    unfold tileHeight
    rw [e, Int.fdiv_eq_tdiv h1 h2]

/-- C17, amended, at `threeTiles` with bounds of height 100 at `y = 10`,
`x = 5`, width 50 and gap 2: no operation overflows, the quotient is 32, and
the tile at index 1 gets the rectangle at `y = 44` of height 32. -/
theorem render_column_geometry_witness :
    RenderFits threeTiles 0 { x := 5, y := 10, width := 50, height := 100 } 2
    ∧ tileHeight threeTiles 0 { x := 5, y := 10, width := 50, height := 100 } 2 = 32
    ∧ scroller_render_column threeTiles 0 { x := 5, y := 10, width := 50, height := 100 } 2
      = [(0, { x := 5, y := 10, width := 50, height := 32 }),
         (1, { x := 5, y := 44, width := 50, height := 32 }),
         (2, { x := 5, y := 78, width := 50, height := 32 })]
    ∧ (scroller_render_column threeTiles 0
        { x := 5, y := 10, width := 50, height := 100 } 2)[1]?
      = some (1, { x := 5, y := 44, width := 50, height := 32 }) := by
  have h := (render_column_geometry threeTiles 0
    { x := 5, y := 10, width := 50, height := 100 } 2 (by decide)).2.2.1 (by decide)
    1 1 (by decide)
  refine ⟨by decide, by decide, by decide, ?_⟩
  rw [h]
  decide

/-- C19: for a column with `n ≥ 1` tiles (`tile_count = n`), any bounds and
any gap, in exact integer arithmetic (`scroller_render_column_exact`): the
emitted heights plus `n - 1` gaps sum to `bounds.height`, the first rectangle
starts at `bounds.y`, and the bottom edge of the last one is
`bounds.y + bounds.height`.  The 32-bit code emits these very rectangles, so
the same three facts hold of `scroller_render_column`, whenever none of its
operations overflows (`RenderFits`). -/
theorem render_fills_bounds (w : World) (col : Nat) (geom : Box) (gap : Int)
    (hcount : (w.column col).tile_count = (w.column col).tiles.length)
    (hne : (w.column col).tiles ≠ []) :
    ((scroller_render_column_exact w col geom gap).map (fun r => r.2.height)).sum
        + ((w.column col).tile_count - 1) * gap = geom.height
    ∧ (scroller_render_column_exact w col geom gap).head?.map (fun r => r.2.y) = some geom.y
    ∧ (scroller_render_column_exact w col geom gap).getLast?.map (fun r => r.2.y + r.2.height)
        = some (geom.y + geom.height)
    ∧ (RenderFits w col geom gap →
        scroller_render_column w col geom gap = scroller_render_column_exact w col geom gap
        ∧ ((scroller_render_column w col geom gap).map (fun r => r.2.height)).sum
            + ((w.column col).tile_count - 1) * gap = geom.height
        ∧ (scroller_render_column w col geom gap).head?.map (fun r => r.2.y) = some geom.y
        ∧ (scroller_render_column w col geom gap).getLast?.map (fun r => r.2.y + r.2.height)
            = some (geom.y + geom.height)) := by
  have h := render_exact_fills w col geom gap hcount hne
  refine ⟨h.1, h.2.1, h.2.2, ?_⟩
  intro hfit
  rw [render_eq_exact w col geom gap hcount hfit]
  exact ⟨rfl, h⟩

/-- C19 at `threeTiles` with bounds of height 101 at `y = 10` and gap 2: no
operation overflows, and the heights 32, 32, 33 and two gaps sum to 101, in
exact arithmetic and in the 32-bit code. -/
theorem render_fills_bounds_witness :
    (scroller_render_column threeTiles 0 { x := 5, y := 10, width := 50, height := 101 } 2).map
        (fun r => r.2.height) = [32, 32, 33]
    ∧ ((scroller_render_column threeTiles 0
          { x := 5, y := 10, width := 50, height := 101 } 2).map (fun r => r.2.height)).sum
        + ((threeTiles.column 0).tile_count - 1) * 2 = 101
    ∧ ((scroller_render_column_exact threeTiles 0
          { x := 5, y := 10, width := 50, height := 101 } 2).map (fun r => r.2.height)).sum
        + ((threeTiles.column 0).tile_count - 1) * 2 = 101 :=
  ⟨by decide,
   ((render_fills_bounds threeTiles 0 { x := 5, y := 10, width := 50, height := 101 } 2
     (by decide) (by decide)).2.2.2 (by decide)).2.1,
   (render_fills_bounds threeTiles 0 { x := 5, y := 10, width := 50, height := 101 } 2
     (by decide) (by decide)).1⟩


/-! ## What sync back collects -/

theorem spawned_tiles_other (w : World) (m c : Nat) (q : Rat) (k : Nat) (hk : k ≠ w.brk)
    (hc : c ∉ (w.column k).tiles) :
    ((spawned w m c q).column k).tiles = (w.column k).tiles := by
  unfold spawned column_add_tile
  rw [enterColumn_tiles, if_neg (by simpa using hk)]
  have hcreate : ((column_create w (some m) q).1.column k).tiles = (w.column k).tiles := by
    rw [column_create_fst_column, if_neg hk]
  cases hcol : ((column_create w (some m) q).1.client c).column with
  | none => rw [leaveColumn_of_none _ c hcol, hcreate]
  | some old => rw [leaveColumn_tiles _ c old k hcol, hcreate, filter_ne_of_not_mem hc]

theorem spawned_tiles_new_any (w : World) (m c : Nat) (q : Rat) :
    ((spawned w m c q).column w.brk).tiles = [c] := by
  unfold spawned column_add_tile
  rw [enterColumn_tiles]
  have hnil : ((leaveColumn (column_create w (some m) q).1 c).column w.brk).tiles = [] := by
    apply leaveColumn_tiles_of_nil
    simp
  simp [hnil]

theorem migrateStep_brk_le (E : Env) (m : Nat) (w : World) (c : Nat) :
    w.brk ≤ (migrateStep E m w c).brk := by
  cases he : eligibleOn E w m c with
  | false => rw [migrateStep_skip E m w c he]
  | true =>
    rw [(migrateStep_take E m w c he).2.2.1]
    omega

theorem migrateStep_tiles_keep (E : Env) (m : Nat) (w : World) (c k : Nat) (hk : k < w.brk)
    (hc : c ∉ (w.column k).tiles) :
    ((migrateStep E m w c).column k).tiles = (w.column k).tiles := by
  cases he : eligibleOn E w m c with
  | false => rw [migrateStep_skip E m w c he]
  | true =>
    rw [(migrateStep_take E m w c he).2.1]
    exact spawned_tiles_other w m c _ k (by omega) hc

theorem foldl_migrateStep_tiles_keep (E : Env) (m : Nat) (l : List Nat) (w : World) (k : Nat)
    (hk : k < w.brk) (h : ∀ x, x ∈ (w.column k).tiles → x ∉ l) :
    ((l.foldl (migrateStep E m) w).column k).tiles = (w.column k).tiles := by
  induction l generalizing w with
  | nil => rfl
  | cons c rest ih =>
    have hc : c ∉ (w.column k).tiles := fun hx => h c hx (List.mem_cons_self _ _)
    have h1 := migrateStep_tiles_keep E m w c k hk hc
    rw [List.foldl_cons, ih, h1]
    · exact lt_of_lt_of_le hk (migrateStep_brk_le E m w c)
    · intro x hx
      rw [h1] at hx
      exact fun hr => h x hx (List.mem_cons_of_mem _ hr)

theorem foldl_migrateStep_column_keep (E : Env) (m : Nat) (l : List Nat) (w : World) (t : Nat)
    (ht : t ∉ l) : ((l.foldl (migrateStep E m) w).client t).column = (w.client t).column := by
  induction l generalizing w with
  | nil => rfl
  | cons c rest ih =>
    simp only [List.mem_cons, not_or] at ht
    rw [List.foldl_cons, ih _ ht.2, migrateStep_client_column, if_neg (fun h => ht.1 h.1)]

theorem filter_eligible_congr (E : Env) {w w1 : World} (m : Nat) (l : List Nat)
    (h : ∀ t, (w1.client t).mon = (w.client t).mon) :
    l.filter (eligibleOn E w1 m) = l.filter (eligibleOn E w m) := by
  apply List.filter_congr
  intro x _
  exact eligibleOn_congr E m x (h x)

/-- What the loop of `scroller_migrate_to_columns` builds from a duplicate-free
list `l` of clients: one new column per eligible client, in order. -/
theorem migrate_fold_spec (E : Env) (m : Nat) (l : List Nat) (hnd : l.Nodup) (w : World) :
    ((l.foldl (migrateStep E m) w).monitor m).scroller_columns
        = (w.monitor m).scroller_columns
          ++ List.range' w.brk (l.filter (eligibleOn E w m)).length
    ∧ ((l.foldl (migrateStep E m) w).monitor m).column_count
        = (w.monitor m).column_count + (l.filter (eligibleOn E w m)).length
    ∧ (l.foldl (migrateStep E m) w).brk = w.brk + (l.filter (eligibleOn E w m)).length
    ∧ ((l.foldl (migrateStep E m) w).monitor m).sel = (w.monitor m).sel
    ∧ (∀ (j : Nat) (e : Nat), (l.filter (eligibleOn E w m))[j]? = some e →
        ((l.foldl (migrateStep E m) w).column (w.brk + j)).tiles = [e]
          ∧ ((l.foldl (migrateStep E m) w).client e).column = some (w.brk + j))
    ∧ (∀ s, (w.monitor m).sel = some s → s ∈ l.filter (eligibleOn E w m) →
        ((l.foldl (migrateStep E m) w).monitor m).active_column_idx
          = (w.monitor m).column_count + ((l.filter (eligibleOn E w m)).indexOf s : Nat))
    ∧ ((∀ s, (w.monitor m).sel = some s → s ∉ l.filter (eligibleOn E w m)) →
        ((l.foldl (migrateStep E m) w).monitor m).active_column_idx
          = (w.monitor m).active_column_idx) := by
  induction l generalizing w with
  | nil =>
    refine ⟨by simp, by simp, by simp, rfl, ?_, ?_, ?_⟩
    · intro j e h
      simp at h
    · intro s _ h
      simp at h
    · intro _
      rfl
  | cons c rest ih =>
    rw [List.nodup_cons] at hnd
    rw [List.foldl_cons]
    cases he : eligibleOn E w m c with
    | false =>
      rw [migrateStep_skip E m w c he, List.filter_cons_of_neg (by simp [he])]
      exact ih hnd.2 w
    | true =>
      obtain ⟨h1, h2, h3, h4, h5, h6, h7, h8, h9⟩ := migrateStep_take E m w c he
      have hfil : rest.filter (eligibleOn E (migrateStep E m w c) m)
          = rest.filter (eligibleOn E w m) :=
        filter_eligible_congr E m rest (fun t => migrateStep_client_mon E m w c t)
      obtain ⟨i1, i2, i3, i4, i5, i6, i7⟩ := ih hnd.2 (migrateStep E m w c)
      rw [hfil] at i1 i2 i3 i5 i6 i7
      rw [List.filter_cons_of_pos he]
      have hcnot : c ∉ rest.filter (eligibleOn E w m) := fun h => hnd.1 (List.mem_of_mem_filter h)
      refine ⟨?_, ?_, ?_, ?_, ?_, ?_, ?_⟩
      · rw [i1, h6, h3, List.length_cons, List.range'_succ, List.append_assoc]
        rfl
      · rw [i2, h7, List.length_cons]
        push_cast
        ring
      · rw [i3, h3, List.length_cons]
        omega
      · rw [i4, h8]
      · intro j e hj
        cases j with
        | zero =>
          simp only [List.getElem?_cons_zero, Option.some.injEq] at hj
          subst hj
          have ht1 : ((migrateStep E m w c).column w.brk).tiles = [c] := by
            rw [h2]
            exact spawned_tiles_new_any w m c _
          refine ⟨?_, ?_⟩
          · rw [Nat.add_zero, foldl_migrateStep_tiles_keep E m rest _ w.brk (by rw [h3]; omega),
              ht1]
            intro x hx
            rw [ht1, List.mem_singleton] at hx
            rw [hx]
            exact hnd.1
          · rw [Nat.add_zero, foldl_migrateStep_column_keep E m rest _ c hnd.1,
              migrateStep_client_column, if_pos ⟨rfl, he⟩]
        | succ j =>
          simp only [List.getElem?_cons_succ] at hj
          have := i5 j e hj
          rw [h3] at this
          have e1 : w.brk + 1 + j = w.brk + (j + 1) := by omega
          rw [e1] at this
          exact this
      · intro s hs hmem
        by_cases hsc : s = c
        · subst hsc
          have hb : ∀ s1, ((migrateStep E m w s).monitor m).sel = some s1 →
              s1 ∉ rest.filter (eligibleOn E w m) := by
            intro s1 hs1
            rw [h8, hs] at hs1
            cases hs1
            exact hcnot
          rw [i7 hb, h9, if_pos hs]
          simp
        · have hmem2 : s ∈ rest.filter (eligibleOn E w m) := by
            rcases List.mem_cons.1 hmem with h | h
            · exact absurd h hsc
            · exact h
          rw [i6 s (by rw [h8]; exact hs) hmem2, h7,
            List.indexOf_cons_ne _ (fun h => hsc h.symm)]
          push_cast
          ring
      · intro hs
        have hb : ∀ s1, ((migrateStep E m w c).monitor m).sel = some s1 →
            s1 ∉ rest.filter (eligibleOn E w m) := by
          intro s1 hs1
          rw [h8] at hs1
          exact fun h => hs s1 hs1 (List.mem_cons_of_mem _ h)
        rw [i7 hb, h9, if_neg]
        intro hsel
        exact hs c hsel (List.mem_cons_self _ _)

/-- C13: in a consistent memory with a duplicate-free global list, let `es`
be the clients of the global list that are on `m`, visible and scroll-tiled, in
list order.  If `m` has no columns, `scroller_migrate_to_columns` gives it
exactly one new column per client of `es`, in that order; `column_count` is the
length of `es`; the column at index `j` holds exactly `es[j]` (`tile_count` 1,
`tile_index` 0, back-reference set); `active_column_idx` is the index of the
selected client in `es` when it is there, otherwise 0.  If `m` has a column,
the memory is unchanged. -/
theorem migrate_seed_state (E : Env) (w : World) (m : Nat) (hw : Consistent w)
    (hnd : w.clients.Nodup) :
    ((w.monitor m).scroller_columns = [] →
      ((scroller_migrate_to_columns E w m).monitor m).scroller_columns
          = List.range' w.brk (w.clients.filter (eligibleOn E w m)).length
      ∧ ((scroller_migrate_to_columns E w m).monitor m).column_count
          = (w.clients.filter (eligibleOn E w m)).length
      ∧ (∀ (j : Nat) (e : Nat), (w.clients.filter (eligibleOn E w m))[j]? = some e →
          column_at_index (scroller_migrate_to_columns E w m) m (j : Int) = some (w.brk + j)
          ∧ ((scroller_migrate_to_columns E w m).column (w.brk + j)).tiles = [e]
          ∧ ((scroller_migrate_to_columns E w m).column (w.brk + j)).tile_count = 1
          ∧ ((scroller_migrate_to_columns E w m).client e).column = some (w.brk + j)
          ∧ ((scroller_migrate_to_columns E w m).client e).tile_index = 0)
      ∧ (∀ s, (w.monitor m).sel = some s → s ∈ w.clients.filter (eligibleOn E w m) →
          ((scroller_migrate_to_columns E w m).monitor m).active_column_idx
            = ((w.clients.filter (eligibleOn E w m)).indexOf s : Nat))
      ∧ ((∀ s, (w.monitor m).sel = some s → s ∉ w.clients.filter (eligibleOn E w m)) →
          ((scroller_migrate_to_columns E w m).monitor m).active_column_idx = 0))
    ∧ ((w.monitor m).scroller_columns ≠ [] → scroller_migrate_to_columns E w m = w) := by
  refine ⟨fun hempty => ?_, fun hne => ?_⟩
  · have hcons := consistent_migrate hw E m
    have e : scroller_migrate_to_columns E w m
        = w.clients.foldl (migrateStep E m) (column_init_for_monitor w m) := by
      unfold scroller_migrate_to_columns
      rw [if_neg (by simp [hempty])]
    rw [e] at hcons ⊢
    obtain ⟨i1, i2, -, -, i5, i6, i7⟩ :=
      migrate_fold_spec E m w.clients hnd (column_init_for_monitor w m)
    have hfil : w.clients.filter (eligibleOn E (column_init_for_monitor w m) m)
        = w.clients.filter (eligibleOn E w m) :=
      filter_eligible_congr E m _ (fun _ => rfl)
    have hbrk : (column_init_for_monitor w m).brk = w.brk := rfl
    have hcols0 : ((column_init_for_monitor w m).monitor m).scroller_columns = [] := by
      simp [column_init_for_monitor]
    have hcount0 : ((column_init_for_monitor w m).monitor m).column_count = 0 := by
      simp [column_init_for_monitor]
    have hact0 : ((column_init_for_monitor w m).monitor m).active_column_idx = 0 := by
      simp [column_init_for_monitor]
    have hsel0 : ((column_init_for_monitor w m).monitor m).sel = (w.monitor m).sel := by
      simp [column_init_for_monitor]
    rw [hfil, hbrk, hcols0, List.nil_append] at i1
    rw [hfil, hcount0, zero_add] at i2
    rw [hfil, hbrk] at i5
    rw [hfil, hsel0, hcount0] at i6
    rw [hfil, hsel0, hact0] at i7
    generalize w.clients.foldl (migrateStep E m) (column_init_for_monitor w m) = w1 at *
    refine ⟨i1, i2, ?_, ?_, i7⟩
    · intro j e hj
      obtain ⟨t1, t2⟩ := i5 j e hj
      have hjlt : j < (w.clients.filter (eligibleOn E w m)).length := by
        rcases List.getElem?_eq_some.1 hj with ⟨h, -⟩
        exact h
      refine ⟨?_, t1, ?_, t2, ?_⟩
      · unfold column_at_index
        rw [if_neg (by rw [i2]; omega), i1]
        simp only [Int.toNat_ofNat]
        rw [List.getElem?_range' _ _ hjlt]
        simp
      · rw [hcons.tile_count_eq, t1]
        rfl
      · have := hcons.index_order (w.brk + j) 0 e (by rw [t1]; rfl)
        simpa using this
    · intro s hs hmem
      rw [i6 s hs hmem]
      simp
  · unfold scroller_migrate_to_columns
    rw [if_pos hne]

/-- C13 at `twoClients`: migration gives monitor 0 the columns 0 and 1, one
per client, and `twoColumns` is left as it is by a second migration. -/
theorem migrate_seed_state_witness :
    ((scroller_migrate_to_columns envAll twoClients 0).monitor 0).scroller_columns = [0, 1]
    ∧ ((scroller_migrate_to_columns envAll twoClients 0).monitor 0).column_count = 2
    ∧ scroller_migrate_to_columns envAll twoColumns 0 = twoColumns := by
  have h1 := (migrate_seed_state envAll twoClients 0 consistent_twoClients (by decide)).1
    (by decide)
  have h2 := (migrate_seed_state envAll twoColumns 0 consistent_twoColumns (by decide)).2
    (by decide)
  have hf : twoClients.clients.filter (eligibleOn envAll twoClients 0) = [0, 1] := by decide
  have hb : twoClients.brk = 0 := rfl
  rw [hf, hb] at h1
  exact ⟨by simpa using h1.1, by simpa using h1.2.1, h2⟩

end Scroller
